import Mathlib

/-!
Verification of the XML-salvage / heuristic-inference core of
`fpc_utilisasi.py` (network monitoring report generator).

The Python source is shallowly embedded: Python strings become `List Char`,
Python string methods (`find`, `rfind`, `count`, `strip`, `replace`, slicing)
become executable Lean functions with the same semantics, `dict` becomes an
association list with first-match lookup and insert-or-overwrite update,
exceptions are modeled by `Option`/`Except`, and the XML library
(`xml.dom.minidom`) is modeled by an executable parser/DOM over an inductive
node type.  All definitions are computable so that concrete claims can be
settled by evaluation.
-/

set_option maxRecDepth 20000

namespace FpcUtil


/- ############ Definitions ############ -/

/-- Python strings are modeled as lists of characters. -/
abbrev Str := List Char

/-- Coerce a Lean string literal to the model type. -/
def str (s : String) : Str := s.toList

/-- `occursAt pat s i` : the pattern `pat` occurs in `s` starting at index `i`
(the whole pattern fits inside `s`). -/
def occursAt (pat s : Str) (i : Nat) : Prop := pat <+: s.drop i

instance (pat s : Str) (i : Nat) : Decidable (occursAt pat s i) := by
  unfold occursAt
  infer_instance

/-- All indices at which `pat` occurs in `s`, in increasing order
(for nonempty `pat`; used as the specification device for `find`/`rfind`/
`count`). -/
def positions (pat : Str) : Str → List Nat
  | [] => if pat.isPrefixOf ([] : Str) then [0] else []
  | c :: t =>
      (if pat.isPrefixOf (c :: t) then [0] else []) ++
        (positions pat t).map (· + 1)

/-- Python `s.find(pat, start)`, scanning helper over the remaining suffix. -/
def findFromAux (pat : Str) : Str → Option Nat
  | [] => if pat.isPrefixOf ([] : Str) then some 0 else none
  | c :: t =>
      if pat.isPrefixOf (c :: t) then some 0
      else (findFromAux pat t).map (· + 1)

/-- Python `s.find(pat, start)`; `none` models the return value `-1`. -/
def pyFind (pat s : Str) (start : Nat) : Option Nat :=
  (findFromAux pat (s.drop start)).map (· + start)

/-- Python `s.rfind(pat, 0, stop)`: the greatest index of an occurrence lying
entirely inside `s[0:stop]`; `none` models `-1`. -/
def pyRFindWithin (pat s : Str) (stop : Nat) : Option Nat :=
  ((List.range (stop + 1)).filter
    (fun i => pat.isPrefixOf (s.drop i) && decide (i + pat.length ≤ stop))).getLast?

/-- Python `s.rfind(pat)`. -/
def pyRFind (pat s : Str) : Option Nat := pyRFindWithin pat s s.length

/-- Fuel-driven scanner implementing Python `s.count(pat)`:
left-to-right, non-overlapping. -/
def pyCountFuel (pat : Str) : Nat → Str → Nat
  | 0, _ => 0
  | f + 1, s =>
      if (!pat.isEmpty) && pat.isPrefixOf s then
        1 + pyCountFuel pat f (s.drop pat.length)
      else
        match s with
        | [] => 0
        | _ :: t => pyCountFuel pat f t

/-- Python `s.count(pat)` (left-to-right, non-overlapping count). -/
def pyCount (pat s : Str) : Nat := pyCountFuel pat s.length s

/-- `pat` cannot overlap a shifted copy of itself (no nontrivial border).
All patterns counted by the Python source satisfy this, which makes the
non-overlapping count agree with the number of occurrence positions. -/
def NoOverlap (pat : Str) : Prop :=
  ∀ k < pat.length, 0 < k → ¬ (pat.drop k <+: pat)

instance (pat : Str) : Decidable (NoOverlap pat) := by
  unfold NoOverlap
  infer_instance

/-- No occurrence of `pat` in `x ++ y` straddles the boundary. -/
def CrossFree (pat x y : Str) : Prop :=
  ∀ i, i < x.length → x.length < i + pat.length → ¬ occursAt pat (x ++ y) i

/- ### More Python string primitives -/

/-- The characters Python `str.strip()` removes by default. -/
def isPySpace (c : Char) : Bool :=
  c = ' ' || c = '\t' || c = '\n' || c = '\r' || c = '\x0b' || c = '\x0c'

/-- Python `s.strip()`. -/
def pyStrip (s : Str) : Str :=
  ((s.dropWhile isPySpace).reverse.dropWhile isPySpace).reverse

/-- Python `s.strip(chars)`. -/
def pyStripChars (s : Str) (chars : Str) : Str :=
  ((s.dropWhile (chars.contains ·)).reverse.dropWhile (chars.contains ·)).reverse

/-- Python `s.lower()` (ASCII). -/
def pyLower (s : Str) : Str := s.map Char.toLower

/-- Python `s.upper()` (ASCII). -/
def pyUpper (s : Str) : Str := s.map Char.toUpper

/-- Python `pat in s` (substring containment). -/
def pyIn (pat s : Str) : Bool := (findFromAux pat s).isSome

/-- Python `s.startswith(pat)`. -/
def pyStartsWith (s pat : Str) : Bool := pat.isPrefixOf s

/-- Python `s.endswith(pat)`. -/
def pyEndsWith (s pat : Str) : Bool := pat.isSuffixOf s

/-- Scanner for Python `s.replace(old, new)`: left-to-right, non-overlapping,
replace all. -/
def pyReplaceFuel (pat rep : Str) : Nat → Str → Str
  | 0, s => s
  | f + 1, s =>
      if (!pat.isEmpty) && pat.isPrefixOf s then
        rep ++ pyReplaceFuel pat rep f (s.drop pat.length)
      else
        match s with
        | [] => []
        | c :: t => c :: pyReplaceFuel pat rep f t

/-- Python `s.replace(old, new)` (all occurrences; `old` nonempty in every
use the source makes). -/
def pyReplace (s pat rep : Str) : Str := pyReplaceFuel pat rep s.length s

/-- Python `s.ljust(n, fill)`. -/
def pyLjust (s : Str) (n : Nat) (fill : Char) : Str :=
  s ++ List.replicate (n - s.length) fill

/-- Decimal rendering of a natural number, as Python `str(int)` produces. -/
def natStrAux : Nat → Nat → Str
  | 0, _ => []
  | f + 1, n =>
      if n < 10 then [Char.ofNat (48 + n)]
      else natStrAux f (n / 10) ++ [Char.ofNat (48 + n % 10)]

def natStr (n : Nat) : Str := natStrAux (n + 1) n

/- ### Python `dict` as an ordered association list -/

/-- Python `d.get(k)` / `d[k]`: first-match lookup. -/
def lookupD {α : Type} (m : List (Str × α)) (k : Str) : Option α :=
  (m.find? (fun kv => kv.1 == k)).map (·.2)

/-- Python `k in d`. -/
def containsD {α : Type} (m : List (Str × α)) (k : Str) : Bool :=
  (lookupD m k).isSome

/-- Python `d[k] = v`: overwrite in place if present, else append
(insertion-ordered dict semantics). -/
def setD {α : Type} : List (Str × α) → Str → α → List (Str × α)
  | [], k, v => [(k, v)]
  | (k2, v2) :: t, k, v =>
      if k2 == k then (k2, v) :: t else (k2, v2) :: setD t k v

/- ================================================================
   C7 : `_generate_realistic_serial` (source lines 5119-5152)
   ================================================================ -/

/-- The `patterns` table of `_generate_realistic_serial`:
component type ↦ (serial prefix, total serial length). -/
def serial_patterns : List (Str × (Str × Nat)) :=
  [(str "Chassis", (str "JN", 12)),
   (str "Midplane", (str "AC", 8)),
   (str "Routing Engine", (str "CAM", 8)),
   (str "Control Board", (str "CAM", 8)),
   (str "FPC", (str "CA", 8)),
   (str "PEM", (str "QCS", 10)),
   (str "Fan Tray", (str "ACD", 8)),
   (str "MIC", (str "CA", 8)),
   (str "PIC", (str "CA", 8)),
   (str "PDM", (str "QCS", 10)),
   (str "FPM", (str "CAD", 8))]

/-- Embedding of `_generate_realistic_serial(component_type, node_name,
slot_position)`.  `hashlib.md5(...).hexdigest().upper()` is an external,
deterministic library function of the input bytes; the model is parameterized
by it (`md5HexUpper`). -/
def _generate_realistic_serial (md5HexUpper : Str → Str)
    (component_type node_name slot_position : Str) : Str :=
  let pr := (lookupD serial_patterns component_type).getD (str "CA", 8)
  let pfx := pr.1
  let total_length := pr.2
  let suffix_length := total_length - pfx.length
  let hash_input := node_name ++ str "_" ++ component_type ++ str "_" ++
    slot_position
  let hash_hex := md5HexUpper hash_input
  let valid_chars := hash_hex.filter
    (fun c => (decide ('A' ≤ c) && decide (c ≤ 'Z')) || c.isDigit)
  let suffix := pyLjust (valid_chars.take suffix_length) suffix_length '0'
  pfx ++ suffix

/- ================================================================
   C10 : `add_xcvr_map` (lines 3683-3706) and `_lookup_xcvr_label`
   (lines 6347-6379)
   ================================================================ -/

/-- The `parts` list of `add_xcvr_map`: the stringified coordinates that are
not `None`, in the order fpc, pic, port. -/
def xcvrParts (fpc pic port : Option Nat) : List Str :=
  (match fpc with | some v => [natStr v] | none => []) ++
  (match pic with | some v => [natStr v] | none => []) ++
  (match port with | some v => [natStr v] | none => [])

/-- The `combos` list of `add_xcvr_map`. -/
def xcvrCombos (parts : List Str) : List Str :=
  if parts.length = 3 then
    [List.intercalate (str "/") parts,
     List.intercalate (str "/") (parts.drop 1),
     parts.getD 2 []]
  else if parts.length = 2 then
    [List.intercalate (str "/") parts, parts.getD 1 []]
  else if parts.length = 1 then
    [parts.getD 0 []]
  else []

/-- Body of the `for k in combos` loop of `add_xcvr_map`. -/
def addCombosStep (label : Str) (acc : List (Str × Str)) (k : Str) :
    List (Str × Str) :=
  if !k.isEmpty then
    let key := pyStrip k
    if !key.isEmpty && !containsD acc key then setD acc key label else acc
  else acc

/-- Embedding of the nested helper `add_xcvr_map(fpc, pic, port, label)` of
`_build_chassis_maps`.  The closure mutates `xcvr_map`; here the map is
passed and returned.  Coordinates are the integers the callers pass
(`str(...)` becomes `natStr`). -/
def add_xcvr_map (xcvr_map : List (Str × Str)) (fpc pic port : Option Nat)
    (label : Str) : List (Str × Str) :=
  let m1 := (xcvrCombos (xcvrParts fpc pic port)).foldl
    (addCombosStep label) xcvr_map
  match port with
  | some p =>
      let pstr := natStr p
      if !containsD m1 pstr then setD m1 pstr label else m1
  | none => m1

/-- The `for k in keys_to_try` loop of `_lookup_xcvr_label`:
return the first key that is present with a truthy (nonempty) value. -/
def lookupLoop (m : List (Str × Str)) : List Str → Option Str
  | [] => none
  | k :: rest =>
      match lookupD m k with
      | some v => if !v.isEmpty then some v else lookupLoop m rest
      | none => lookupLoop m rest

/-- Embedding of `_lookup_xcvr_label(xcvr_map, fpc, pic, port)`. -/
def _lookup_xcvr_label (xcvr_map : List (Str × Str))
    (fpc pic port : Option Nat) : Str :=
  if xcvr_map.isEmpty then []
  else
    let keys_to_try : List Str :=
      match fpc, pic, port with
      | some f, some p, some pt =>
          [natStr f ++ str "/" ++ natStr p ++ str "/" ++ natStr pt,
           natStr p ++ str "/" ++ natStr pt,
           natStr pt]
      | none, some p, some pt =>
          [natStr p ++ str "/" ++ natStr pt, natStr pt]
      | _, _, some pt => [natStr pt]
      | _, _, none => []
    match lookupLoop xcvr_map keys_to_try with
    | some v => v
    | none =>
        match port with
        | some pt =>
            match xcvr_map.find? (fun kv =>
              (pyEndsWith kv.1 ('/' :: natStr pt) || kv.1 == natStr pt) &&
                !kv.2.isEmpty) with
            | some kv => kv.2
            | none => []
        | none => []

/- ================================================================
   C5 / C6 : the SFP heuristic-inference chain
   `_analyze_adjacent_ports` (4275-4335),
   `_analyze_port_group_patterns` (4337-4380),
   `_is_fase3_candidate` (4382-4444),
   `_analyze_consecutive_deployment_patterns` (4446-4551),
   `_smart_sfp_inference` (4553-4706)
   ================================================================ -/

/-- `int(...)` on a digit string. -/
def digitsToNat (d : Str) : Nat := d.foldl (fun a c => a * 10 + (c.toNat - 48)) 0

/-- Python `str(int)` for possibly negative values. -/
def intStr (i : Int) : Str :=
  if i < 0 then '-' :: natStr i.natAbs else natStr i.toNat

/-- `re.match(r'([gx]e)-(\\d+)/(\\d+)/(\\d+)', interface)`: anchored prefix
match, greedy digit groups; returns (iface_type, fpc, pic, port). -/
def parseIfaceMatch (s : Str) : Option (Str × Nat × Nat × Nat) :=
  match s with
  | t1 :: 'e' :: '-' :: rest =>
      if t1 = 'g' ∨ t1 = 'x' then
        if rest.takeWhile Char.isDigit ≠ [] then
          match rest.dropWhile Char.isDigit with
          | '/' :: r2 =>
              if r2.takeWhile Char.isDigit ≠ [] then
                match r2.dropWhile Char.isDigit with
                | '/' :: r4 =>
                    if r4.takeWhile Char.isDigit ≠ [] then
                      some ([t1, 'e'],
                        digitsToNat (rest.takeWhile Char.isDigit),
                        digitsToNat (r2.takeWhile Char.isDigit),
                        digitsToNat (r4.takeWhile Char.isDigit))
                    else none
                | _ => none
              else none
          | _ => none
        else none
      else none
  | _ => none

/-- Result record of the helper analyzers (`confidence_boost`, `evidence`,
`suggested_sfp`). -/
structure AdjEvidence where
  confidence_boost : Nat
  evidence : List Str
  suggested_sfp : Option Str
  deriving DecidableEq

/-- The adjacent-port list of `_analyze_adjacent_ports`. -/
def adjacentPorts (ty : Str) (fpc pic port : Nat) : List Str :=
  [ty ++ str "-" ++ natStr fpc ++ str "/" ++ natStr pic ++ str "/" ++
    intStr ((port : Int) - 1),
   ty ++ str "-" ++ natStr fpc ++ str "/" ++ natStr pic ++ str "/" ++
    intStr ((port : Int) + 1)]

/-- The `(confidence_boost, evidence, suggested_sfp)` accumulation of
`_analyze_adjacent_ports` after a successful coordinate parse. -/
def adjacentState (ty : Str) (fpc pic port : Nat)
    (neighbors_map : List (Str × Str)) : Nat × List Str × Option Str :=
  let adjacent_with_neighbors :=
    (adjacentPorts ty fpc pic port).filter (fun ap => containsD neighbors_map ap)
  let st1 : Nat × List Str × Option Str :=
    if !adjacent_with_neighbors.isEmpty then
      (25,
       [str "Adjacent ports have LLDP: " ++
         List.intercalate (str ", ") adjacent_with_neighbors],
       if ty == str "ge" then some (str "SFP-T (adjacent pattern)")
       else if ty == str "xe" then some (str "SFP+ (adjacent pattern)")
       else if ty == str "et" then some (str "QSFP+ (adjacent pattern)")
       else none)
    else (0, [], none)
  if 4 ≤ port ∧ port ≤ 7 ∧ pic = 2 ∧ fpc = 0 then
    (st1.1 + 15,
     st1.2.1 ++ [str
       "Part of consecutive port group 0/2/4-7 - likely uniform SFP deployment"],
     if st1.2.2.isNone ∧ ty == str "ge" then
       some (str "SFP-T (group pattern)")
     else st1.2.2)
  else st1

/-- Embedding of `_analyze_adjacent_ports`. -/
def _analyze_adjacent_ports (interface : Str) (all_interfaces_data : Bool)
    (neighbors_map : List (Str × Str)) (node_name : Str) :
    Option AdjEvidence :=
  match parseIfaceMatch interface with
  | none => none
  | some (ty, fpc, pic, port) =>
      let st2 := adjacentState ty fpc pic port neighbors_map
      if st2.1 > 0 then some ⟨st2.1, st2.2.1, st2.2.2⟩ else none

/-- The `(confidence_boost, evidence, suggested_sfp)` accumulation of
`_analyze_port_group_patterns` after a successful coordinate parse. -/
def groupState (ty : Str) (fpc pic port : Nat) (node_name : Str) :
    Nat × List Str × Option Str :=
  let st1 : Nat × List Str × Option Str :=
    if node_name == str "R3.KYA.PE-MOBILE.2" ∧ ty == str "ge" ∧
        fpc = 0 ∧ pic = 2 ∧ 4 ≤ port ∧ port ≤ 7 then
      (15,
       [str "R3.KYA.PE-MOBILE.2 ge-0/2/x group - typically SFP-T deployment"],
       some (str "SFP-T (node pattern)"))
    else (0, [], none)
  if pic = 2 then
    (st1.1 + 10,
     st1.2.1 ++ [str "PIC 2 typically used for access - likely SFP-T"],
     if st1.2.2.isNone ∧ ty == str "ge" then
       some (str "SFP-T (PIC pattern)")
     else st1.2.2)
  else st1

/-- Embedding of `_analyze_port_group_patterns`. -/
def _analyze_port_group_patterns (interface node_name : Str) :
    Option AdjEvidence :=
  match parseIfaceMatch interface with
  | none => none
  | some (ty, fpc, pic, port) =>
      let st2 := groupState ty fpc pic port node_name
      if st2.1 > 0 then some ⟨st2.1, st2.2.1, st2.2.2⟩ else none

/-- Embedding of `_is_fase3_candidate`. -/
def _is_fase3_candidate (interface node_name : Str) : Bool :=
  match parseIfaceMatch interface with
  | none => false
  | some (ty, fpc, pic, port) =>
      if ty == str "xe" then true
      else if (node_name == str "R4.NSK.PE-MOBILE.2" && ty == str "ge" &&
                fpc == 0 && pic == 2 && decide (2 ≤ port) &&
                decide (port ≤ 6)) ||
              (node_name == str "R3.KYA.PE-MOBILE.1" && ty == str "ge" &&
                fpc == 0 && pic == 2 && decide (10 ≤ port) &&
                decide (port ≤ 19)) ||
              (node_name == str "R3.KYA.PE-MOBILE.2" && ty == str "ge" &&
                fpc == 0 && pic == 2 &&
                (decide (port ≤ 3) ||
                 (decide (8 ≤ port) && decide (port ≤ 11)) ||
                 (decide (16 ≤ port) && decide (port ≤ 19)))) then true
      else if (fpc == 0 && pic == 3) || (fpc == 3 && pic == 0) ||
              (fpc == 3 && pic == 1) then true
      else if pyStartsWith node_name (str "R3.KYA") && ty == str "ge" then
        decide (port % 5 = 0) || decide (port ≤ 3) ||
          (decide (20 ≤ port) && decide (port ≤ 23))
      else false

/-- The first-matching consecutive-group pattern of
`_analyze_consecutive_deployment_patterns`:
`(confidence, evidence, sfp)`. -/
def consecChoice (ty : Str) (fpc pic port : Nat) (node_name : Str) :
    Option (Nat × Str × Str) :=
  if node_name == str "R4.NSK.PE-MOBILE.2" ∧ ty == str "ge" ∧
      fpc = 0 ∧ pic = 2 ∧ 2 ≤ port ∧ port ≤ 6 then
    some (45, str "Part of R4.NSK consecutive group 0/2/2-6 (5 ports)",
      str "SFP-T (consecutive deployment)")
  else if node_name == str "R3.KYA.PE-MOBILE.1" ∧ ty == str "ge" ∧
      fpc = 0 ∧ pic = 2 ∧ 10 ≤ port ∧ port ≤ 19 then
    some (50,
      str "Part of R3.KYA large consecutive group 0/2/10-19 (10 ports)",
      str "SFP-T (large deployment)")
  else if node_name == str "R3.KYA.PE-MOBILE.2" ∧ ty == str "ge" ∧
      fpc = 0 ∧ pic = 2 ∧ port ≤ 3 then
    some (40, str "Part of R3.KYA consecutive group 0/2/0-3 (4 ports)",
      str "SFP-T (deployment start)")
  else if node_name == str "R3.KYA.PE-MOBILE.2" ∧ ty == str "ge" ∧
      fpc = 0 ∧ pic = 2 ∧ 8 ≤ port ∧ port ≤ 11 then
    some (40, str "Part of R3.KYA consecutive group 0/2/8-11 (4 ports)",
      str "SFP-T (deployment middle)")
  else if node_name == str "R3.KYA.PE-MOBILE.2" ∧ ty == str "ge" ∧
      fpc = 0 ∧ pic = 2 ∧ 16 ≤ port ∧ port ≤ 19 then
    some (40, str "Part of R3.KYA consecutive group 0/2/16-19 (4 ports)",
      str "SFP-T (deployment end)")
  else none

/-- The first-matching high-density range pattern (consulted only when no
consecutive pattern matched). -/
def densChoice (fpc pic : Nat) : Option (Nat × Str × Str) :=
  if fpc = 0 ∧ pic = 3 then
    some (35, str "High-density range 0/3/x (25 total UNUSED ports)",
      str "SFP-T (high-density deployment)")
  else if fpc = 3 ∧ pic = 0 then
    some (35, str "High-density range 3/0/x (20 total UNUSED ports)",
      str "SFP-T (standardized deployment)")
  else if fpc = 3 ∧ pic = 1 then
    some (35, str "High-density range 3/1/x (20 total UNUSED ports)",
      str "SFP-T (standardized deployment)")
  else none

/-- Embedding of `_analyze_consecutive_deployment_patterns`. -/
def _analyze_consecutive_deployment_patterns (interface node_name : Str) :
    Option AdjEvidence :=
  match parseIfaceMatch interface with
  | none => none
  | some (ty, fpc, pic, port) =>
      match consecChoice ty fpc pic port node_name with
      | some (c, e, sg) => some ⟨c, [e], some sg⟩
      | none =>
          match densChoice fpc pic with
          | some (c, e, sg) => some ⟨c, [e], some sg⟩
          | none => none

/-- `(confidence_score, inferred_sfp, evidence)` running state of
`_smart_sfp_inference`. -/
abbrev SfpState := Nat × Str × List Str

/-- The `sfp_keywords` list of Evidence 1. -/
def sfp_keywords : List Str :=
  [str "fiber", str "sfp", str "optical", str "10g", str "1g", str "copper",
   str "dac", str "aoc"]

/-- Evidence 1: interface-description keyword analysis. -/
def stepDesc (interface : Str) (descriptions_map : List (Str × Str))
    (st : SfpState) : SfpState :=
  let desc := pyLower ((lookupD descriptions_map interface).getD [])
  if !desc.isEmpty then
    let found := sfp_keywords.filter (fun kw => pyIn kw desc)
    if !found.isEmpty then
      let ev := st.2.2 ++
        [str "Description contains: " ++ List.intercalate (str ", ") found]
      let sfp :=
        if pyIn (str "10g") desc || pyIn (str "10gig") desc ||
            pyIn (str "sfp+") desc then str "SFP+ (from description)"
        else if pyIn (str "1g") desc || pyIn (str "1gig") desc ||
            pyIn (str "copper") desc then str "SFP-T (from description)"
        else if pyIn (str "fiber") desc || pyIn (str "optical") desc then
          str "SFP (from description)"
        else st.2.1
      (st.1 + 30, sfp, ev)
    else st
  else st

/-- Evidence 2: LLDP neighbor discovery. -/
def stepLldp (interface : Str) (neighbors_map : List (Str × Str))
    (st : SfpState) : SfpState :=
  match lookupD neighbors_map interface with
  | some neighbor =>
      let ev := st.2.2 ++ [str "LLDP neighbor: " ++ neighbor]
      let sfp :=
        if st.2.1 == str "Unknown SFP" then
          if pyStartsWith interface (str "xe-") then
            str "SFP+ (LLDP confirmed)"
          else if pyStartsWith interface (str "ge-") then
            str "SFP-T (LLDP confirmed)"
          else if pyStartsWith interface (str "et-") then
            str "QSFP+ (LLDP confirmed)"
          else st.2.1
        else st.2.1
      (st.1 + 40, sfp, ev)
  | none => st

/-- FASE 2 enhancement: adjacent-port analysis (gated on
`all_interfaces_data` truthy and score `< 40`). -/
def stepAdjacent (interface : Str) (all_interfaces_data : Bool)
    (neighbors_map : List (Str × Str)) (node_name : Str) (st : SfpState) :
    SfpState :=
  if all_interfaces_data ∧ st.1 < 40 then
    match _analyze_adjacent_ports interface all_interfaces_data neighbors_map
        node_name with
    | some ae =>
        (st.1 + ae.confidence_boost,
         (if st.2.1 == str "Unknown SFP" then
            match ae.suggested_sfp with
            | some sg => sg
            | none => st.2.1
          else st.2.1),
         st.2.2 ++ ae.evidence)
    | none => st
  else st

/-- Evidence 3 for USED interfaces: interface-type heuristics. -/
def stepUsedType (interface : Str) (st : SfpState) : SfpState :=
  if pyStartsWith interface (str "xe-") then
    (st.1 + 15,
     (if st.2.1 == str "Unknown SFP" then str "SFP+ (type inference)"
      else st.2.1),
     st.2.2 ++ [str "10G interface in USED state - likely has SFP+"])
  else if pyStartsWith interface (str "ge-") then
    (st.1 + 15,
     (if st.2.1 == str "Unknown SFP" then str "SFP-T (type inference)"
      else st.2.1),
     st.2.2 ++ [str "1G interface in USED state - likely has SFP-T"])
  else if pyStartsWith interface (str "et-") then
    (st.1 + 15,
     (if st.2.1 == str "Unknown SFP" then str "QSFP+ (type inference)"
      else st.2.1),
     st.2.2 ++ [str "100G interface in USED state - likely has SFP+"])
  else st

/-- FASE 2 port-group pattern analysis for USED interfaces (gated on score
`< 40`). -/
def stepUsedGroup (interface node_name : Str) (st : SfpState) : SfpState :=
  if st.1 < 40 then
    match _analyze_port_group_patterns interface node_name with
    | some ge2 =>
        (st.1 + ge2.confidence_boost,
         (if st.2.1 == str "Unknown SFP" then
            match ge2.suggested_sfp with
            | some sg => sg
            | none => st.2.1
          else st.2.1),
         st.2.2 ++ ge2.evidence)
    | none => st
  else st

/-- Evidence 3 for UNUSED interfaces: high-speed interface prioritization. -/
def stepUnusedType (interface : Str) (st : SfpState) : SfpState :=
  if pyStartsWith interface (str "xe-") then
    (st.1 + 25,
     (if st.2.1 == str "Unknown SFP" then str "SFP+ (high-speed inference)"
      else st.2.1),
     st.2.2 ++ [str "xe- interface - high-speed deployment likely has SFP+"])
  else if pyStartsWith interface (str "ge-") then
    (st.1 + 10,
     (if st.2.1 == str "Unknown SFP" then str "SFP-T (standard inference)"
      else st.2.1),
     st.2.2 ++ [str "ge- interface - standard deployment"])
  else if pyStartsWith interface (str "et-") then
    (st.1 + 20,
     (if st.2.1 == str "Unknown SFP" then
        str "QSFP+ (ultra-high-speed inference)"
      else st.2.1),
     st.2.2 ++
       [str "et- interface - ultra-high-speed deployment likely has QSFP+"])
  else st

/-- FASE 3 consecutive-deployment-pattern analysis for UNUSED interfaces. -/
def stepConsecutive (interface node_name : Str) (st : SfpState) : SfpState :=
  match _analyze_consecutive_deployment_patterns interface node_name with
  | some ce =>
      (st.1 + ce.confidence_boost,
       (if st.2.1 == str "Unknown SFP" then
          match ce.suggested_sfp with
          | some sg => sg
          | none => st.2.1
        else st.2.1),
       st.2.2 ++ ce.evidence)
  | none => st

/-- The evidence-accumulation body of `_smart_sfp_inference` (after the
status guards), producing `(confidence_score, inferred_sfp, evidence)`. -/
def sfpCore (interface status : Str)
    (descriptions_map neighbors_map : List (Str × Str)) (node_name : Str)
    (all_interfaces_data : Bool) : SfpState :=
  let st0 : SfpState := (0, str "Unknown SFP", [])
  let st1 := stepDesc interface descriptions_map st0
  let st2 := stepLldp interface neighbors_map st1
  let st3 := stepAdjacent interface all_interfaces_data neighbors_map
    node_name st2
  if status == str "USED" then
    let st4 := stepUsedType interface st3
    let st5 : SfpState := (st4.1 + 20, st4.2.1, st4.2.2 ++
      [str "Interface marked as USED - configuration suggests physical SFP"])
    stepUsedGroup interface node_name st5
  else
    let st4 := stepUnusedType interface st3
    let st5 := stepConsecutive interface node_name st4
    (st5.1 + 15, st5.2.1, st5.2.2 ++
      [str "UNUSED interface in targeted deployment pattern - infrastructure suggests SFP presence"])

/-- Result record of `_smart_sfp_inference`. -/
structure SfpInferenceResult where
  sfp_status : Str
  confidence : Nat
  evidence : List Str
  method : Str
  deriving DecidableEq

/-- Embedding of `_smart_sfp_inference(interface, status, descriptions_map,
neighbors_map, node_name, all_interfaces_data)`.  `all_interfaces_data` is
only ever tested for truthiness, so it is modeled as a `Bool`. -/
def _smart_sfp_inference (interface status : Str)
    (descriptions_map neighbors_map : List (Str × Str)) (node_name : Str)
    (all_interfaces_data : Bool) : Option SfpInferenceResult :=
  if ¬ (status = str "USED" ∨ status = str "UNUSED") then none
  else if status = str "UNUSED" ∧
      ¬ (_is_fase3_candidate interface node_name = true) then none
  else
    if (sfpCore interface status descriptions_map neighbors_map node_name
        all_interfaces_data).1 ≥ (if status = str "USED" then 30 else 40) then
      some ⟨(sfpCore interface status descriptions_map neighbors_map
              node_name all_interfaces_data).2.1,
            (sfpCore interface status descriptions_map neighbors_map
              node_name all_interfaces_data).1,
            (sfpCore interface status descriptions_map neighbors_map
              node_name all_interfaces_data).2.2,
            (if status = str "UNUSED" then str "SMART_INFERENCE_FASE3"
             else if (sfpCore interface status descriptions_map neighbors_map
                node_name all_interfaces_data).1 < 50 then
               str "SMART_INFERENCE_FASE2"
             else str "SMART_INFERENCE_FASE1")⟩
    else none

/- ================================================================
   C8 : `validate_hardware_data` (source lines 4933-5057)
   ================================================================ -/

/-- One flat hardware-component record (a Python dict in the source;
`is_actual` is the truthiness of the `is_actual` key). -/
structure HardwareComponent where
  component_type : Str
  slot_position : Str
  part_number : Str
  serial_number : Str
  model_description : Str
  version : Str
  status : Str
  comments : Str
  is_actual : Bool
  deriving DecidableEq

/-- The `test_identifiers` set. -/
def test_identifiers : List Str :=
  [str "750-056519", str "JN1230EB8AFA", str "ACRB2367"]

/-- Python `x not in [None, '', 'N/A']` for a string field. -/
def notNA (s : Str) : Bool := !s.isEmpty && !(s == str "N/A")

/-- The Check-3 cleanup: replace `TEST1NW` model descriptions and scrub
`TEST` from comments. -/
def cleanTestComponent (h : HardwareComponent) : HardwareComponent :=
  let h1 :=
    if pyIn (str "TEST1NW") h.model_description = true then
      { h with model_description :=
          if h.component_type = str "MIC" then str "MIC Interface Card"
          else if h.component_type = str "PIC" then str "PIC Interface Card"
          else h.component_type ++ str " Module" }
    else h
  if pyIn (str "TEST") (pyUpper h1.comments) = true then
    { h1 with comments :=
        pyReplace (pyReplace h1.comments (str "TEST1NW")
          (str "Interface Module")) (str "TEST") (str "Module") }
  else h1

/-- Decision and cleanup for one component of `validate_hardware_data`:
`none` means the entry is removed, `some h2` means `h2` is appended to the
cleaned list. -/
def validate_one (md5HexUpper : Str → Str) (node_name : Str)
    (h : HardwareComponent) : Option HardwareComponent :=
  if node_name = str "R3.KYA.PE-MOBILE.2" ∧
      (h.component_type = str "Chassis" ∨ h.component_type = str "Midplane") ∧
      notNA h.serial_number = true ∧ notNA h.part_number = true ∧
      notNA h.model_description = true then some h
  else if h.component_type = str "FPC" ∧
      pyIn (str "FPC 7") h.slot_position = true ∧
      h.serial_number = str "CAKD0776" then some h
  else if h.component_type = str "CPU" ∧
      pyIn (str "FPC 7") h.slot_position = true ∧
      h.serial_number = str "N/A" then some h
  else if pyIn (str "TEST") (pyUpper h.model_description) = true ∨
      pyIn (str "TEST") (pyUpper h.comments) = true then
    some (cleanTestComponent h)
  else if h.serial_number ∈ test_identifiers then
    if h.component_type = str "FPM" then some h
    else if h.component_type = str "FPC" ∧
        pyIn (str "FPC 7") h.slot_position = true then some h
    else if node_name = str "R3.KYA.PE-MOBILE.2" ∧
        (h.component_type = str "Chassis" ∨
          h.component_type = str "Midplane") ∧
        notNA h.serial_number = true ∧ notNA h.part_number = true ∧
        notNA h.model_description = true ∧ h.is_actual = true then some h
    else none
  else if h.part_number ∈ test_identifiers then
    if h.serial_number ∈ test_identifiers then
      some { h with
        serial_number := _generate_realistic_serial md5HexUpper
          h.component_type node_name h.slot_position,
        comments := pyStrip (h.comments ++ str " [Test serial " ++
          h.serial_number ++ str " replaced with realistic serial]") }
    else some h
  else some h

/-- Embedding of `validate_hardware_data(hardware_list, node_name)`. -/
def validate_hardware_data (md5HexUpper : Str → Str)
    (hardware_list : List HardwareComponent) (node_name : Str) :
    List HardwareComponent :=
  hardware_list.filterMap (validate_one md5HexUpper node_name)

/- ================================================================
   C1 : `_repair_chassis_module_xml` (source lines 3141-3275)
   ================================================================ -/

/-- The `while True: pos = s.find(pat, pos) ... pos += len(pat)` scan of the
source: all occurrence positions, advancing past each match. -/
def scanPositions (pat : Str) : Nat → Str → Nat → List Nat
  | 0, _, _ => []
  | f + 1, s, base =>
      if (!pat.isEmpty) && pat.isPrefixOf s then
        base :: scanPositions pat f (s.drop pat.length) (base + pat.length)
      else
        match s with
        | [] => []
        | _ :: t => scanPositions pat f t (base + 1)

/-- All (non-overlapping) occurrence positions of `pat` in `s`. -/
def pyFindAll (pat s : Str) : List Nat := scanPositions pat s.length s 0

/-- Insert a tag into a position-sorted tag list (insertion step of
`chassis_tags.sort(key=lambda x: x[1])`; the scanned positions are pairwise
distinct, so any comparison sort by position agrees with Python\'s stable
sort here). -/
def insertPos (a : Bool × Nat) : List (Bool × Nat) → List (Bool × Nat)
  | [] => [a]
  | b :: t => if b.2 ≤ a.2 then b :: insertPos a t else a :: b :: t

/-- Sort a tag list by position. -/
def sortByPos : List (Bool × Nat) → List (Bool × Nat)
  | [] => []
  | a :: t => insertPos a (sortByPos t)

/-- The merged, position-sorted open/close tag list of
`_repair_chassis_module_xml` (`true` = opening tag). -/
def chassisTags (s : Str) : List (Bool × Nat) :=
  sortByPos
    (((pyFindAll (str "<chassis-module>") s).map (fun p => (true, p))) ++
      ((pyFindAll (str "</chassis-module>") s).map (fun p => (false, p))))

/-- The stack walk of the repair: returns the final stack of unclosed
opening-tag positions and the number of unexpected closing tags. -/
def stackWalk : List (Bool × Nat) → List Nat → Nat → (List Nat × Nat)
  | [], stack, u => (stack, u)
  | (true, p) :: rest, stack, u => stackWalk rest (stack ++ [p]) u
  | (false, _) :: rest, stack, u =>
      match stack with
      | [] => stackWalk rest [] (u + 1)
      | _ => stackWalk rest stack.dropLast u

/-- The ordered `insertion_candidates` list. -/
def insertion_candidates : List Str :=
  [str "</chassis-inventory>", str "</chassis>", str "</inventory>",
   str "</fpc-information>"]

/-- The `for candidate in insertion_candidates` loop: the first candidate
found by `rfind(candidate, 0, rpc_end)` determines the insertion point,
defaulting to `rpc_end`. -/
def insertCandLoop (s : Str) (rpc_end : Nat) : List Str → Nat
  | [] => rpc_end
  | cand :: rest =>
      match pyRFindWithin cand s rpc_end with
      | some p => p + cand.length
      | none => insertCandLoop s rpc_end rest

/-- The synthetic closing tags inserted by the repair:
`'    </chassis-module>\\n' * len(unclosed_positions)`. -/
def missingTags (s : Str) : Str :=
  (List.replicate (stackWalk (chassisTags s) [] 0).1.length
    (str "    </chassis-module>\n")).flatten

/-- The chosen insertion point before `</rpc-reply>`. -/
def repairInsertPos (s : Str) (rpc_end : Nat) : Nat :=
  insertCandLoop s rpc_end insertion_candidates

/-- The repaired string when `</rpc-reply>` is present. -/
def repairedMid (s : Str) (rpc_end : Nat) : Str :=
  s.take (repairInsertPos s rpc_end) ++ str "\n" ++ missingTags s ++
    s.drop (repairInsertPos s rpc_end)

/-- The repaired string when `</rpc-reply>` is absent (append at end). -/
def repairedEnd (s : Str) : Str := s ++ missingTags s

/-- Embedding of `_repair_chassis_module_xml(xml_fragment)`. -/
def _repair_chassis_module_xml (xml_fragment : Str) : Str :=
  if ((chassisTags xml_fragment).filter (fun t => t.1)).length =
      ((chassisTags xml_fragment).filter (fun t => !t.1)).length then
    xml_fragment
  else if ((chassisTags xml_fragment).filter (fun t => t.1)).length >
      ((chassisTags xml_fragment).filter (fun t => !t.1)).length then
    if (stackWalk (chassisTags xml_fragment) [] 0).1 ≠ [] then
      match pyRFind (str "</rpc-reply>") xml_fragment with
      | some rpc_end =>
          if pyCount (str "<chassis-module>")
                (repairedMid xml_fragment rpc_end) =
              pyCount (str "</chassis-module>")
                (repairedMid xml_fragment rpc_end) then
            repairedMid xml_fragment rpc_end
          else xml_fragment
      | none =>
          if pyCount (str "<chassis-module>") (repairedEnd xml_fragment) =
              pyCount (str "</chassis-module>") (repairedEnd xml_fragment) then
            repairedEnd xml_fragment
          else xml_fragment
    else xml_fragment
  else xml_fragment

/- ### C4: `_extract_xml_fragment` -/

/-- Middle characters of an ANSI escape sequence (`[0-9;?;=>~]`). -/
def isAnsiMid (c : Char) : Bool :=
  c.isDigit || c == Char.ofNat 59 || c == Char.ofNat 63 || c == Char.ofNat 61 ||
    c == Char.ofNat 62 || c == Char.ofNat 126

/-- Final character of an ANSI escape sequence (`[A-Za-z@]`). -/
def isAnsiFinal (c : Char) : Bool :=
  (65 ≤ c.toNat && c.toNat ≤ 90) || (97 ≤ c.toNat && c.toNat ≤ 122) ||
    c.toNat == 64

/-- After an ESC character, try to match `\[[0-9;?;=>~]*[A-Za-z@]`, returning
the remainder. The middle and final classes are disjoint, so the greedy
match needs no backtracking. -/
def ansiMatch (t : Str) : Option Str :=
  match t with
  | [] => none
  | c :: r =>
      if c = Char.ofNat 91 then
        match r.dropWhile isAnsiMid with
        | [] => none
        | d :: rest => if isAnsiFinal d then some rest else none
      else none

/-- Left-to-right deletion of ANSI escape sequences
(`re.sub(r'\x1B\[[0-9;?;=>~]*[A-Za-z@]', '', b)`). -/
def stripAnsiFuel : Nat → Str → Str
  | 0, s => s
  | f + 1, s =>
      match s with
      | [] => []
      | c :: t =>
          if c = Char.ofNat 27 then
            match ansiMatch t with
            | some rest => stripAnsiFuel f rest
            | none => c :: stripAnsiFuel f t
          else c :: stripAnsiFuel f t

def stripAnsi (s : Str) : Str := stripAnsiFuel s.length s

/-- The control characters removed by
`re.sub(r'[\x00-\x08\x0B\x0C\x0E-\x1F]', '', b)`. -/
def isCtl (c : Char) : Bool :=
  (c.toNat ≤ 8) || c.toNat == 11 || c.toNat == 12 ||
    (14 ≤ c.toNat && c.toNat ≤ 31)

def stripCtl (s : Str) : Str := s.filter (fun c => !isCtl c)

/-- Python slice `s[i:j]`. -/
def pySlice (s : Str) (i j : Nat) : Str := (s.drop i).take (j - i)

/-- The `'</chassis-sub-module>'` repair condition of the corruption branch:
a sub-module is open and its last opening follows its last closing. -/
def subModUnclosed (fp : Str) : Bool :=
  pyIn (str "<chassis-sub-module>") fp &&
    (match pyRFind (str "<chassis-sub-module>") fp,
        pyRFind (str "</chassis-sub-module>") fp with
     | some lso, some lsc => decide (lsc < lso)
     | some _, none => true
     | none, _ => false)

/-- The `'</chassis-inventory>'` repair condition of the corruption branch:
an inventory is open and no closing follows its last opening. -/
def invUnclosed (fp : Str) : Bool :=
  pyIn (str "<chassis-inventory>") fp &&
    (match pyRFind (str "<chassis-inventory>") fp with
     | some r => !(pyIn (str "</chassis-inventory>") (fp.drop r))
     | none => false)

/-- The `repair_tags` string appended to a corrupted first part. -/
def repairTags (fp : Str) : Str :=
  str "\n" ++
  (if subModUnclosed fp then
    str "                    </chassis-sub-module>\n" else []) ++
  (List.replicate
    (pyCount (str "<chassis-module>") fp - pyCount (str "</chassis-module>") fp)
    (str "                </chassis-module>\n")).flatten ++
  (if invUnclosed fp then str "            </chassis-inventory>\n" else []) ++
  str "        </rpc-reply>"

/-- The block emitted for a corrupted (embedded) rpc-reply region. -/
def corruptBlock (fp : Str) : Str :=
  if pyCount (str "</chassis-module>") fp <
      pyCount (str "<chassis-module>") fp then
    fp ++ repairTags fp
  else fp ++ str "\n        </rpc-reply>"

/-- The `while True` rpc-block scan of `_extract_xml_fragment`; `pos`
strictly increases at every step, so `b.length + 1` fuel is enough. -/
def rpcBlocksLoop (b : Str) : Nat → Nat → List Str
  | 0, _ => []
  | f + 1, pos =>
      match pyFind (str "<rpc-reply") b pos with
      | none => []
      | some start_pos =>
          match pyFind (str "</rpc-reply>") b start_pos with
          | none => []
          | some e =>
              match pyFind (str "<rpc-reply")
                  (pySlice b start_pos (e + 12)) 1 with
              | some i =>
                  corruptBlock (pySlice b start_pos (start_pos + i)) ::
                    rpcBlocksLoop b f (start_pos + i)
              | none =>
                  pySlice b start_pos (e + 12) :: rpcBlocksLoop b f (e + 12)

/-- Python `'\n'.join(blocks)`. -/
def joinNL : List Str → Str
  | [] => []
  | [x] => x
  | x :: y :: t => x ++ str "\n" ++ joinNL (y :: t)

/-- The fallback `(start_pat, end_pat)` table. -/
def extract_patterns : List (Str × Option Str) :=
  [(str "<rpc-reply", some (str "</rpc-reply>")),
   (str "<chassis", some (str "</chassis>")),
   (str "<configuration", some (str "</configuration>")),
   (str "<inventory", some (str "</inventory>")),
   (str "<?xml", none),
   (str "<fpc-information", some (str "</fpc-information>")),
   (str "<fpc", some (str "</fpc>"))]

/-- The `for start_pat, end_pat in patterns` fallback loop. -/
def fallbackLoop (b : Str) : List (Str × Option Str) → Option Str
  | [] => none
  | (sp, ep) :: rest =>
      match pyFind sp b 0 with
      | none => fallbackLoop b rest
      | some s0 =>
          match ep with
          | some ept =>
              match pyRFind ept b with
              | some e0 =>
                  if s0 < e0 then
                    some (pyStrip (pySlice b s0 (e0 + ept.length)))
                  else fallbackLoop b rest
              | none => fallbackLoop b rest
          | none =>
              match pyRFind (str ">") b with
              | some last =>
                  if s0 < last then
                    some (pyStrip (pySlice b s0 (last + 1)))
                  else fallbackLoop b rest
              | none => fallbackLoop b rest

/-- The last-resort `<`/`>` extraction and the final `return ''`. -/
def fallbackExtract (b : Str) : Str :=
  match fallbackLoop b extract_patterns with
  | some r => r
  | none =>
      match pyFind (str "<") b 0, pyRFind (str ">") b with
      | some fl, some lg =>
          if fl < lg then pyStrip (pySlice b fl (lg + 1)) else []
      | _, _ => []

/-- Dispatch on whether the rpc-block scan found anything. -/
def extractFromClean (b : Str) : Str :=
  if (rpcBlocksLoop b (b.length + 1) 0).isEmpty then fallbackExtract b
  else joinNL (rpcBlocksLoop b (b.length + 1) 0)

/-- Embedding of `_extract_xml_fragment(buff)`. -/
def _extract_xml_fragment (buff : Str) : Str :=
  if buff.isEmpty then []
  else extractFromClean (stripCtl (stripAnsi buff))

/-- A well-formed rpc-reply block around a body. -/
def mkBlock (body : Str) : Str :=
  str "<rpc-reply>" ++ body ++ str "</rpc-reply>"

/-- Side conditions making a body a well-formed block interior: the
decorated block contains no rpc-reply opener after position 0 and no closer
before the final one, and the body has no control characters. -/
def GoodBody (b : Str) : Prop :=
  (∀ i, i < (mkBlock b).length → 1 ≤ i →
    ¬ occursAt (str "<rpc-reply") (mkBlock b) i) ∧
  (∀ i, i < 11 + b.length →
    ¬ occursAt (str "</rpc-reply>") (mkBlock b) i) ∧
  (∀ c ∈ b, isCtl c = false)

instance (b : Str) : Decidable (GoodBody b) := by
  unfold GoodBody
  infer_instance

/- ### A computable model of `minidom`: nodes, lexing, parsing, querying,
serialization.  The model covers the XML subset produced and consumed by
this program: tags without attributes, text content, no declarations or
comments (inputs outside this subset fail to parse, modeling the
`ExpatError` path). -/

/-- DOM nodes: elements with ordered children, and text nodes. -/
inductive Node where
  | text (data : Str)
  | elem (name : Str) (children : List Node)

/-- Lexer tokens. -/
inductive Tok where
  | topen (name : Str)
  | tclose (name : Str)
  | ttext (data : Str)

/-- Characters allowed in an element name. -/
def xmlNameChar (c : Char) : Bool :=
  c.isAlpha || c.isDigit || c == Char.ofNat 45 || c == Char.ofNat 95 ||
    c == Char.ofNat 46 || c == Char.ofNat 58

/-- Lexer automaton state: between tokens, inside a text run, right after
`<`, or inside a tag name. -/
inductive LexMode where
  | out
  | intext (acc : Str)
  | tagq
  | tagname (closing : Bool) (acc : Str)

/-- One lexer step; `none` is a lexical error. -/
def lexStep : Option (LexMode × List Tok) → Char → Option (LexMode × List Tok)
  | none, _ => none
  | some (LexMode.out, ts), c =>
      if c = Char.ofNat 60 then some (LexMode.tagq, ts)
      else some (LexMode.intext [c], ts)
  | some (LexMode.intext acc, ts), c =>
      if c = Char.ofNat 60 then some (LexMode.tagq, ts ++ [Tok.ttext acc])
      else some (LexMode.intext (acc ++ [c]), ts)
  | some (LexMode.tagq, ts), c =>
      if c = Char.ofNat 47 then some (LexMode.tagname true [], ts)
      else if xmlNameChar c then some (LexMode.tagname false [c], ts)
      else none
  | some (LexMode.tagname cl acc, ts), c =>
      if xmlNameChar c then some (LexMode.tagname cl (acc ++ [c]), ts)
      else if c = Char.ofNat 62 then
        if acc.isEmpty then none
        else if cl then some (LexMode.out, ts ++ [Tok.tclose acc])
        else some (LexMode.out, ts ++ [Tok.topen acc])
      else none

def lexFinish : Option (LexMode × List Tok) → Option (List Tok)
  | some (LexMode.out, ts) => some ts
  | some (LexMode.intext acc, ts) => some (ts ++ [Tok.ttext acc])
  | _ => none

/-- Tokenize a document. -/
def lexChars (s : Str) : Option (List Tok) :=
  lexFinish (s.foldl lexStep (some (LexMode.out, [])))

/-- One tree-builder step over `(open-tag stack, current sibling list)`;
`none` is a structural error (mismatched or extra closing tag). -/
def buildStep : Option (List (Str × List Node) × List Node) → Tok →
    Option (List (Str × List Node) × List Node)
  | none, _ => none
  | some (stack, acc), Tok.topen nm => some ((nm, acc) :: stack, [])
  | some (stack, acc), Tok.ttext d => some (stack, acc ++ [Node.text d])
  | some ([], _), Tok.tclose _ => none
  | some ((n, pacc) :: stack, acc), Tok.tclose nm =>
      if nm = n then some (stack, pacc ++ [Node.elem n acc]) else none

/-- Build the top-level node list from a token stream. -/
def buildToks (ts : List Tok) : Option (List Node) :=
  match ts.foldl buildStep (some ([], [])) with
  | some ([], ns) => some ns
  | _ => none

def isWsText : Node → Bool
  | Node.text d => d.all isPySpace
  | Node.elem _ _ => false

/-- A parse succeeds when the top level holds exactly one element besides
whitespace (as `minidom` requires a single document element). -/
def findRoot (ns : List Node) : Option Node :=
  match ns.filter (fun n => !isWsText n) with
  | [Node.elem nm ch] => some (Node.elem nm ch)
  | _ => none

/-- Model of `minidom.parseString`: `none` models a raised parse error. -/
def parseString (s : Str) : Option Node :=
  match lexChars s with
  | none => none
  | some ts =>
      match buildToks ts with
      | none => none
      | some ns => findRoot ns

mutual
/-- `getElementsByTagName` search including the node itself (used for
`Document.getElementsByTagName`, which may return the document element). -/
def byTagIncl (tag : Str) : Node → List Node
  | Node.text _ => []
  | Node.elem n ch =>
      (if n = tag then [Node.elem n ch] else []) ++ byTagList tag ch
def byTagList (tag : Str) : List Node → List Node
  | [] => []
  | c :: t => byTagIncl tag c ++ byTagList tag t
end

/-- `element.getElementsByTagName(tag)`: proper descendants only. -/
def getElementsByTagName (n : Node) (tag : Str) : List Node :=
  match n with
  | Node.text _ => []
  | Node.elem _ ch => byTagList tag ch

/-- `node.firstChild` (`none` models Python `None`). -/
def firstChild : Node → Option Node
  | Node.text _ => none
  | Node.elem _ ch => ch.head?

mutual
/-- `node.toxml()` for the attribute-free subset (every element in the
modeled documents has children, so the `<a/>` empty-element form does not
arise). -/
def toxml : Node → Str
  | Node.text d => d
  | Node.elem n ch =>
      str "<" ++ n ++ str ">" ++ toxmlList ch ++ str "</" ++ n ++ str ">"
def toxmlList : List Node → Str
  | [] => []
  | c :: t => toxml c ++ toxmlList t
end

mutual
/-- Token serialization of a node. -/
def toks : Node → List Tok
  | Node.text d => [Tok.ttext d]
  | Node.elem n ch => Tok.topen n :: toksList ch ++ [Tok.tclose n]
def toksList : List Node → List Tok
  | [] => []
  | c :: t => toks c ++ toksList t
end

/-- Valid element name: nonempty, made of name characters. -/
def validName (n : Str) : Bool := !n.isEmpty && n.all xmlNameChar

/-- Text characters that do not interfere with lexing. -/
def textChar (c : Char) : Bool := !(c = Char.ofNat 60)

mutual
/-- Serializable-and-reparsable elements: valid name, nonempty children. -/
def cleanElem : Node → Bool
  | Node.text _ => false
  | Node.elem n ch => validName n && !ch.isEmpty && cleanNodes ch true
/-- Clean child lists; the flag records whether a text node may appear
next (forbidding adjacent text nodes, which would merge on reparse). -/
def cleanNodes : List Node → Bool → Bool
  | [], _ => true
  | Node.text d :: rest, allowT =>
      allowT && !d.isEmpty && d.all textChar && cleanNodes rest false
  | Node.elem n ch :: rest, _ =>
      cleanElem (Node.elem n ch) && cleanNodes rest true
end

/- ### `_repair_xml_tag_mismatches`: tolerant tag scan, stack walk,
positional repairs -/

/-- Characters matched by `[^>\s/]` in the tag regex. -/
def tagNameChar (c : Char) : Bool :=
  !(c == Char.ofNat 62 || isPySpace c || c == Char.ofNat 47)

/-- Scanner state for `re.finditer(r'<(/?)([^>\s/]+)([^>]*)>', ...)`.
The two character classes are disjoint from the terminators, so the
regex scan is a single left-to-right pass. -/
inductive TagMode where
  | out
  | seenLt (p : Nat)
  | seenSlash (p : Nat)
  | rname (closing : Bool) (p : Nat) (acc : Str)
  | rjunk (closing : Bool) (p : Nat) (nm : Str)

def tagStep : TagMode × Nat × List (Str × Bool × Nat) → Char →
    TagMode × Nat × List (Str × Bool × Nat)
  | (TagMode.out, i, ts), c =>
      if c = Char.ofNat 60 then (TagMode.seenLt i, i + 1, ts)
      else (TagMode.out, i + 1, ts)
  | (TagMode.seenLt p, i, ts), c =>
      if c = Char.ofNat 47 then (TagMode.seenSlash p, i + 1, ts)
      else if tagNameChar c then (TagMode.rname false p [c], i + 1, ts)
      else (TagMode.out, i + 1, ts)
  | (TagMode.seenSlash p, i, ts), c =>
      if tagNameChar c then (TagMode.rname true p [c], i + 1, ts)
      else (TagMode.out, i + 1, ts)
  | (TagMode.rname cl p acc, i, ts), c =>
      if tagNameChar c then (TagMode.rname cl p (acc ++ [c]), i + 1, ts)
      else if c = Char.ofNat 62 then (TagMode.out, i + 1, ts ++ [(acc, cl, p)])
      else (TagMode.rjunk cl p acc, i + 1, ts)
  | (TagMode.rjunk cl p nm, i, ts), c =>
      if c = Char.ofNat 62 then (TagMode.out, i + 1, ts ++ [(nm, cl, p)])
      else (TagMode.rjunk cl p nm, i + 1, ts)

/-- All `(name, is_closing, pos)` tag matches of the mismatch repairer. -/
def findTags (s : Str) : List (Str × Bool × Nat) :=
  (s.foldl tagStep (TagMode.out, 0, [])).2.2

def simpleTags : List Str :=
  [str "part-number", str "serial-number", str "description", str "model",
   str "version"]

def containerTags : List Str :=
  [str "chassis-module", str "chassis-sub-module",
   str "chassis-re-disk-module"]

def genericCloseTags : List Str :=
  [str "model", str "part-number", str "serial-number", str "description",
   str "version", str "name"]

/-- `f'</{expected}>\n                    '`. -/
def closeInsert (expected : Str) : Str :=
  str "</" ++ expected ++ str ">\n                    "

def popIfTop (nm : Str) : List Str → List Str
  | [] => []
  | t :: rest => if t = nm then rest else t :: rest

/-- The tag-stack walk collecting `(pos, insert)` repairs. -/
def mismatchWalk :
    List (Str × Bool × Nat) → List Str → List (Nat × Str) → List (Nat × Str)
  | [], _, repairs => repairs
  | (nm, false, _) :: rest, stack, repairs =>
      mismatchWalk rest (nm :: stack) repairs
  | (nm, true, pos) :: rest, stack, repairs =>
      match stack with
      | [] => mismatchWalk rest [] repairs
      | top :: stack2 =>
          if top = nm then mismatchWalk rest stack2 repairs
          else if top = str "model" ∧ nm = str "chassis-re-disk-module" then
            mismatchWalk rest (popIfTop (str "chassis-re-disk-module") stack2)
              (repairs ++ [(pos, closeInsert top)])
          else if top ∈ simpleTags ∧ nm ∈ containerTags then
            mismatchWalk rest (popIfTop nm stack2)
              (repairs ++ [(pos, closeInsert top)])
          else if top ∈ genericCloseTags then
            mismatchWalk rest stack2 (repairs ++ [(pos, closeInsert top)])
          else mismatchWalk rest (top :: stack2) repairs

def applyRepair (content : Str) (r : Nat × Str) : Str :=
  content.take r.1 ++ r.2 ++ content.drop r.1

/-- Embedding of `_repair_xml_tag_mismatches(xml_content)`. -/
def _repair_xml_tag_mismatches (xml_content : Str) : Str :=
  if (mismatchWalk (findTags xml_content) [] []).isEmpty then xml_content
  else ((mismatchWalk (findTags xml_content) [] []).reverse).foldl
    applyRepair xml_content

mutual
/-- The `(name, is_closing)` skeleton of a serialized tree. -/
def tagSkel : Node → List (Str × Bool)
  | Node.text _ => []
  | Node.elem n ch => (n, false) :: tagSkelList ch ++ [(n, true)]
def tagSkelList : List Node → List (Str × Bool)
  | [] => []
  | c :: t => tagSkel c ++ tagSkelList t
end

/- ### `_clean_label` and the regex search helpers -/

/-- `re.search(r'\d+', s)`: the first maximal digit run. -/
def searchDigits : Str → Option Str
  | [] => none
  | c :: t =>
      if c.isDigit then some ((c :: t).takeWhile Char.isDigit)
      else searchDigits t

/-- `\s*(\d+)` after a matched `FPC`. -/
def fpcDigits (s : Str) : Option Str :=
  match s.dropWhile isPySpace with
  | c :: t => if c.isDigit then some ((c :: t).takeWhile Char.isDigit)
              else none
  | [] => none

/-- `re.search(r'FPC\s*(\d+)', s, flags=re.IGNORECASE)`: the digit group of
the first match. -/
def searchFPC : Str → Option Str
  | [] => none
  | c :: t =>
      if (str "fpc").isPrefixOf (pyLower (c :: t)) then
        match fpcDigits ((c :: t).drop 3) with
        | some ds => some ds
        | none => searchFPC t
      else searchFPC t

def isCRLF (c : Char) : Bool := c == Char.ofNat 13 || c == Char.ofNat 10

/-- Replace every maximal run of `p`-characters by a single space
(`re.sub(r'[\r\n]+', ' ', ...)` and `re.sub(r'\s+', ' ', ...)`). -/
def collapseRunsFuel (p : Char → Bool) : Nat → Str → Str
  | 0, s => s
  | _ + 1, [] => []
  | f + 1, c :: t =>
      if p c then Char.ofNat 32 :: collapseRunsFuel p f (t.dropWhile p)
      else c :: collapseRunsFuel p f t

/-- `re.sub(r'\s{2,}', ' ', ...)`: only runs of length at least two are
replaced; a single whitespace character is kept as is. -/
def collapseWS2Fuel : Nat → Str → Str
  | 0, s => s
  | _ + 1, [] => []
  | f + 1, c :: t =>
      if isPySpace c then
        match t with
        | d :: _ =>
            if isPySpace d then
              Char.ofNat 32 :: collapseWS2Fuel f (t.dropWhile isPySpace)
            else c :: collapseWS2Fuel f t
        | [] => [c]
      else c :: collapseWS2Fuel f t

def isWordChar (c : Char) : Bool := c.isAlpha || c.isDigit || c == Char.ofNat 95

def isColonWS (c : Char) : Bool := c == Char.ofNat 58 || isPySpace c

def isSNClass (c : Char) : Bool :=
  isWordChar c || c == Char.ofNat 45 || c == Char.ofNat 47

/-- The alternation of the serial-scrubbing regex, in source order. -/
def snKeywords : List Str :=
  [str "s/n", str "sn", str "rev", str "rev", str "serial",
   str "serial-number", str "part-number"]

/-- After a keyword: `\b[:\s]*[\w\-\/]+`; returns the matched length. -/
def snTailLen (t : Str) : Option Nat :=
  if (match t.head? with
      | some c => isWordChar c
      | none => false) then none
  else
    match t.dropWhile isColonWS with
    | c :: _ =>
        if isSNClass c then
          some ((t.takeWhile isColonWS).length +
            ((t.dropWhile isColonWS).takeWhile isSNClass).length)
        else none
    | [] => none

/-- Try each keyword alternative at a word boundary; returns the total
match length and whether the last matched character is a word character. -/
def snTryKeyword (s : Str) : List Str → Option Nat
  | [] => none
  | kw :: rest =>
      if kw.isPrefixOf (pyLower s) then
        match snTailLen (s.drop kw.length) with
        | some tl => some (kw.length + tl)
        | none => snTryKeyword s rest
      else snTryKeyword s rest

/-- `re.sub(r'\b(S\/N|SN|REV|rev|serial|serial-number|part-number)\b[:\s]*[\w\-\/]+', '', s, flags=re.IGNORECASE)`.
The boolean argument records whether the previous character was a word
character (for the leading `\b`). -/
def snSubFuel : Nat → Bool → Str → Str
  | 0, _, s => s
  | _ + 1, _, [] => []
  | f + 1, prevW, c :: t =>
      if prevW then c :: snSubFuel f (isWordChar c) t
      else
        match snTryKeyword (c :: t) snKeywords with
        | some len =>
            snSubFuel f
              (match ((c :: t).take len).getLast? with
               | some d => isWordChar d
               | none => false)
              ((c :: t).drop len)
        | none => c :: snSubFuel f (isWordChar c) t

/-- Embedding of `_clean_label(lbl)` without its final guards. -/
def cleanLabelCore (lbl : Str) : Str :=
  pyStripChars
    (snSubFuel lbl.length false
      (pyStrip (collapseWS2Fuel lbl.length
        (collapseRunsFuel isCRLF lbl.length lbl))))
    (str " ,;-")

/-- Embedding of `_clean_label(lbl)`. -/
def _clean_label (lbl : Str) : Str :=
  if lbl.isEmpty then []
  else if !(cleanLabelCore lbl).isEmpty ∧
      (cleanLabelCore lbl).all Char.isDigit then []
  else cleanLabelCore lbl

/- ### `_get_better_module_description` and label extraction -/

/-- The `.firstChild.data` access: `none` when there is no first child;
an element first child makes the Python attribute access raise. -/
def firstChildTextData : Node → Option Str
  | Node.elem _ (Node.text d :: _) => some d
  | _ => none

/-- Whether `.firstChild` exists but `.data` would raise. -/
def firstChildRaises (n : Node) : Bool :=
  match firstChild n with
  | some (Node.elem _ _) => true
  | _ => false

/-- The MPC enhancement branch given model and description text. -/
def mpcEnhance (model desc : Str) : Str :=
  if pyIn (str "MRATE") model ∧ pyIn (str "12x") desc then
    pyReplace model (str "-") (str " ") ++ str " (12x QSFP+ Ports)"
  else if pyIn (str "16x") desc ∧ pyIn (str "10GE") desc then
    pyReplace model (str "-") (str " ") ++ str " (16x 10GE Ports)"
  else if pyIn (str "48x") desc then
    pyReplace model (str "-") (str " ") ++ str " (48x Ports)"
  else model ++ str " - " ++ desc

/-- The description fallback branch of `_get_better_module_description`. -/
def descFallback (ch : Node) : Str :=
  match (getElementsByTagName ch (str "description")).head? with
  | none => str "Unknown Module"
  | some el =>
      match firstChild el with
      | none => str "Unknown Module"
      | some (Node.elem _ _) => str "Unknown Module"
      | some (Node.text d) =>
          if 10 < (pyReplace (pyReplace (pyReplace
              (collapseRunsFuel isPySpace (pyStrip d).length (pyStrip d))
              (str "&amp;") (str "&")) (str "&lt;") (str "<"))
              (str "&gt;") (str ">")).length then
            pyReplace (pyReplace (pyReplace
              (collapseRunsFuel isPySpace (pyStrip d).length (pyStrip d))
              (str "&amp;") (str "&")) (str "&lt;") (str "<"))
              (str "&gt;") (str ">")
          else str "Unknown Module"

/-- The `model.startswith('MPC')` branch given the stripped model text. -/
def mpcBranch (ch : Node) (model : Str) : Str :=
  match (getElementsByTagName ch (str "description")).head? with
  | none => model
  | some el =>
      match firstChild el with
      | none => model
      | some (Node.elem _ _) => str "Unknown Module"
      | some (Node.text d) => mpcEnhance model (pyStrip d)

/-- Embedding of `_get_better_module_description(chassis_module_element)`;
the source-level `except` returns `'Unknown Module'`, modeled by the
element-first-child branches. -/
def _get_better_module_description (ch : Node) : Str :=
  match (getElementsByTagName ch (str "model-number")).head? with
  | none => descFallback ch
  | some el =>
      match firstChild el with
      | none => descFallback ch
      | some (Node.elem _ _) => str "Unknown Module"
      | some (Node.text d) =>
          if !(pyStrip d).isEmpty ∧ ¬ (pyStrip d = str "N/A") ∧
              ¬ (pyStrip d = str "None") then
            if pyStartsWith (pyStrip d) (str "MPC") then mpcBranch ch (pyStrip d)
            else pyStrip d
          else descFallback ch

/-- The tag priority list of `extract_label_from_node`. -/
def labelTags : List Str :=
  [str "model-number", str "part-number", str "part_number", str "model",
   str "description", str "name", str "label"]

/-- The `for tag in (...)` loop of `extract_label_from_node`; a raising
`.data` access is caught per tag and falls through to the next tag. -/
def extractLabelLoop (node : Node) : List Str → Str
  | [] => []
  | tag :: rest =>
      match (getElementsByTagName node tag).head? with
      | none => extractLabelLoop node rest
      | some el =>
          match firstChild el with
          | none => extractLabelLoop node rest
          | some (Node.elem _ _) => extractLabelLoop node rest
          | some (Node.text d) =>
              if (_clean_label (pyStrip d)).isEmpty then
                extractLabelLoop node rest
              else _clean_label (pyStrip d)

/-- Embedding of the nested helper `extract_label_from_node(node)`. -/
def extract_label_from_node (node : Node) : Str :=
  extractLabelLoop node labelTags

/- ### `_parse_fragments_to_dom` -/

/-- `re.findall(r'(<TAG[\s\S]*?</TAG>)', s, flags=re.IGNORECASE)` for a
literal start/end pair: lazy matching pairs each start with the nearest
following end, scanning non-overlapping matches left to right (matching is
caseless; slices come from the original text). -/
def findAllLazy (sp ep s : Str) : Nat → Nat → List Str
  | 0, _ => []
  | f + 1, pos =>
      match pyFind sp (pyLower s) pos with
      | none => []
      | some a =>
          match pyFind ep (pyLower s) (a + sp.length) with
          | none => []
          | some b =>
              pySlice s a (b + ep.length) ::
                findAllLazy sp ep s f (b + ep.length)

/-- `[^>]*` followed by `>` (`needsQm` additionally requires the run to end
with `?`, for the `\?>` suffix of the XML-declaration pattern). -/
def matchJunkGt (needsQm : Bool) (t : Str) : Option Str :=
  match t.dropWhile (fun c => !(c = Char.ofNat 62)) with
  | c :: rest =>
      if c = Char.ofNat 62 then
        if needsQm then
          if (t.takeWhile (fun c2 => !(c2 = Char.ofNat 62))).getLast? =
              some (Char.ofNat 63) then some rest
          else none
        else some rest
      else none
  | [] => none

/-- `re.sub` of `pre[^>]*>` (or `pre[^>]*\?>`) with the empty string. -/
def subPrefJunkFuel (pre : Str) (needsQm : Bool) : Nat → Str → Str
  | 0, s => s
  | _ + 1, [] => []
  | f + 1, c :: rest =>
      if pre.isPrefixOf (c :: rest) then
        match matchJunkGt needsQm ((c :: rest).drop pre.length) with
        | some rem => subPrefJunkFuel pre needsQm f rem
        | none => c :: subPrefJunkFuel pre needsQm f rest
      else c :: subPrefJunkFuel pre needsQm f rest

/-- `re.sub(r'<\?xml[^>]*\?>', '', block)`. -/
def subXmlDecl (s : Str) : Str := subPrefJunkFuel (str "<?xml") true s.length s

/-- `re.sub(r'<rpc-reply[^>]*>', '', block)`. -/
def subRpcOpen (s : Str) : Str :=
  subPrefJunkFuel (str "<rpc-reply") false s.length s

/-- The per-block cleanup of the chassis-module salvage. -/
def cleanChassisBlock (blk : Str) : Str :=
  pyReplace (subRpcOpen (subXmlDecl blk)) (str "</rpc-reply>") []

def concatNL : List Str → Str
  | [] => []
  | x :: t => x ++ str "\n" ++ concatNL t

/-- The chassis-module salvage of a failed rpc block: collect individually
parseable chassis-module blocks and parse them under a synthetic wrapper. -/
def salvageChassis (rpc_content : Str) : Option Node :=
  match (findAllLazy (str "<chassis-module") (str "</chassis-module>")
      rpc_content rpc_content.length 0).filterMap
      (fun blk =>
        if (parseString (str "<root>" ++ cleanChassisBlock blk ++
            str "</root>")).isSome then
          some (cleanChassisBlock blk)
        else none) with
  | [] => none
  | vbs =>
      parseString (str "<rpc-reply><chassis-inventory><chassis>" ++
        concatNL vbs ++ str "</chassis></chassis-inventory></rpc-reply>")

/-- The conditional chassis-module repair (`if opens > closes`). -/
def condRepair (blk : Str) : Str :=
  if pyCount (str "</chassis-module>") blk <
      pyCount (str "<chassis-module>") blk then
    _repair_chassis_module_xml blk
  else blk

/-- Repairs, parse, and salvage for one rpc block of the multi-document
path. -/
def processBlock (blk : Str) : Option Node :=
  match parseString (_repair_xml_tag_mismatches (condRepair blk)) with
  | some doc => some doc
  | none => salvageChassis (_repair_xml_tag_mismatches (condRepair blk))

/-- The block splitter of the multi-document path. -/
def rpcSplitLoop (fragment : Str) : Nat → Nat → List Str
  | 0, _ => []
  | f + 1, pos =>
      match pyFind (str "<rpc-reply") fragment pos with
      | none => []
      | some start_pos =>
          match pyFind (str "</rpc-reply>") fragment start_pos with
          | none => []
          | some e =>
              pySlice fragment start_pos (e + 12) ::
                rpcSplitLoop fragment f (e + 12)

def firstWithChassis : List Node → Option Node
  | [] => none
  | d :: t =>
      if 0 < (byTagIncl (str "chassis-module") d).length then some d
      else firstWithChassis t

def concatXmlNL : List Node → Str
  | [] => []
  | d :: t => toxml d ++ str "\n" ++ concatXmlNL t

/-- Combining the per-block documents under a `<root>` wrapper, falling
back to the first document containing chassis-modules. -/
def combineDocs (docs : List Node) : Option Node :=
  match docs with
  | [] => none
  | _ =>
      match parseString (str "<root>\n" ++ concatXmlNL docs ++
          str "</root>") with
      | some d => some d
      | none => firstWithChassis docs

/-- The candidate tags of the final salvage (`tag_hint` first). -/
def candidateTags (tag_hint : Option Str) : List Str :=
  (match tag_hint with
   | some t => [t]
   | none => []) ++
  [str "rpc-reply", str "configuration", str "chassis", str "interfaces",
   str "inventory", str "fpc-information", str "fpc", str "chassis-module"]

/-- Collect individually parseable `<tag>...</tag>` blocks over all
candidate tags. -/
def collectValid (fragment : Str) : List Str → List Str
  | [] => []
  | tag :: rest =>
      (findAllLazy (str "<" ++ tag) (str "</" ++ tag ++ str ">") fragment
        fragment.length 0).filter (fun blk => (parseString blk).isSome) ++
        collectValid fragment rest

/-- The final parse attempt with generic tag salvage. -/
def finalParse (fragment : Str) (tag_hint : Option Str) : Option Node :=
  match parseString fragment with
  | some d => some d
  | none =>
      match collectValid fragment (candidateTags tag_hint) with
      | [] => none
      | vbs =>
          match parseString (str "<root>\n" ++ joinNL vbs ++
              str "\n</root>") with
          | some d => some d
          | none => none

/-- Embedding of `_parse_fragments_to_dom(fragment, tag_hint)`; `none`
models `return None`. When the multi-document path produces nothing, the
source falls through to parsing the original fragment. -/
def _parse_fragments_to_dom (fragment : Str) (tag_hint : Option Str) :
    Option Node :=
  if fragment.isEmpty then none
  else if 1 < pyCount (str "<rpc-reply") fragment then
    match combineDocs ((rpcSplitLoop fragment fragment.length 0).filterMap
        processBlock) with
    | some d => some d
    | none => finalParse fragment tag_hint
  else
    finalParse (_repair_xml_tag_mismatches (condRepair fragment)) tag_hint

/- ### The module map of `_build_chassis_maps` -/

/-- Slot extraction from the `<slot>` child of an `<fpc>` node, with the
`FPC <n>` name fallback. -/
def fpcSlotName (fpc_node : Node) : Option Nat :=
  match (getElementsByTagName fpc_node (str "name")).head? with
  | some el =>
      match firstChild el with
      | some (Node.text d) =>
          match searchFPC (pyStrip d) with
          | some ds => some (digitsToNat ds)
          | none => none
      | _ => none
  | none => none

def fpcSlot (fpc_node : Node) : Option Nat :=
  match (getElementsByTagName fpc_node (str "slot")).head? with
  | some el =>
      match firstChild el with
      | some (Node.text d) =>
          match searchDigits (pyStrip d) with
          | some ds => some (digitsToNat ds)
          | none => fpcSlotName fpc_node
      | _ => fpcSlotName fpc_node
  | none => fpcSlotName fpc_node

/-- One step of the `for fpc_node in doc.getElementsByTagName('fpc')`
loop. -/
def fpcFold (m : List (Str × Str)) (fpc_node : Node) : List (Str × Str) :=
  match fpcSlot fpc_node with
  | none => m
  | some slot =>
      if (extract_label_from_node fpc_node).isEmpty then m
      else if containsD m (natStr slot) then m
      else setD m (natStr slot) (extract_label_from_node fpc_node)

/-- The `('slot', 'slot-number', 'fpc')` tag loop of the chassis-module
slot extraction. -/
def chSlotTagLoop (ch : Node) : List Str → Option Nat
  | [] => none
  | tag :: rest =>
      match (getElementsByTagName ch tag).head? with
      | some el =>
          match firstChild el with
          | some (Node.text d) =>
              match searchDigits (pyStrip d) with
              | some ds => some (digitsToNat ds)
              | none => chSlotTagLoop ch rest
          | _ => chSlotTagLoop ch rest
      | none => chSlotTagLoop ch rest

/-- Slot extraction for a `<chassis-module>` node: `FPC <n>` in the name
first, then numeric `slot` / `slot-number` / `fpc` tags. -/
def chSlot (ch : Node) : Option Nat :=
  match (getElementsByTagName ch (str "name")).head? with
  | some el =>
      match firstChild el with
      | some (Node.text d) =>
          match searchFPC (pyStrip d) with
          | some ds => some (digitsToNat ds)
          | none => chSlotTagLoop ch [str "slot", str "slot-number", str "fpc"]
      | _ => chSlotTagLoop ch [str "slot", str "slot-number", str "fpc"]
  | none => chSlotTagLoop ch [str "slot", str "slot-number", str "fpc"]

def moduleLabelOK (l : Str) : Bool :=
  !l.isEmpty && !(l == str "N/A") && !(l == str "None") &&
    !(l == str "Unknown")

/-- One step of the `for ch in doc.getElementsByTagName('chassis-module')`
loop (always overwriting on a valid label). -/
def chFold (m : List (Str × Str)) (ch : Node) : List (Str × Str) :=
  match chSlot ch with
  | none => m
  | some slot =>
      if moduleLabelOK (_get_better_module_description ch) then
        setD m (natStr slot) (_get_better_module_description ch)
      else m

/-- The `module_map` produced by `_build_chassis_maps` from a parsed
document. -/
def buildModuleMap (doc : Node) : List (Str × Str) :=
  (byTagIncl (str "chassis-module") doc).foldl chFold
    ((byTagIncl (str "fpc") doc).foldl fpcFold [])

/-- The `module_map` of `_build_chassis_maps(xml_fragment, ...)`. -/
def module_map_of_fragment (xml_fragment : Str) : List (Str × Str) :=
  if xml_fragment.isEmpty then []
  else
    match _parse_fragments_to_dom xml_fragment (some (str "fpc")) with
    | none => []
    | some doc => buildModuleMap doc

/- ### C3: two concatenated rpc-reply documents -/

/-- A `chassis-module` element with name `FPC n` and model-number
`MPC7E-MRATE`. -/
def moduleTree (n : Nat) : Node :=
  Node.elem (str "chassis-module")
    [Node.elem (str "name") [Node.text (str "FPC " ++ natStr n)],
     Node.elem (str "model-number") [Node.text (str "MPC7E-MRATE")]]

/-- An `rpc-reply` document holding one chassis-module per slot. -/
def rpcTree (slots : List Nat) : Node :=
  Node.elem (str "rpc-reply") (slots.map moduleTree)

/-- The serialized form of one module element. -/
def modStr (n : Nat) : Str := toxml (moduleTree n)

/-- The serialized module sequence. -/
def bodyStr (slots : List Nat) : Str := toxmlList (slots.map moduleTree)

/-- The serialized document. -/
def mkRpcDoc (slots : List Nat) : Str := toxml (rpcTree slots)

/-- The combined tree parsed from the `<root>`-wrapped concatenation. -/
def rootTree (T1 T2 : Node) : Node :=
  Node.elem (str "root")
    [Node.text (str "\n"), T1, Node.text (str "\n"), T2,
     Node.text (str "\n")]


/- ############ Theorems ############ -/

/- ### Basic facts about occurrences -/

theorem drop_append_ge (x y : Str) {i : Nat} (h : x.length ≤ i) :
    (x ++ y).drop i = y.drop (i - x.length) := by
  rw [List.drop_append_eq_append_drop, List.drop_eq_nil_of_le h, List.nil_append]

theorem drop_append_le (x y : Str) {i : Nat} (h : i ≤ x.length) :
    (x ++ y).drop i = x.drop i ++ y := by
  rw [List.drop_append_eq_append_drop, Nat.sub_eq_zero_of_le h, List.drop_zero]

theorem occursAt_length_le {pat s : Str} {i : Nat} (hne : pat ≠ [])
    (h : occursAt pat s i) : i + pat.length ≤ s.length := by
  rcases h with ⟨r, hr⟩
  have hlen : pat.length + r.length = (s.drop i).length := by
    rw [← hr, List.length_append]
  rw [List.length_drop] at hlen
  have hpos : 0 < pat.length := List.length_pos.mpr hne
  omega

theorem occursAt_getElem {pat s : Str} {i : Nat} (h : occursAt pat s i) :
    ∀ k, k < pat.length → s[i + k]? = pat[k]? := by
  intro k hk
  rcases h with ⟨r, hr⟩
  have h1 : s[i + k]? = (s.drop i)[k]? := by
    rw [List.getElem?_drop]
  rw [h1, ← hr, List.getElem?_append_left hk]

theorem occursAt_append_right {pat x y : Str} {i : Nat} (hi : x.length ≤ i) :
    occursAt pat (x ++ y) i ↔ occursAt pat y (i - x.length) := by
  unfold occursAt
  rw [drop_append_ge x y hi]

theorem occursAt_append_left {pat x y : Str} {i : Nat}
    (hi : i + pat.length ≤ x.length) :
    occursAt pat (x ++ y) i ↔ occursAt pat x i := by
  unfold occursAt
  rw [drop_append_le x y (by omega)]
  constructor
  · intro h
    have : pat = (x.drop i).take pat.length := by
      have h2 := List.prefix_iff_eq_take.mp h
      rwa [List.take_append_of_le_length (by simp [List.length_drop]; omega)] at h2
    rw [this]
    exact List.take_prefix _ _
  · intro h
    exact h.trans (List.prefix_append _ _)

theorem occursAt_cons_succ {pat : Str} {c : Char} {t : Str} {i : Nat} :
    occursAt pat (c :: t) (i + 1) ↔ occursAt pat t i := by
  unfold occursAt
  rw [List.drop_succ_cons]

theorem drop_add (l : Str) (m n : Nat) :
    List.drop n (List.drop m l) = List.drop (n + m) l := by
  rw [List.drop_drop, Nat.add_comm]

/- ### `positions`: membership, append splicing -/

theorem positions_nil {pat : Str} (hne : pat ≠ []) :
    positions pat [] = [] := by
  simp only [positions]
  rw [if_neg]
  simp [List.isPrefixOf_iff_prefix, hne]

theorem mem_positions {pat : Str} (hne : pat ≠ []) :
    ∀ (s : Str) (i : Nat), i ∈ positions pat s ↔ occursAt pat s i := by
  intro s
  induction s with
  | nil =>
      intro i
      rw [positions_nil hne]
      simp only [List.not_mem_nil, false_iff]
      intro h
      exact hne (List.prefix_nil.mp (by simpa [occursAt] using h))
  | cons c t ih =>
      intro i
      simp only [positions, List.mem_append, List.mem_map]
      cases i with
      | zero =>
          simp only [occursAt, List.drop_zero]
          constructor
          · rintro (h | ⟨j, _, hj⟩)
            · by_cases hp : pat.isPrefixOf (c :: t) = true
              · exact List.isPrefixOf_iff_prefix.mp hp
              · rw [if_neg hp] at h
                simp at h
            · omega
          · intro h
            left
            rw [if_pos (List.isPrefixOf_iff_prefix.mpr h)]
            simp
      | succ j =>
          rw [occursAt_cons_succ, ← ih j]
          constructor
          · rintro (h | ⟨k, hk, hkj⟩)
            · split at h <;> simp_all
            · have : k = j := by omega
              subst this
              exact hk
          · intro h
            right
            exact ⟨j, h, rfl⟩

theorem crossFree_nil_right (pat x : Str) : CrossFree pat x [] := by
  intro i h1 h2 hocc
  by_cases hp : pat = []
  · subst hp
    simp at h2
    omega
  · have := occursAt_length_le hp hocc
    simp at this
    omega

theorem crossFree_cons {pat : Str} {c : Char} {x y : Str}
    (h : CrossFree pat (c :: x) y) : CrossFree pat x y := by
  intro i h1 h2 hocc
  refine h (i + 1) (by simpa using Nat.succ_lt_succ h1) (by simp; omega) ?_
  rw [List.cons_append, occursAt_cons_succ]
  exact hocc

theorem positions_append {pat : Str} (hne : pat ≠ []) :
    ∀ (x y : Str), CrossFree pat x y →
      positions pat (x ++ y) =
        positions pat x ++ (positions pat y).map (· + x.length) := by
  intro x
  induction x with
  | nil =>
      intro y _
      simp [positions_nil hne]
  | cons c x ih =>
      intro y hcf
      have hx : positions pat (x ++ y) =
          positions pat x ++ (positions pat y).map (· + x.length) :=
        ih y (crossFree_cons hcf)
      have hhead : pat.isPrefixOf (c :: (x ++ y)) = pat.isPrefixOf (c :: x) := by
        rw [Bool.eq_iff_iff, List.isPrefixOf_iff_prefix,
          List.isPrefixOf_iff_prefix]
        by_cases hlen : pat.length ≤ (c :: x).length
        · have h0 := @occursAt_append_left pat (c :: x) y 0 (by omega)
          simpa only [occursAt, List.drop_zero, List.cons_append] using h0
        · push_neg at hlen
          refine iff_of_false ?_ ?_
          · intro hp
            refine hcf 0 (by simp) (by simpa using hlen) ?_
            simpa [occursAt, List.cons_append] using hp
          · intro hp
            have := hp.length_le
            omega
      have hcomp : ((· + 1) ∘ (· + x.length)) = (· + (x.length + 1)) := by
        funext a
        simp only [Function.comp_apply]
        omega
      simp only [List.cons_append, positions, List.append_eq, hhead, hx,
        List.map_append, List.map_map, List.append_assoc, List.length_cons,
        hcomp]

theorem length_positions_append {pat : Str} (hne : pat ≠ [])
    (x y : Str) (hcf : CrossFree pat x y) :
    (positions pat (x ++ y)).length =
      (positions pat x).length + (positions pat y).length := by
  rw [positions_append hne x y hcf]
  simp

/-- If `x` ends with a character that does not occur in `pat.dropLast`, then
no occurrence of `pat` can straddle the boundary of `x ++ y`. -/
theorem crossFree_of_getLast {pat x : Str} (y : Str) {c : Char}
    (hx : x.getLast? = some c) (hc : c ∉ pat.dropLast) : CrossFree pat x y := by
  intro i hi hlen hocc
  have hxne : x ≠ [] := by rintro rfl; simp at hx
  have hxpos : 0 < x.length := List.length_pos.mpr hxne
  have hget : (x ++ y)[x.length - 1]? = some c := by
    rw [List.getElem?_append_left (by omega)]
    rwa [List.getLast?_eq_getElem?] at hx
  have hk : x.length - 1 - i < pat.length := by omega
  have h2 := occursAt_getElem hocc (x.length - 1 - i) hk
  rw [show i + (x.length - 1 - i) = x.length - 1 by omega, hget] at h2
  refine hc (List.mem_iff_getElem?.mpr ⟨x.length - 1 - i, ?_⟩)
  rw [List.dropLast_eq_take, List.getElem?_take_of_lt (by omega)]
  exact h2.symm

/-- If `y` starts with a character that does not occur in `pat.drop 1`, then
no occurrence of `pat` can straddle the boundary of `x ++ y`. -/
theorem crossFree_of_head {pat : Str} (x : Str) {y : Str} {c : Char}
    (hy : y.head? = some c) (hc : c ∉ pat.drop 1) : CrossFree pat x y := by
  intro i hi hlen hocc
  have hget : (x ++ y)[x.length]? = some c := by
    rw [List.getElem?_append_right (le_refl _)]
    simpa [List.head?_eq_getElem?] using hy
  have hk : x.length - i < pat.length := by omega
  have h2 := occursAt_getElem hocc (x.length - i) hk
  rw [show i + (x.length - i) = x.length by omega, hget] at h2
  refine hc (List.mem_iff_getElem?.mpr ⟨x.length - i - 1, ?_⟩)
  rw [List.getElem?_drop]
  rw [show 1 + (x.length - i - 1) = x.length - i by omega]
  exact h2.symm

/- ### Characterization of `pyFind` / `pyRFind` -/

theorem findFromAux_eq_some_iff {pat : Str} (hne : pat ≠ []) :
    ∀ (s : Str) (j : Nat), findFromAux pat s = some j ↔
      (pat <+: s.drop j ∧ ∀ i < j, ¬ pat <+: s.drop i) := by
  intro s
  induction s with
  | nil =>
      intro j
      have hnp : pat.isPrefixOf ([] : Str) = false := by
        rw [Bool.eq_false_iff]
        intro h
        exact hne (List.prefix_nil.mp (List.isPrefixOf_iff_prefix.mp h))
      constructor
      · intro h
        simp [findFromAux, hnp] at h
      · rintro ⟨h, _⟩
        exact absurd (List.prefix_nil.mp (by simpa using h)) hne
  | cons c t ih =>
      intro j
      by_cases hp : pat.isPrefixOf (c :: t) = true
      · simp only [findFromAux, if_pos hp]
        constructor
        · intro h
          have hj : j = 0 := by
            have := Option.some_injective _ h.symm
            omega
          subst hj
          exact ⟨by simpa using List.isPrefixOf_iff_prefix.mp hp, by omega⟩
        · rintro ⟨hocc, hmin⟩
          rcases Nat.eq_zero_or_pos j with hj | hj
          · rw [hj]
          · exact absurd (by simpa using List.isPrefixOf_iff_prefix.mp hp)
              (hmin 0 hj)
      · simp only [findFromAux, if_neg hp, Option.map_eq_some']
        have hp2 : ¬ pat <+: (c :: t) := fun h =>
          hp (List.isPrefixOf_iff_prefix.mpr h)
        cases j with
        | zero =>
            constructor
            · rintro ⟨j2, _, h⟩
              omega
            · rintro ⟨hocc, _⟩
              exact absurd (by simpa using hocc) hp2
        | succ j =>
            constructor
            · rintro ⟨j2, hfind, hj2⟩
              have hjj : j2 = j := by omega
              rw [hjj] at hfind
              rcases (ih j).mp hfind with ⟨hocc, hmin⟩
              refine ⟨by simpa [List.drop_succ_cons] using hocc, ?_⟩
              intro i hi
              cases i with
              | zero => simpa using hp2
              | succ i =>
                  rw [List.drop_succ_cons]
                  exact hmin i (by omega)
            · rintro ⟨hocc, hmin⟩
              refine ⟨j, (ih j).mpr ⟨by simpa [List.drop_succ_cons] using hocc,
                ?_⟩, rfl⟩
              intro i hi
              have := hmin (i + 1) (by omega)
              simpa [List.drop_succ_cons] using this

theorem findFromAux_eq_none_iff {pat : Str} (hne : pat ≠ []) :
    ∀ (s : Str), findFromAux pat s = none ↔ ∀ i, ¬ pat <+: s.drop i := by
  intro s
  induction s with
  | nil =>
      have hnp : pat.isPrefixOf ([] : Str) = false := by
        rw [Bool.eq_false_iff]
        intro h
        exact hne (List.prefix_nil.mp (List.isPrefixOf_iff_prefix.mp h))
      simp only [findFromAux, hnp, Bool.false_eq_true, if_false, true_iff]
      intro i h
      exact hne (List.prefix_nil.mp (by simpa using h))
  | cons c t ih =>
      by_cases hp : pat.isPrefixOf (c :: t) = true
      · simp only [findFromAux, if_pos hp]
        constructor
        · intro h
          simp at h
        · intro h
          exact absurd (by simpa using List.isPrefixOf_iff_prefix.mp hp)
            (h 0)
      · simp only [findFromAux, if_neg hp, Option.map_eq_none', ih]
        constructor
        · intro h i
          cases i with
          | zero =>
              simpa using fun h2 => hp (List.isPrefixOf_iff_prefix.mpr h2)
          | succ i =>
              rw [List.drop_succ_cons]
              exact h i
        · intro h i
          have := h (i + 1)
          simpa [List.drop_succ_cons] using this

theorem pyFind_eq_some_iff {pat s : Str} (hne : pat ≠ []) (start j : Nat) :
    pyFind pat s start = some j ↔
      (start ≤ j ∧ occursAt pat s j ∧
        ∀ i, start ≤ i → i < j → ¬ occursAt pat s i) := by
  unfold pyFind
  rw [Option.map_eq_some']
  constructor
  · rintro ⟨j2, hfind, hj2⟩
    subst hj2
    rcases (findFromAux_eq_some_iff hne _ j2).mp hfind with ⟨hocc, hmin⟩
    refine ⟨by omega, ?_, ?_⟩
    · rw [drop_add] at hocc
      exact hocc
    · intro i hle hlt
      have := hmin (i - start) (by omega)
      rw [drop_add, show i - start + start = i by omega] at this
      exact this
  · rintro ⟨hle, hocc, hmin⟩
    refine ⟨j - start, ?_, by omega⟩
    rw [findFromAux_eq_some_iff hne]
    constructor
    · rw [drop_add, show j - start + start = j by omega]
      exact hocc
    · intro i hi
      rw [drop_add]
      exact hmin (i + start) (by omega) (by omega)

theorem pyFind_eq_none_iff {pat s : Str} (hne : pat ≠ []) (start : Nat) :
    pyFind pat s start = none ↔ ∀ i, start ≤ i → ¬ occursAt pat s i := by
  unfold pyFind
  rw [Option.map_eq_none', findFromAux_eq_none_iff hne]
  constructor
  · intro h i hle
    have := h (i - start)
    rw [drop_add, show i - start + start = i by omega] at this
    exact this
  · intro h i
    rw [drop_add]
    exact h (i + start) (by omega)

theorem getLast?_filter_range (p : Nat → Bool) :
    ∀ (n : Nat) (j : Nat),
      ((List.range n).filter p).getLast? = some j ↔
        (p j = true ∧ j < n ∧ ∀ k, j < k → k < n → ¬ p k = true) := by
  intro n
  induction n with
  | zero => simp
  | succ n ih =>
      intro j
      rw [List.range_succ, List.filter_append]
      by_cases hp : p n = true
      · simp only [List.filter_cons, hp, if_pos, List.filter_nil]
        rw [List.getLast?_concat]
        constructor
        · intro h
          have hj : j = n := by
            have := Option.some_injective _ h
            omega
          subst hj
          exact ⟨hp, by omega, by omega⟩
        · rintro ⟨hpj, hjn, hmax⟩
          rcases Nat.lt_or_ge j n with h | h
          · exact absurd hp (hmax n h (by omega))
          · have : j = n := by omega
            rw [this]
      · rw [show (List.filter p [n]) = [] by simp [hp]]
        rw [List.append_nil, ih j]
        constructor
        · rintro ⟨h1, h2, h3⟩
          refine ⟨h1, by omega, ?_⟩
          intro k hk1 hk2
          rcases Nat.lt_or_ge k n with h | h
          · exact h3 k hk1 h
          · have : k = n := by omega
            subst this
            exact fun hc => hp hc
        · rintro ⟨h1, h2, h3⟩
          refine ⟨h1, ?_, fun k hk1 hk2 => h3 k hk1 (by omega)⟩
          rcases Nat.lt_or_ge j n with h | h
          · exact h
          · have : j = n := by omega
            subst this
            exact absurd h1 hp

theorem pyRFindWithin_eq_some_iff {pat s : Str} (hne : pat ≠ [])
    (stop j : Nat) :
    pyRFindWithin pat s stop = some j ↔
      (occursAt pat s j ∧ j + pat.length ≤ stop ∧
        ∀ k, j < k → k + pat.length ≤ stop → ¬ occursAt pat s k) := by
  unfold pyRFindWithin
  rw [getLast?_filter_range]
  have hlenpos : 0 < pat.length := List.length_pos.mpr hne
  constructor
  · rintro ⟨h1, h2, h3⟩
    rw [Bool.and_eq_true, decide_eq_true_iff] at h1
    refine ⟨List.isPrefixOf_iff_prefix.mp h1.1, h1.2, ?_⟩
    intro k hk1 hk2
    intro hocc
    exact h3 k hk1 (by omega)
      (by rw [Bool.and_eq_true, decide_eq_true_iff]
          exact ⟨List.isPrefixOf_iff_prefix.mpr hocc, hk2⟩)
  · rintro ⟨h1, h2, h3⟩
    refine ⟨?_, by omega, ?_⟩
    · rw [Bool.and_eq_true, decide_eq_true_iff]
      exact ⟨List.isPrefixOf_iff_prefix.mpr h1, h2⟩
    · intro k hk1 hk2 hc
      rw [Bool.and_eq_true, decide_eq_true_iff] at hc
      exact h3 k hk1 hc.2 (List.isPrefixOf_iff_prefix.mp hc.1)

theorem pyRFindWithin_eq_none_iff {pat s : Str} (stop : Nat) :
    pyRFindWithin pat s stop = none ↔
      ∀ k, k + pat.length ≤ stop → ¬ occursAt pat s k := by
  unfold pyRFindWithin
  rw [List.getLast?_eq_none_iff, List.filter_eq_nil_iff]
  constructor
  · intro h k hk hocc
    exact h k (by rw [List.mem_range]; omega)
      (by rw [Bool.and_eq_true, decide_eq_true_iff]
          exact ⟨List.isPrefixOf_iff_prefix.mpr hocc, hk⟩)
  · intro h k _ hc
    rw [Bool.and_eq_true, decide_eq_true_iff] at hc
    exact h k hc.2 (List.isPrefixOf_iff_prefix.mp hc.1)

/- ### `pyCount` agrees with the number of occurrence positions -/

theorem positions_eq_nil_of_no_occ {pat : Str} :
    ∀ {s : Str}, (∀ i, ¬ occursAt pat s i) → positions pat s = [] := by
  intro s
  induction s with
  | nil =>
      intro h
      have hne : pat ≠ [] := by
        rintro rfl
        exact h 0 (List.nil_prefix)
      exact positions_nil hne
  | cons c t ih =>
      intro h
      simp only [positions]
      rw [if_neg, ih, List.map_nil, List.append_nil]
      · intro i hocc
        exact h (i + 1) (occursAt_cons_succ.mpr hocc)
      · intro hp
        exact h 0 (by simpa [occursAt] using List.isPrefixOf_iff_prefix.mp hp)

theorem positions_self {pat : Str} (hne : pat ≠ []) :
    positions pat pat = [0] := by
  obtain ⟨c, t, rfl⟩ := List.exists_cons_of_ne_nil hne
  simp only [positions,
    if_pos (List.isPrefixOf_iff_prefix.mpr (List.prefix_refl _))]
  rw [positions_eq_nil_of_no_occ]
  · rfl
  · intro i hocc
    have := occursAt_length_le (by simp) hocc
    simp only [List.length_cons] at this
    omega

theorem crossFree_self {pat : Str} (hno : NoOverlap pat) (r : Str) :
    CrossFree pat pat r := by
  intro i hi hlen hocc
  have h1 : 0 < i := by omega
  have h2 : pat <+: pat.drop i ++ r := by
    have := hocc
    unfold occursAt at this
    rwa [drop_append_le pat r (by omega)] at this
  have h3 : pat.drop i <+: pat := by
    have h4 := List.prefix_iff_eq_take.mp h2
    rw [List.take_append_eq_append_take,
      List.take_of_length_le (by simp [List.length_drop])] at h4
    exact ⟨r.take (pat.length - (pat.drop i).length), h4.symm⟩
  exact hno i hi h1 h3

theorem length_positions_of_startsWith {pat : Str} (hne : pat ≠ [])
    (hno : NoOverlap pat) {s : Str} (hp : pat <+: s) :
    (positions pat s).length =
      1 + (positions pat (s.drop pat.length)).length := by
  obtain ⟨r, rfl⟩ := hp
  rw [positions_append hne pat r (crossFree_self hno r), positions_self hne]
  simp [List.drop_left]
  omega

theorem pyCountFuel_eq {pat : Str} (hne : pat ≠ []) (hno : NoOverlap pat) :
    ∀ (f : Nat) (s : Str), s.length ≤ f →
      pyCountFuel pat f s = (positions pat s).length := by
  intro f
  induction f with
  | zero =>
      intro s hs
      have hs2 : s = [] := List.eq_nil_of_length_eq_zero (by omega)
      subst hs2
      rw [positions_nil hne]
      rfl
  | succ f ih =>
      intro s hs
      by_cases hp : pat.isPrefixOf s = true
      · have hcond : ((!pat.isEmpty) && pat.isPrefixOf s) = true := by
          rw [Bool.and_eq_true]
          refine ⟨?_, hp⟩
          simpa [List.isEmpty_iff] using hne
        rw [pyCountFuel.eq_def]
        simp only [if_pos hcond]
        have hsne : s.length ≥ pat.length := (List.isPrefixOf_iff_prefix.mp hp).length_le
        have hplen : 0 < pat.length := List.length_pos.mpr hne
        rw [ih (s.drop pat.length) (by simp [List.length_drop]; omega)]
        rw [length_positions_of_startsWith hne hno (List.isPrefixOf_iff_prefix.mp hp)]
      · rw [pyCountFuel.eq_def]
        simp only [if_neg (show ¬(((!pat.isEmpty) && pat.isPrefixOf s) = true) by
          simp [hp])]
        cases s with
        | nil =>
            rw [positions_nil hne]
            rfl
        | cons c t =>
            simp only
            rw [ih t (by simpa using Nat.le_of_succ_le_succ hs)]
            simp only [positions, if_neg hp, List.nil_append, List.length_map]

theorem pyCount_eq_length_positions {pat s : Str} (hne : pat ≠ [])
    (hno : NoOverlap pat) :
    pyCount pat s = (positions pat s).length :=
  pyCountFuel_eq hne hno s.length s (le_refl _)

theorem digitChar_isDigit : ∀ d < 10, (Char.ofNat (48 + d)).isDigit = true := by
  decide

theorem natStrAux_succ (f n : Nat) :
    natStrAux (f + 1) n =
      if n < 10 then [Char.ofNat (48 + n)]
      else natStrAux f (n / 10) ++ [Char.ofNat (48 + n % 10)] := rfl

theorem natStrAux_ne_nil (f n : Nat) : natStrAux (f + 1) n ≠ [] := by
  rw [natStrAux_succ]
  split <;> simp

theorem natStr_ne_nil (n : Nat) : natStr n ≠ [] := natStrAux_ne_nil n n

theorem natStrAux_all_digit :
    ∀ (f n : Nat), ∀ c ∈ natStrAux f n, c.isDigit = true := by
  intro f
  induction f with
  | zero =>
      intro n c hc
      simp [natStrAux] at hc
  | succ f ih =>
      intro n c hc
      rw [natStrAux_succ] at hc
      by_cases h : n < 10
      · rw [if_pos h] at hc
        simp only [List.mem_singleton] at hc
        subst hc
        exact digitChar_isDigit n (by omega)
      · rw [if_neg h] at hc
        rw [List.mem_append] at hc
        rcases hc with hc | hc
        · exact ih (n / 10) c hc
        · simp only [List.mem_singleton] at hc
          subst hc
          exact digitChar_isDigit (n % 10) (Nat.mod_lt _ (by omega))

theorem natStr_all_digit : ∀ (n : Nat), ∀ c ∈ natStr n, c.isDigit = true :=
  fun n => natStrAux_all_digit (n + 1) n

theorem lookupD_nil {α : Type} (k : Str) : lookupD ([] : List (Str × α)) k = none := rfl

theorem lookupD_cons {α : Type} (k2 : Str) (v2 : α) (t : List (Str × α)) (k : Str) :
    lookupD ((k2, v2) :: t) k = if k2 == k then some v2 else lookupD t k := by
  simp only [lookupD, List.find?_cons]
  by_cases h : k2 == k
  · simp [h]
  · simp [h]

theorem lookupD_setD_self {α : Type} (m : List (Str × α)) (k : Str) (v : α) :
    lookupD (setD m k v) k = some v := by
  induction m with
  | nil => simp [setD, lookupD]
  | cons kv t ih =>
      obtain ⟨k2, v2⟩ := kv
      by_cases h : k2 == k
      · simp [setD, h, lookupD_cons]
      · simp [setD, h, lookupD_cons, ih]

theorem lookupD_setD_other {α : Type} (m : List (Str × α)) (k k2 : Str) (v : α)
    (h : k2 ≠ k) : lookupD (setD m k v) k2 = lookupD m k2 := by
  have hb : (k == k2) = false := beq_eq_false_iff_ne.mpr (fun hh => h hh.symm)
  induction m with
  | nil => simp [setD, lookupD_cons, hb, lookupD_nil]
  | cons kv t ih =>
      obtain ⟨k3, v3⟩ := kv
      by_cases hh : k3 == k
      · have h3 : (k3 == k2) = false := by
          have : k3 = k := by simpa using hh
          subst this
          exact hb
        simp [setD, hh, lookupD_cons, h3]
      · simp only [setD, hh, Bool.false_eq_true, if_false]
        rw [lookupD_cons, lookupD_cons, ih]

theorem dropWhile_eq_self_of_all {p : Char → Bool} {s : Str}
    (h : ∀ c ∈ s, p c = false) : s.dropWhile p = s := by
  cases s with
  | nil => rfl
  | cons c t =>
      rw [List.dropWhile_cons, h c (List.mem_cons_self c t)]
      simp

theorem pyStrip_eq_self {s : Str} (h : ∀ c ∈ s, isPySpace c = false) :
    pyStrip s = s := by
  unfold pyStrip
  rw [dropWhile_eq_self_of_all h,
    dropWhile_eq_self_of_all (fun c hc => h c (by simpa using hc)),
    List.reverse_reverse]

theorem isPySpace_false_of_isDigit {c : Char} (h : c.isDigit = true) :
    isPySpace c = false := by
  by_contra hc
  have h2 : isPySpace c = true := by simpa using hc
  unfold isPySpace at h2
  simp only [Bool.or_eq_true, decide_eq_true_eq] at h2
  rcases h2 with ((((rfl | rfl) | rfl) | rfl) | rfl) | rfl <;>
    exact absurd h (by decide)

/-- C7: `_generate_realistic_serial` is a pure, deterministic function: for
every triple of arguments, any two calls with identical arguments return an
identical serial string; there is no dependence on hidden state, randomness
or run (the md5 hex digest is itself a fixed function of the input, over
which the statement is universally quantified). -/
theorem C7_generate_realistic_serial_deterministic
    (md5HexUpper : Str → Str) (ct nn sp ct2 nn2 sp2 : Str)
    (h1 : ct = ct2) (h2 : nn = nn2) (h3 : sp = sp2) :
    _generate_realistic_serial md5HexUpper ct nn sp =
      _generate_realistic_serial md5HexUpper ct2 nn2 sp2 := by
  rw [h1, h2, h3]

/-- Witness for C7 at concrete arguments. -/
theorem C7_generate_realistic_serial_deterministic_witness :
    str "Chassis" = str "Chassis" ∧
    _generate_realistic_serial (fun s => s) (str "Chassis") (str "R1.X.1")
        (str "") =
      _generate_realistic_serial (fun s => s) (str "Chassis") (str "R1.X.1")
        (str "") :=
  ⟨rfl, C7_generate_realistic_serial_deterministic (fun s => s)
    (str "Chassis") (str "R1.X.1") (str "") (str "Chassis") (str "R1.X.1")
    (str "") rfl rfl rfl⟩

theorem isEmpty_false {α : Type} {l : List α} (h : l ≠ []) :
    l.isEmpty = false := by
  cases l with
  | nil => exact absurd rfl h
  | cons _ _ => rfl

theorem natStr_no_space (n : Nat) : ∀ ch ∈ natStr n, isPySpace ch = false :=
  fun ch hc => isPySpace_false_of_isDigit (natStr_all_digit n ch hc)

theorem intercalate_three (sep a b c : Str) :
    List.intercalate sep [a, b, c] = a ++ sep ++ b ++ sep ++ c := by
  simp [List.intercalate, List.intersperse, List.append_assoc]

theorem intercalate_two (sep a b : Str) :
    List.intercalate sep [a, b] = a ++ sep ++ b := by
  simp [List.intercalate, List.intersperse, List.append_assoc]

theorem containsD_nil {α : Type} (k : Str) :
    containsD ([] : List (Str × α)) k = false := rfl

theorem containsD_cons {α : Type} (k2 : Str) (v2 : α) (t : List (Str × α))
    (k : Str) :
    containsD ((k2, v2) :: t) k = ((k2 == k) || containsD t k) := by
  simp only [containsD, lookupD_cons]
  by_cases h : k2 == k <;> simp [h]

theorem setD_nil {α : Type} (k : Str) (v : α) : setD [] k v = [(k, v)] := rfl

theorem setD_cons_ne {α : Type} {k2 k : Str} (v2 : α) (t : List (Str × α))
    (v : α) (h : k2 ≠ k) :
    setD ((k2, v2) :: t) k v = (k2, v2) :: setD t k v := by
  simp [setD, beq_eq_false_iff_ne.mpr h]

theorem addCombosStep_insert (label : Str) (acc : List (Str × Str)) (k : Str)
    (hk : k ≠ []) (hstrip : pyStrip k = k) (habs : containsD acc k = false) :
    addCombosStep label acc k = setD acc k label := by
  unfold addCombosStep
  simp only [hstrip, isEmpty_false hk, habs, Bool.not_false, Bool.and_self,
    if_true]

/-- C10: inserting a transceiver with all three coordinates and a nonempty
label into an empty `xcvr_map` stores the label under exactly the keys
`"fpc/pic/port"`, `"pic/port"` and `"port"`; the subsequent lookup with the
same coordinates returns exactly that label; and on an empty map the lookup
returns the empty string for every coordinate triple. -/
theorem C10_xcvr_roundtrip (f p pt : Nat) (label : Str) (hl : label ≠ []) :
    add_xcvr_map [] (some f) (some p) (some pt) label =
      [(natStr f ++ str "/" ++ natStr p ++ str "/" ++ natStr pt, label),
       (natStr p ++ str "/" ++ natStr pt, label),
       (natStr pt, label)] ∧
    _lookup_xcvr_label (add_xcvr_map [] (some f) (some p) (some pt) label)
      (some f) (some p) (some pt) = label ∧
    (∀ f2 p2 pt2 : Option Nat, _lookup_xcvr_label [] f2 p2 pt2 = []) := by
  have hfpos : 0 < (natStr f).length := List.length_pos.mpr (natStr_ne_nil f)
  have hppos : 0 < (natStr p).length := List.length_pos.mpr (natStr_ne_nil p)
  have hptpos : 0 < (natStr pt).length :=
    List.length_pos.mpr (natStr_ne_nil pt)
  have hsl : (str "/").length = 1 := rfl
  have hslash : ∀ ch ∈ str "/", isPySpace ch = false := by decide
  set K3 : Str := natStr pt with hK3
  set K2 : Str := natStr p ++ str "/" ++ K3 with hK2
  set K1 : Str := natStr f ++ str "/" ++ natStr p ++ str "/" ++ K3 with hK1
  have hns1 : ∀ ch ∈ K1, isPySpace ch = false := by
    rw [hK1]
    intro ch hch
    simp only [List.mem_append] at hch
    rcases hch with (((h | h) | h) | h) | h
    · exact natStr_no_space f ch h
    · exact hslash ch h
    · exact natStr_no_space p ch h
    · exact hslash ch h
    · exact natStr_no_space pt ch h
  have hns2 : ∀ ch ∈ K2, isPySpace ch = false := by
    rw [hK2]
    intro ch hch
    simp only [List.mem_append] at hch
    rcases hch with (h | h) | h
    · exact natStr_no_space p ch h
    · exact hslash ch h
    · exact natStr_no_space pt ch h
  have hk1len : K1.length =
      (natStr f).length + 1 + (natStr p).length + 1 + (natStr pt).length := by
    rw [hK1]
    simp only [List.length_append, hsl, hK3]
  have hk2len : K2.length = (natStr p).length + 1 + (natStr pt).length := by
    rw [hK2]
    simp only [List.length_append, hsl, hK3]
  have hne1 : K1 ≠ [] := by
    intro h
    have h2 := congrArg List.length h
    rw [hk1len, List.length_nil] at h2
    omega
  have hne2 : K2 ≠ [] := by
    intro h
    have h2 := congrArg List.length h
    rw [hk2len, List.length_nil] at h2
    omega
  have hne12 : K1 ≠ K2 := by
    intro h
    have h2 := congrArg List.length h
    rw [hk1len, hk2len] at h2
    omega
  have hne13 : K1 ≠ K3 := by
    intro h
    have h2 := congrArg List.length h
    rw [hk1len, hK3] at h2
    omega
  have hne23 : K2 ≠ K3 := by
    intro h
    have h2 := congrArg List.length h
    rw [hk2len, hK3] at h2
    omega
  have hcombos : xcvrCombos (xcvrParts (some f) (some p) (some pt)) =
      [K1, K2, K3] := by
    rw [show xcvrCombos (xcvrParts (some f) (some p) (some pt)) =
      [List.intercalate (str "/") [natStr f, natStr p, natStr pt],
       List.intercalate (str "/") [natStr p, natStr pt], natStr pt] from rfl]
    rw [intercalate_three, intercalate_two, hK1, hK2, hK3]
  have hcont2 : containsD [(K1, label)] K2 = false := by
    rw [containsD_cons, beq_eq_false_iff_ne.mpr hne12, containsD_nil]
    rfl
  have hcont3 : containsD [(K1, label), (K2, label)] K3 = false := by
    rw [containsD_cons, containsD_cons, beq_eq_false_iff_ne.mpr hne13,
      beq_eq_false_iff_ne.mpr hne23, containsD_nil]
    rfl
  have hcont4 : containsD [(K1, label), (K2, label), (K3, label)] K3 = true := by
    rw [containsD_cons, containsD_cons, containsD_cons,
      beq_eq_false_iff_ne.mpr hne13, beq_eq_false_iff_ne.mpr hne23,
      beq_self_eq_true]
    rfl
  have hmap : add_xcvr_map [] (some f) (some p) (some pt) label =
      [(K1, label), (K2, label), (K3, label)] := by
    unfold add_xcvr_map
    rw [hcombos]
    rw [List.foldl_cons,
      addCombosStep_insert label [] K1 hne1 (pyStrip_eq_self hns1)
        (containsD_nil K1),
      setD_nil]
    rw [List.foldl_cons,
      addCombosStep_insert label [(K1, label)] K2 hne2
        (pyStrip_eq_self hns2) hcont2,
      setD_cons_ne label [] label hne12, setD_nil]
    rw [List.foldl_cons,
      addCombosStep_insert label [(K1, label), (K2, label)] K3
        (by rw [hK3]; exact natStr_ne_nil pt)
        (by rw [hK3]; exact pyStrip_eq_self (natStr_no_space pt)) hcont3,
      setD_cons_ne label [(K2, label)] label hne13,
      setD_cons_ne label [] label hne23, setD_nil]
    rw [List.foldl_nil]
    show (if !containsD [(K1, label), (K2, label), (K3, label)] (natStr pt)
      then setD [(K1, label), (K2, label), (K3, label)] (natStr pt) label
      else [(K1, label), (K2, label), (K3, label)]) =
      [(K1, label), (K2, label), (K3, label)]
    rw [show natStr pt = K3 from hK3.symm ▸ rfl]
    rw [hcont4]
    simp
  refine ⟨hmap, ?_, fun _ _ _ => rfl⟩
  rw [hmap]
  simp only [_lookup_xcvr_label]
  rw [isEmpty_false (by simp : ([(K1, label), (K2, label), (K3, label)] :
    List (Str × Str)) ≠ [])]
  simp only [Bool.false_eq_true, if_false]
  have hfind : lookupD [(K1, label), (K2, label), (K3, label)] K1 =
      some label := by
    rw [lookupD_cons, beq_self_eq_true]
    rfl
  show (match lookupLoop [(K1, label), (K2, label), (K3, label)]
      [K1, K2, K3] with
    | some v => v
    | none =>
        match some pt with
        | some pt2 =>
            match List.find? (fun kv =>
              (pyEndsWith kv.1 ('/' :: natStr pt2) || kv.1 == natStr pt2) &&
                !kv.2.isEmpty) [(K1, label), (K2, label), (K3, label)] with
            | some kv => kv.2
            | none => []
        | none => []) = label
  rw [show lookupLoop [(K1, label), (K2, label), (K3, label)] [K1, K2, K3] =
      some label by
    rw [lookupLoop, hfind]
    show (if (!label.isEmpty) = true then some label
      else lookupLoop [(K1, label), (K2, label), (K3, label)] [K2, K3]) =
      some label
    rw [isEmpty_false hl]
    rfl]

/-- Witness for C10 at concrete coordinates. -/
theorem C10_xcvr_roundtrip_witness :
    (str "SFP-LX10" ≠ []) ∧
    _lookup_xcvr_label
      (add_xcvr_map [] (some 0) (some 1) (some 2) (str "SFP-LX10"))
      (some 0) (some 1) (some 2) = str "SFP-LX10" :=
  ⟨by decide, (C10_xcvr_roundtrip 0 1 2 (str "SFP-LX10") (by decide)).2.1⟩

/- Score-shape lemmas for the inference chain. -/

theorem stepDesc_score (i : Str) (d : List (Str × Str)) (st : SfpState) :
    (stepDesc i d st).1 = st.1 ∨ (stepDesc i d st).1 = st.1 + 30 := by
  unfold stepDesc
  dsimp only
  split
  · split
    · right; rfl
    · left; rfl
  · left; rfl

theorem stepLldp_score (i : Str) (n : List (Str × Str)) (st : SfpState) :
    (stepLldp i n st).1 = st.1 ∨ (stepLldp i n st).1 = st.1 + 40 := by
  unfold stepLldp
  split
  · right; rfl
  · left; rfl

theorem adjacentState_le (ty : Str) (fpc pic port : Nat)
    (n : List (Str × Str)) : (adjacentState ty fpc pic port n).1 ≤ 40 := by
  unfold adjacentState
  dsimp only
  split_ifs <;> simp

theorem adjacent_boost_le {i : Str} {a : Bool} {n : List (Str × Str)}
    {nd : Str} {ae : AdjEvidence}
    (h : _analyze_adjacent_ports i a n nd = some ae) :
    ae.confidence_boost ≤ 40 := by
  unfold _analyze_adjacent_ports at h
  rcases hp : parseIfaceMatch i with _ | ⟨ty, fpc, pic, port⟩ <;>
    rw [hp] at h
  · cases h
  · simp only at h
    split at h
    · injection h with h2
      rw [← h2]
      exact adjacentState_le ty fpc pic port n
    · cases h

theorem stepAdjacent_score (i : Str) (a : Bool) (n : List (Str × Str))
    (nd : Str) (st : SfpState) :
    (stepAdjacent i a n nd st).1 = st.1 ∨
      (st.1 < 40 ∧ st.1 ≤ (stepAdjacent i a n nd st).1 ∧
        (stepAdjacent i a n nd st).1 ≤ st.1 + 40) := by
  unfold stepAdjacent
  split
  · rename_i hgate
    split
    · rename_i ae hae
      right
      exact ⟨hgate.2, by simp, by
        have := adjacent_boost_le hae
        simp
        omega⟩
    · left; rfl
  · left; rfl

theorem stepUsedType_score (i : Str) (st : SfpState) :
    (stepUsedType i st).1 = st.1 ∨ (stepUsedType i st).1 = st.1 + 15 := by
  unfold stepUsedType
  split
  · right; rfl
  · split
    · right; rfl
    · split
      · right; rfl
      · left; rfl

theorem groupState_le (ty : Str) (fpc pic port : Nat) (nd : Str) :
    (groupState ty fpc pic port nd).1 ≤ 25 := by
  unfold groupState
  dsimp only
  split_ifs <;> simp

theorem group_boost_le {i nd : Str} {ge2 : AdjEvidence}
    (h : _analyze_port_group_patterns i nd = some ge2) :
    ge2.confidence_boost ≤ 25 := by
  unfold _analyze_port_group_patterns at h
  rcases hp : parseIfaceMatch i with _ | ⟨ty, fpc, pic, port⟩ <;>
    rw [hp] at h
  · cases h
  · simp only at h
    split at h
    · injection h with h2
      rw [← h2]
      exact groupState_le ty fpc pic port nd
    · cases h

theorem stepUsedGroup_score (i nd : Str) (st : SfpState) :
    (stepUsedGroup i nd st).1 = st.1 ∨
      (st.1 < 40 ∧ st.1 ≤ (stepUsedGroup i nd st).1 ∧
        (stepUsedGroup i nd st).1 ≤ st.1 + 25) := by
  unfold stepUsedGroup
  split
  · rename_i hgate
    split
    · rename_i ge2 hge
      right
      exact ⟨hgate, by simp, by
        have := group_boost_le hge
        simp
        omega⟩
    · left; rfl
  · left; rfl

theorem stepUnusedType_score (i : Str) (st : SfpState) :
    ((stepUnusedType i st).1 = st.1 ∧
      pyStartsWith i (str "ge-") = false ∧
      pyStartsWith i (str "xe-") = false) ∨
    (pyStartsWith i (str "xe-") = true ∧
      (stepUnusedType i st).1 = st.1 + 25) ∨
    (pyStartsWith i (str "ge-") = true ∧
      (stepUnusedType i st).1 = st.1 + 10) ∨
    ((stepUnusedType i st).1 = st.1 + 20 ∧
      pyStartsWith i (str "ge-") = false ∧
      pyStartsWith i (str "xe-") = false) := by
  unfold stepUnusedType
  split
  · rename_i hxe
    right; left
    exact ⟨by simpa using hxe, rfl⟩
  · split
    · rename_i hxe hge
      right; right; left
      exact ⟨by simpa using hge, rfl⟩
    · rename_i hxe hge
      split
      · right; right; right
        exact ⟨rfl, by simpa using hge, by simpa using hxe⟩
      · left
        exact ⟨rfl, by simpa using hge, by simpa using hxe⟩

theorem consecChoice_some {ty : Str} {fpc pic port : Nat} {nd : Str}
    {c : Nat} {e sg : Str}
    (h : consecChoice ty fpc pic port nd = some (c, e, sg)) :
    c ≤ 50 ∧ ty = str "ge" := by
  unfold consecChoice at h
  split at h
  · rename_i hc
    injection h with h2
    rw [Prod.mk.injEq, Prod.mk.injEq] at h2
    obtain ⟨hc1, -, -⟩ := h2
    exact ⟨by omega, eq_of_beq hc.2.1⟩
  · split at h
    · rename_i hc
      injection h with h2
      rw [Prod.mk.injEq, Prod.mk.injEq] at h2
      obtain ⟨hc1, -, -⟩ := h2
      exact ⟨by omega, eq_of_beq hc.2.1⟩
    · split at h
      · rename_i hc
        injection h with h2
        rw [Prod.mk.injEq, Prod.mk.injEq] at h2
        obtain ⟨hc1, -, -⟩ := h2
        exact ⟨by omega, eq_of_beq hc.2.1⟩
      · split at h
        · rename_i hc
          injection h with h2
          rw [Prod.mk.injEq, Prod.mk.injEq] at h2
          obtain ⟨hc1, -, -⟩ := h2
          exact ⟨by omega, eq_of_beq hc.2.1⟩
        · split at h
          · rename_i hc
            injection h with h2
            rw [Prod.mk.injEq, Prod.mk.injEq] at h2
            obtain ⟨hc1, -, -⟩ := h2
            exact ⟨by omega, eq_of_beq hc.2.1⟩
          · cases h

theorem densChoice_some {fpc pic : Nat} {c : Nat} {e sg : Str}
    (h : densChoice fpc pic = some (c, e, sg)) : c = 35 := by
  unfold densChoice at h
  split at h
  · injection h with h2
    rw [Prod.mk.injEq, Prod.mk.injEq] at h2
    omega
  · split at h
    · injection h with h2
      rw [Prod.mk.injEq, Prod.mk.injEq] at h2
      omega
    · split at h
      · injection h with h2
        rw [Prod.mk.injEq, Prod.mk.injEq] at h2
        omega
      · cases h

theorem parseIface_startsWith {i ty : Str} {f p pt : Nat}
    (h : parseIfaceMatch i = some (ty, f, p, pt)) :
    (ty = str "ge" ∧ pyStartsWith i (str "ge-") = true) ∨
    (ty = str "xe" ∧ pyStartsWith i (str "xe-") = true) := by
  unfold parseIfaceMatch at h
  split at h
  · rename_i t1 rest
    split at h
    · rename_i ht1
      split at h
      · split at h
        · split at h
          · split at h
            · split at h
              · injection h with h2
                rw [Prod.mk.injEq, Prod.mk.injEq, Prod.mk.injEq] at h2
                obtain ⟨hty, -, -, -⟩ := h2
                rcases ht1 with rfl | rfl
                · left
                  refine ⟨hty.symm, ?_⟩
                  simp [pyStartsWith, str, List.isPrefixOf]
                · right
                  refine ⟨hty.symm, ?_⟩
                  simp [pyStartsWith, str, List.isPrefixOf]
              · cases h
            · cases h
          · cases h
        · cases h
      · cases h
    · cases h
  · cases h

theorem startsWith_ge_xe_absurd {i : Str}
    (h1 : pyStartsWith i (str "ge-") = true)
    (h2 : pyStartsWith i (str "xe-") = true) : False := by
  unfold pyStartsWith str at h1 h2
  cases i with
  | nil => simp [List.isPrefixOf] at h1
  | cons c t =>
      simp [List.isPrefixOf] at h1 h2
      obtain ⟨hc1, -⟩ := h1
      obtain ⟨hc2, -⟩ := h2
      rw [← hc1] at hc2
      exact absurd hc2 (by decide)

theorem consec_some_facts {i nd : Str} {ce : AdjEvidence}
    (h : _analyze_consecutive_deployment_patterns i nd = some ce) :
    ce.confidence_boost ≤ 50 ∧
    (pyStartsWith i (str "xe-") = true → ce.confidence_boost ≤ 35) ∧
    (pyStartsWith i (str "ge-") = true ∨ pyStartsWith i (str "xe-") = true) := by
  unfold _analyze_consecutive_deployment_patterns at h
  rcases hp : parseIfaceMatch i with _ | ⟨ty, fpc, pic, port⟩ <;> rw [hp] at h
  · cases h
  · have hsw := parseIface_startsWith hp
    have hdisj : pyStartsWith i (str "ge-") = true ∨
        pyStartsWith i (str "xe-") = true := by
      rcases hsw with ⟨-, h2⟩ | ⟨-, h2⟩
      · exact Or.inl h2
      · exact Or.inr h2
    simp only at h
    split at h
    · rename_i c e sg hcc
      have hcs := consecChoice_some hcc
      injection h with h2
      refine ⟨?_, ?_, hdisj⟩
      · rw [← h2]
        exact hcs.1
      · intro hxe
        exfalso
        rcases hsw with ⟨hty, hge⟩ | ⟨hty, -⟩
        · exact startsWith_ge_xe_absurd hge hxe
        · rw [hty] at hcs
          have : str "xe" ≠ str "ge" := by decide
          exact this hcs.2
    · split at h
      · rename_i c e sg hdc
        have hd35 := densChoice_some hdc
        injection h with h2
        refine ⟨?_, ?_, hdisj⟩
        · rw [← h2]
          simp [hd35]
        · intro _
          rw [← h2]
          simp [hd35]
      · cases h

theorem stepConsecutive_score (i nd : Str) (st : SfpState) :
    (stepConsecutive i nd st).1 ≤ st.1 + 50 ∧
    (pyStartsWith i (str "xe-") = true →
      (stepConsecutive i nd st).1 ≤ st.1 + 35) ∧
    (pyStartsWith i (str "ge-") = false →
      pyStartsWith i (str "xe-") = false →
      (stepConsecutive i nd st).1 = st.1) := by
  unfold stepConsecutive
  split
  · rename_i ce hce
    have hf := consec_some_facts hce
    refine ⟨by simp; omega, ?_, ?_⟩
    · intro hxe
      have := hf.2.1 hxe
      simp
      omega
    · intro hge hxe
      rcases hf.2.2 with hc | hc
      · rw [hge] at hc
        cases hc
      · rw [hxe] at hc
        cases hc
  · exact ⟨by simp, fun _ => by simp, fun _ _ => rfl⟩

theorem sfpCore_le_145 (i status : Str) (d n : List (Str × Str)) (nd : Str)
    (a : Bool) : (sfpCore i status d n nd a).1 ≤ 145 := by
  unfold sfpCore
  have h0 : ((0, str "Unknown SFP", ([] : List Str)) : SfpState).1 = 0 := rfl
  have h1 := stepDesc_score i d (0, str "Unknown SFP", [])
  have h2 := stepLldp_score i n (stepDesc i d (0, str "Unknown SFP", []))
  have h3 := stepAdjacent_score i a n nd
    (stepLldp i n (stepDesc i d (0, str "Unknown SFP", [])))
  split
  · have h4 := stepUsedType_score i
      (stepAdjacent i a n nd
        (stepLldp i n (stepDesc i d (0, str "Unknown SFP", []))))
    have h5 := stepUsedGroup_score i nd
      ((stepUsedType i
          (stepAdjacent i a n nd
            (stepLldp i n (stepDesc i d (0, str "Unknown SFP", []))))).1 + 20,
       (stepUsedType i
          (stepAdjacent i a n nd
            (stepLldp i n (stepDesc i d (0, str "Unknown SFP", []))))).2.1,
       (stepUsedType i
          (stepAdjacent i a n nd
            (stepLldp i n (stepDesc i d (0, str "Unknown SFP", []))))).2.2 ++
         [str "Interface marked as USED - configuration suggests physical SFP"])
    dsimp only at h5 ⊢
    omega
  · have h4 := stepUnusedType_score i
      (stepAdjacent i a n nd
        (stepLldp i n (stepDesc i d (0, str "Unknown SFP", []))))
    have h5 := stepConsecutive_score i nd
      (stepUnusedType i
        (stepAdjacent i a n nd
          (stepLldp i n (stepDesc i d (0, str "Unknown SFP", [])))))
    dsimp only
    rcases h4 with ⟨he, hge, hxe⟩ | ⟨hxe, he⟩ | ⟨hge, he⟩ | ⟨he, hge, hxe⟩
    · have := h5.2.2 hge hxe
      omega
    · have := h5.2.1 hxe
      omega
    · have := h5.1
      omega
    · have := h5.2.2 hge hxe
      omega

/-- C5 counterexample: an interface with a matching description keyword, an
LLDP neighbor, an `xe-` prefix and USED status receives confidence
`30 + 40 + 15 + 20 = 105 > 100`, refuting the claimed 0-100 range. -/
theorem C5_confidence_counterexample :
    (Option.map (fun r => r.confidence)
      (_smart_sfp_inference (str "xe-0/0/0") (str "USED")
        [(str "xe-0/0/0", str "fiber")] [(str "xe-0/0/0", str "sw1")]
        (str "n") false)) = some 105 ∧ ¬ ((105 : Nat) ≤ 100) := by
  constructor
  · decide
  · decide

/-- C5 (amended): every `SfpInferenceResult` returned by
`_smart_sfp_inference` has confidence at least 30, and at most 145 (the
claimed upper bound of 100 does not hold). -/
theorem C5_confidence_bounds (interface status : Str)
    (dmap nmap : List (Str × Str)) (node : Str) (allData : Bool)
    (r : SfpInferenceResult)
    (h : _smart_sfp_inference interface status dmap nmap node allData =
      some r) : 30 ≤ r.confidence ∧ r.confidence ≤ 145 := by
  unfold _smart_sfp_inference at h
  split at h
  · cases h
  · split at h
    · cases h
    · have hle := sfpCore_le_145 interface status dmap nmap node allData
      by_cases hu : status = str "USED"
      · simp only [if_pos hu] at h
        split at h
        · rename_i hth
          injection h with h2
          rw [← h2]
          exact ⟨by dsimp only; omega, by dsimp only; omega⟩
        · cases h
      · simp only [if_neg hu] at h
        split at h
        · rename_i hth
          injection h with h2
          rw [← h2]
          exact ⟨by dsimp only; omega, by dsimp only; omega⟩
        · cases h

/-- Witness for the amended C5 bound at a concrete input. -/
theorem C5_confidence_bounds_witness :
    30 ≤ (105 : Nat) ∧ (105 : Nat) ≤ 145 :=
  C5_confidence_bounds (str "xe-0/0/0") (str "USED")
    [(str "xe-0/0/0", str "fiber")] [(str "xe-0/0/0", str "sw1")]
    (str "n") false
    ⟨str "SFP (from description)", 105,
     [str "Description contains: fiber", str "LLDP neighbor: sw1",
      str "10G interface in USED state - likely has SFP+",
      str "Interface marked as USED - configuration suggests physical SFP"],
     str "SMART_INFERENCE_FASE1"⟩ (by decide)

/-- C6: `_smart_sfp_inference` produces a result only when the additive
confidence score clears the status-dependent threshold (30 for `USED`, 40
for `UNUSED` interfaces passing `_is_fase3_candidate`); any other status, an
UNUSED interface failing the candidate filter, or a score below the
threshold yields `None`. -/
theorem C6_threshold_gating (interface status : Str)
    (dmap nmap : List (Str × Str)) (node : Str) (allData : Bool) :
    (status ≠ str "USED" → status ≠ str "UNUSED" →
      _smart_sfp_inference interface status dmap nmap node allData = none) ∧
    (status = str "UNUSED" → _is_fase3_candidate interface node = false →
      _smart_sfp_inference interface status dmap nmap node allData = none) ∧
    ((sfpCore interface status dmap nmap node allData).1 <
        (if status = str "USED" then 30 else 40) →
      _smart_sfp_inference interface status dmap nmap node allData = none) ∧
    (∀ r, _smart_sfp_inference interface status dmap nmap node allData =
        some r →
      r.confidence = (sfpCore interface status dmap nmap node allData).1 ∧
      ((status = str "USED" ∧ 30 ≤ r.confidence) ∨
       (status = str "UNUSED" ∧ _is_fase3_candidate interface node = true ∧
        40 ≤ r.confidence))) := by
  refine ⟨?_, ?_, ?_, ?_⟩
  · intro h1 h2
    unfold _smart_sfp_inference
    rw [if_pos]
    intro hc
    rcases hc with hc | hc
    · exact h1 hc
    · exact h2 hc
  · intro hs hf
    unfold _smart_sfp_inference
    rw [if_neg (by
      intro hc
      exact hc (Or.inr hs))]
    rw [if_pos ⟨hs, by rw [hf]; simp⟩]
  · intro hlt
    unfold _smart_sfp_inference
    split
    · rfl
    · split
      · rfl
      · by_cases hu : status = str "USED"
        · simp only [if_pos hu] at hlt ⊢
          rw [if_neg (by omega)]
        · simp only [if_neg hu] at hlt ⊢
          rw [if_neg (by omega)]
  · intro r h
    unfold _smart_sfp_inference at h
    split at h
    · cases h
    · rename_i hstat
      rw [not_not] at hstat
      split at h
      · cases h
      · rename_i hguard
        by_cases hu : status = str "USED"
        · simp only [if_pos hu] at h
          split at h
          · rename_i hth
            injection h with h2
            refine ⟨by rw [← h2], ?_⟩
            left
            refine ⟨hu, ?_⟩
            rw [← h2]
            dsimp only
            omega
          · cases h
        · have hun : status = str "UNUSED" := by
            rcases hstat with hc | hc
            · exact absurd hc hu
            · exact hc
          simp only [if_neg hu] at h
          split at h
          · rename_i hth
            injection h with h2
            have hf3 : _is_fase3_candidate interface node = true := by
              by_contra hc
              exact hguard ⟨hun, hc⟩
            refine ⟨by rw [← h2], Or.inr ⟨hun, hf3, ?_⟩⟩
            rw [← h2]
            dsimp only
            omega
          · cases h

/-- Witness for C6 at a concrete input (status outside USED/UNUSED). -/
theorem C6_threshold_gating_witness :
    _smart_sfp_inference (str "ge-0/0/0") (str "DOWN") [] [] (str "n") false =
      none :=
  (C6_threshold_gating (str "ge-0/0/0") (str "DOWN") [] [] (str "n")
    false).1 (by decide) (by decide)

theorem validate_one_clean (md5 : Str → Str) (node : Str)
    (h : HardwareComponent)
    (hc1 : pyIn (str "TEST") (pyUpper h.model_description) = false)
    (hc2 : pyIn (str "TEST") (pyUpper h.comments) = false) :
    validate_one md5 node h = some h ∨ validate_one md5 node h = none := by
  unfold validate_one
  split
  · left; rfl
  · split
    · left; rfl
    · split
      · left; rfl
      · split
        · rename_i hc
          rcases hc with hx | hx
          · rw [hc1] at hx
            exact Bool.noConfusion hx
          · rw [hc2] at hx
            exact Bool.noConfusion hx
        · split
          · split
            · left; rfl
            · split
              · left; rfl
              · split
                · left; rfl
                · right; rfl
          · rename_i hser
            split
            · left; rfl
            · left; rfl

theorem validate_one_chassis_testserial (md5 : Str → Str) (node : Str)
    (h : HardwareComponent) (hnode : node ≠ str "R3.KYA.PE-MOBILE.2")
    (hct : h.component_type = str "Chassis")
    (hserial : h.serial_number = str "JN1230EB8AFA")
    (hc1 : pyIn (str "TEST") (pyUpper h.model_description) = false)
    (hc2 : pyIn (str "TEST") (pyUpper h.comments) = false) :
    validate_one md5 node h = none := by
  unfold validate_one
  split
  · rename_i hcond
    exact absurd hcond.1 hnode
  · split
    · rename_i hcond
      exfalso
      rw [hct] at hcond
      exact (by decide : ¬(str "Chassis" = str "FPC")) hcond.1
    · split
      · rename_i hcond
        exfalso
        rw [hct] at hcond
        exact (by decide : ¬(str "Chassis" = str "CPU")) hcond.1
      · split
        · rename_i hc
          exfalso
          rcases hc with hx | hx
          · rw [hc1] at hx
            exact Bool.noConfusion hx
          · rw [hc2] at hx
            exact Bool.noConfusion hx
        · split
          · split
            · rename_i hfpm
              exfalso
              rw [hct] at hfpm
              exact (by decide : ¬(str "Chassis" = str "FPM")) hfpm
            · split
              · rename_i hfpc
                exfalso
                rw [hct] at hfpc
                exact (by decide : ¬(str "Chassis" = str "FPC")) hfpc.1
              · split
                · rename_i hsp
                  exact absurd hsp.1 hnode
                · rfl
          · rename_i hser4
            exfalso
            rw [hserial] at hser4
            exact hser4 (by decide)

theorem validate_one_keep_exception (md5 : Str → Str) (node : Str)
    (h : HardwareComponent)
    (hexc : h.component_type = str "FPM" ∨
      (h.component_type = str "FPC" ∧
        pyIn (str "FPC 7") h.slot_position = true))
    (hserial : h.serial_number = str "JN1230EB8AFA")
    (hc1 : pyIn (str "TEST") (pyUpper h.model_description) = false)
    (hc2 : pyIn (str "TEST") (pyUpper h.comments) = false) :
    validate_one md5 node h = some h := by
  unfold validate_one
  split
  · rfl
  · split
    · rfl
    · split
      · rfl
      · split
        · rename_i hc
          exfalso
          rcases hc with hx | hx
          · rw [hc1] at hx
            exact Bool.noConfusion hx
          · rw [hc2] at hx
            exact Bool.noConfusion hx
        · split
          · split
            · rfl
            · rename_i hnfpm
              split
              · rfl
              · rename_i hnfpc
                exfalso
                rcases hexc with hx | hx
                · exact hnfpm hx
                · exact hnfpc hx
          · rename_i hser4
            exfalso
            rw [hserial] at hser4
            exact hser4 (by decide)

theorem filterMap_idem {α : Type} (f : α → Option α) :
    ∀ (l : List α), (∀ a ∈ l, f a = some a ∨ f a = none) →
      (l.filterMap f).filterMap f = l.filterMap f := by
  intro l
  induction l with
  | nil => intro _; rfl
  | cons a t ih =>
      intro hf
      rcases hf a (by simp) with ha | ha
      · simp only [List.filterMap_cons, ha]
        rw [ih (fun b hb => hf b (by simp [hb]))]
      · simp only [List.filterMap_cons, ha]
        exact ih (fun b hb => hf b (by simp [hb]))

/-- C8 counterexample: for node `"X"`, a `Chassis` entry with the test
serial `JN1230EB8AFA` and a `TEST1NW` model description is retained by the
first run (Check 3 shadows the serial check), and a second run then removes
it: the claimed removal and idempotence both fail. -/
theorem C8_validate_counterexample :
    ((validate_hardware_data (fun s => s)
        [⟨str "Chassis", str "", str "750-1", str "JN1230EB8AFA",
          str "TEST1NW", str "", str "", str "", false⟩] (str "X")).map
      (fun h => h.serial_number)) = [str "JN1230EB8AFA"] ∧
    validate_hardware_data (fun s => s)
      (validate_hardware_data (fun s => s)
        [⟨str "Chassis", str "", str "750-1", str "JN1230EB8AFA",
          str "TEST1NW", str "", str "", str "", false⟩] (str "X"))
      (str "X") = [] := by
  exact ⟨by decide, by decide⟩

/-- C8 (amended): for every node other than `R3.KYA.PE-MOBILE.2` and every
hardware list whose entries contain no `TEST` marker in description or
comments, `validate_hardware_data` removes every `Chassis` entry with the
test serial `JN1230EB8AFA`, retains `FPM` entries and `FPC` entries in slot
`FPC 7` with that serial, and re-running on the cleaned list changes
nothing. -/
theorem C8_validate_hardware (md5 : Str → Str) (node : Str)
    (l : List HardwareComponent)
    (hnode : node ≠ str "R3.KYA.PE-MOBILE.2")
    (hclean : ∀ h ∈ l,
      pyIn (str "TEST") (pyUpper h.model_description) = false ∧
      pyIn (str "TEST") (pyUpper h.comments) = false) :
    (∀ h ∈ l, h.component_type = str "Chassis" →
      h.serial_number = str "JN1230EB8AFA" →
      h ∉ validate_hardware_data md5 l node) ∧
    (∀ h ∈ l, h.serial_number = str "JN1230EB8AFA" →
      (h.component_type = str "FPM" ∨
        (h.component_type = str "FPC" ∧
          pyIn (str "FPC 7") h.slot_position = true)) →
      h ∈ validate_hardware_data md5 l node) ∧
    validate_hardware_data md5 (validate_hardware_data md5 l node) node =
      validate_hardware_data md5 l node := by
  refine ⟨?_, ?_, ?_⟩
  · intro h hl hct hser hmem
    rw [validate_hardware_data, List.mem_filterMap] at hmem
    obtain ⟨a, hal, ha⟩ := hmem
    have hnone := validate_one_chassis_testserial md5 node h hnode hct hser
      (hclean h hl).1 (hclean h hl).2
    rcases validate_one_clean md5 node a (hclean a hal).1 (hclean a hal).2
      with h2 | h2
    · rw [h2] at ha
      injection ha with ha2
      rw [ha2] at h2
      rw [h2] at hnone
      exact Option.noConfusion hnone
    · rw [h2] at ha
      exact Option.noConfusion ha
  · intro h hl hser hexc
    rw [validate_hardware_data, List.mem_filterMap]
    exact ⟨h, hl, validate_one_keep_exception md5 node h hexc hser
      (hclean h hl).1 (hclean h hl).2⟩
  · exact filterMap_idem _ l (fun a ha =>
      validate_one_clean md5 node a (hclean a ha).1 (hclean a ha).2)

/-- Witness for the amended C8 at a concrete input. -/
theorem C8_validate_hardware_witness :
    (⟨str "FPM", str "", str "", str "JN1230EB8AFA", str "", str "",
      str "", str "", false⟩ : HardwareComponent) ∈
      validate_hardware_data (fun s => s)
        [⟨str "FPM", str "", str "", str "JN1230EB8AFA", str "", str "",
          str "", str "", false⟩] (str "X") :=
  (C8_validate_hardware (fun s => s) (str "X")
    [⟨str "FPM", str "", str "", str "JN1230EB8AFA", str "", str "",
      str "", str "", false⟩] (by decide) (by decide)).2.1
    ⟨str "FPM", str "", str "", str "JN1230EB8AFA", str "", str "",
      str "", str "", false⟩ (by decide) (by decide) (by decide)

/- ### C1 toolkit: lengths of the scans, stack walk, splice counting -/

theorem insertPos_perm (a : Bool × Nat) (l : List (Bool × Nat)) :
    (insertPos a l).Perm (a :: l) := by
  induction l with
  | nil => exact List.Perm.refl _
  | cons b t ih =>
      unfold insertPos
      split
      · exact (ih.cons b).trans (List.Perm.swap a b t)
      · exact List.Perm.refl _

theorem sortByPos_perm (l : List (Bool × Nat)) : (sortByPos l).Perm l := by
  induction l with
  | nil => exact List.Perm.refl _
  | cons a t ih => exact (insertPos_perm a (sortByPos t)).trans (ih.cons a)

theorem stackWalk_nil (stack : List Nat) (u : Nat) :
    stackWalk [] stack u = (stack, u) := rfl

theorem stackWalk_open (p : Nat) (rest : List (Bool × Nat)) (stack : List Nat)
    (u : Nat) :
    stackWalk ((true, p) :: rest) stack u = stackWalk rest (stack ++ [p]) u :=
  rfl

theorem stackWalk_close_nil (p : Nat) (rest : List (Bool × Nat)) (u : Nat) :
    stackWalk ((false, p) :: rest) [] u = stackWalk rest [] (u + 1) := rfl

theorem stackWalk_close_cons (p : Nat) (rest : List (Bool × Nat)) (a : Nat)
    (st : List Nat) (u : Nat) :
    stackWalk ((false, p) :: rest) (a :: st) u =
      stackWalk rest ((a :: st).dropLast) u := rfl

/-- Size bookkeeping of the stack walk: the unexpected-close counter only
grows, and the final stack size balances opens against closes up to the
number of unexpected closes. -/
theorem stackWalk_spec :
    ∀ (tags : List (Bool × Nat)) (stack : List Nat) (u : Nat),
      u ≤ (stackWalk tags stack u).2 ∧
      (stackWalk tags stack u).1.length +
          (tags.filter (fun t => !t.1)).length =
        stack.length + (tags.filter (fun t => t.1)).length +
          ((stackWalk tags stack u).2 - u) := by
  intro tags
  induction tags with
  | nil =>
      intro stack u
      simp [stackWalk_nil]
  | cons t rest ih =>
      obtain ⟨b, p⟩ := t
      cases b with
      | true =>
          intro stack u
          have h := ih (stack ++ [p]) u
          rw [stackWalk_open]
          rw [show (((true, p) :: rest).filter (fun t => !t.1)) =
              rest.filter (fun t => !t.1) from by simp]
          rw [show (((true, p) :: rest).filter (fun t => t.1)) =
              (true, p) :: rest.filter (fun t => t.1) from by simp]
          simp only [List.length_cons, List.length_append,
            List.length_nil] at h ⊢
          omega
      | false =>
          intro stack u
          rw [show (((false, p) :: rest).filter (fun t => !t.1)) =
              (false, p) :: rest.filter (fun t => !t.1) from by simp]
          rw [show (((false, p) :: rest).filter (fun t => t.1)) =
              rest.filter (fun t => t.1) from by simp]
          cases stack with
          | nil =>
              have h := ih [] (u + 1)
              rw [stackWalk_close_nil]
              simp only [List.length_cons, List.length_nil] at h ⊢
              omega
          | cons a st =>
              have h := ih ((a :: st).dropLast) u
              rw [stackWalk_close_cons]
              simp only [List.length_cons, List.length_dropLast] at h ⊢
              omega

/-- The find-loop scanner and the count scanner advance in lockstep: the
number of positions collected equals the non-overlapping count. -/
theorem scanPositions_length {pat : Str} (hne : pat ≠ []) :
    ∀ (f : Nat) (s : Str) (base : Nat), s.length ≤ f →
      (scanPositions pat f s base).length = pyCountFuel pat f s := by
  intro f
  induction f with
  | zero =>
      intro s base hs
      rfl
  | succ f ih =>
      intro s base hs
      have hplen : 0 < pat.length := List.length_pos.mpr hne
      rw [scanPositions.eq_def, pyCountFuel.eq_def]
      by_cases hp : ((!pat.isEmpty) && pat.isPrefixOf s) = true
      · simp only [if_pos hp, List.length_cons]
        rw [ih (s.drop pat.length) (base + pat.length)
          (by simp [List.length_drop]; omega)]
        omega
      · simp only [if_neg hp]
        cases s with
        | nil => rfl
        | cons c t =>
            exact ih t (base + 1) (by simpa using Nat.le_of_succ_le_succ hs)

theorem pyFindAll_length {pat : Str} (hne : pat ≠ []) (s : Str) :
    (pyFindAll pat s).length = pyCount pat s :=
  scanPositions_length hne s.length s 0 (le_refl _)

theorem filter_map_all_true {A B : Type} (f : A → B) (p : B → Bool)
    (l : List A) (h : ∀ a, p (f a) = true) :
    (l.map f).filter p = l.map f := by
  induction l with
  | nil => rfl
  | cons a t ih => simp [List.filter_cons, h a, ih]

theorem filter_map_all_false {A B : Type} (f : A → B) (p : B → Bool)
    (l : List A) (h : ∀ a, p (f a) = false) :
    (l.map f).filter p = [] := by
  induction l with
  | nil => rfl
  | cons a t ih => simp [List.filter_cons, h a, ih]

/-- The opening tags in the sorted merged tag list are exactly the
occurrences found by the opening-tag scan. -/
theorem chassisTags_opens (s : Str) :
    ((chassisTags s).filter (fun t => t.1)).length =
      pyCount (str "<chassis-module>") s := by
  have hperm := (sortByPos_perm
    (((pyFindAll (str "<chassis-module>") s).map (fun p => (true, p))) ++
      ((pyFindAll (str "</chassis-module>") s).map
        (fun p => (false, p))))).filter (fun t => t.1)
  have h1 : (((pyFindAll (str "<chassis-module>") s).map
        (fun p => (true, p))).filter (fun t : Bool × Nat => t.1)) =
      (pyFindAll (str "<chassis-module>") s).map (fun p => (true, p)) :=
    filter_map_all_true _ _ _ (fun a => rfl)
  have h2 : (((pyFindAll (str "</chassis-module>") s).map
        (fun p => (false, p))).filter (fun t : Bool × Nat => t.1)) = [] :=
    filter_map_all_false _ _ _ (fun a => rfl)
  unfold chassisTags
  rw [hperm.length_eq, List.filter_append, h1, h2, List.append_nil,
    List.length_map]
  exact pyFindAll_length (by decide) s

/-- The closing tags in the sorted merged tag list are exactly the
occurrences found by the closing-tag scan. -/
theorem chassisTags_closes (s : Str) :
    ((chassisTags s).filter (fun t => !t.1)).length =
      pyCount (str "</chassis-module>") s := by
  have hperm := (sortByPos_perm
    (((pyFindAll (str "<chassis-module>") s).map (fun p => (true, p))) ++
      ((pyFindAll (str "</chassis-module>") s).map
        (fun p => (false, p))))).filter (fun t => !t.1)
  have h1 : (((pyFindAll (str "<chassis-module>") s).map
        (fun p => (true, p))).filter (fun t : Bool × Nat => !t.1)) = [] :=
    filter_map_all_false _ _ _ (fun a => rfl)
  have h2 : (((pyFindAll (str "</chassis-module>") s).map
        (fun p => (false, p))).filter (fun t : Bool × Nat => !t.1)) =
      (pyFindAll (str "</chassis-module>") s).map (fun p => (false, p)) :=
    filter_map_all_true _ _ _ (fun a => rfl)
  unfold chassisTags
  rw [hperm.length_eq, List.filter_append, h1, h2, List.nil_append,
    List.length_map]
  exact pyFindAll_length (by decide) s

theorem getLast?_append_right_ne {A : Type} (x : List A) {y : List A}
    (hy : y ≠ []) : (x ++ y).getLast? = y.getLast? := by
  have hylen : 0 < y.length := List.length_pos.mpr hy
  rw [List.getLast?_eq_getElem?, List.getLast?_eq_getElem?, List.length_append,
    List.getElem?_append_right (by omega)]
  congr 1
  omega

theorem getLast?_flatten_replicate {u : Str} {c : Char}
    (hu : u.getLast? = some c) :
    ∀ k, 0 < k → ((List.replicate k u).flatten).getLast? = some c := by
  intro k
  induction k with
  | zero => intro h; omega
  | succ k ih =>
      intro _
      rw [List.replicate_succ, List.flatten_cons]
      rcases Nat.eq_zero_or_pos k with h0 | hpos
      · subst h0
        simpa using hu
      · have hne : (List.replicate k u).flatten ≠ [] := by
          intro h
          have := ih hpos
          rw [h] at this
          simp at this
        rw [getLast?_append_right_ne _ hne]
        exact ih hpos

theorem head?_flatten_replicate {u : Str} {c : Char}
    (hu : u.head? = some c) :
    ∀ k, 0 < k → ((List.replicate k u).flatten).head? = some c := by
  intro k hk
  cases k with
  | zero => omega
  | succ k =>
      rw [List.replicate_succ, List.flatten_cons]
      cases u with
      | nil => simp at hu
      | cons a t => simpa using hu

theorem length_positions_flatten_replicate {pat unit : Str} (hne : pat ≠ [])
    (hcf : ∀ y, CrossFree pat unit y) :
    ∀ k, (positions pat ((List.replicate k unit).flatten)).length =
      k * (positions pat unit).length := by
  intro k
  induction k with
  | zero => simp [positions_nil hne]
  | succ k ih =>
      rw [List.replicate_succ, List.flatten_cons,
        length_positions_append hne _ _ (hcf _), ih]
      ring

theorem missingTags_getLast? (s : Str)
    (hk : 0 < (stackWalk (chassisTags s) [] 0).1.length) :
    (missingTags s).getLast? = some (Char.ofNat 10) :=
  getLast?_flatten_replicate (by decide) _ hk

theorem missingTags_head? (s : Str)
    (hk : 0 < (stackWalk (chassisTags s) [] 0).1.length) :
    (missingTags s).head? = some (Char.ofNat 32) :=
  head?_flatten_replicate (by decide) _ hk

/-- The inserted block contains no opening tags. -/
theorem pyCount_missingTags_open (s : Str) :
    pyCount (str "<chassis-module>") (missingTags s) = 0 := by
  rw [pyCount_eq_length_positions (by decide) (by decide)]
  unfold missingTags
  rw [length_positions_flatten_replicate (by decide)
    (fun y => crossFree_of_getLast y
      (show (str "    </chassis-module>\n").getLast? =
        some (Char.ofNat 10) from by decide) (by decide))]
  rw [show (positions (str "<chassis-module>")
    (str "    </chassis-module>\n")).length = 0 from by decide]
  ring

/-- The inserted block contains exactly one closing tag per unclosed
opening tag. -/
theorem pyCount_missingTags_close (s : Str) :
    pyCount (str "</chassis-module>") (missingTags s) =
      (stackWalk (chassisTags s) [] 0).1.length := by
  rw [pyCount_eq_length_positions (by decide) (by decide)]
  unfold missingTags
  rw [length_positions_flatten_replicate (by decide)
    (fun y => crossFree_of_getLast y
      (show (str "    </chassis-module>\n").getLast? =
        some (Char.ofNat 10) from by decide) (by decide))]
  rw [show (positions (str "</chassis-module>")
    (str "    </chassis-module>\n")).length = 1 from by decide]
  ring

theorem pyCount_append_of_crossFree {pat : Str} (hne : pat ≠ [])
    (hno : NoOverlap pat) (x y : Str) (hcf : CrossFree pat x y) :
    pyCount pat (x ++ y) = pyCount pat x + pyCount pat y := by
  rw [pyCount_eq_length_positions hne hno, pyCount_eq_length_positions hne hno,
    pyCount_eq_length_positions hne hno]
  exact length_positions_append hne x y hcf

/-- Counting across the four-way splice `A ++ NL ++ M ++ B` produced by the
mid-string insertion. -/
theorem pyCount_four {pat : Str} (hne : pat ≠ []) (hno : NoOverlap pat)
    (A NL M B : Str)
    (hAB : CrossFree pat A B)
    (hA : CrossFree pat A (NL ++ (M ++ B)))
    (hNL : CrossFree pat NL (M ++ B))
    (hM : CrossFree pat M B) :
    pyCount pat (A ++ NL ++ M ++ B) =
      pyCount pat (A ++ B) + pyCount pat NL + pyCount pat M := by
  rw [pyCount_eq_length_positions hne hno, pyCount_eq_length_positions hne hno,
    pyCount_eq_length_positions hne hno, pyCount_eq_length_positions hne hno]
  rw [List.append_assoc, List.append_assoc]
  rw [length_positions_append hne _ _ hA, length_positions_append hne _ _ hNL,
    length_positions_append hne _ _ hM, length_positions_append hne _ _ hAB]
  omega

theorem insertCandLoop_spec (s : Str) (rpc_end : Nat) :
    ∀ cands : List Str, insertCandLoop s rpc_end cands = rpc_end ∨
      ∃ cand ∈ cands, ∃ q, pyRFindWithin cand s rpc_end = some q ∧
        insertCandLoop s rpc_end cands = q + cand.length := by
  intro cands
  induction cands with
  | nil => exact Or.inl rfl
  | cons cand rest ih =>
      cases hfind : pyRFindWithin cand s rpc_end with
      | some q =>
          refine Or.inr ⟨cand, by simp, q, hfind, ?_⟩
          simp only [insertCandLoop, hfind]
      | none =>
          rcases ih with h | ⟨c, hc, q, hq, heq⟩
          · left
            simp only [insertCandLoop, hfind]
            exact h
          · refine Or.inr ⟨c, by simp [hc], q, hq, ?_⟩
            simp only [insertCandLoop, hfind]
            exact heq

theorem head?_of_occursAt {pat s : Str} {q : Nat} {c : Char}
    (hocc : occursAt pat s q) (hh : pat.head? = some c) :
    (s.drop q).head? = some c := by
  rcases hocc with ⟨r, hr⟩
  rw [← hr]
  cases pat with
  | nil => simp at hh
  | cons a t => simpa using hh

theorem getLast?_take_of_occursAt {pat s : Str} {q : Nat} {c : Char}
    (hne : pat ≠ []) (hocc : occursAt pat s q)
    (hlast : pat.getLast? = some c) :
    (s.take (q + pat.length)).getLast? = some c := by
  have hplen : 0 < pat.length := List.length_pos.mpr hne
  have hqs : q + pat.length ≤ s.length := occursAt_length_le hne hocc
  have h2 := occursAt_getElem hocc (pat.length - 1) (by omega)
  rw [List.getLast?_eq_getElem?] at hlast
  rw [List.getLast?_eq_getElem?, List.length_take]
  rw [show min (q + pat.length) s.length = q + pat.length from by omega]
  rw [List.getElem?_take_of_lt (by omega)]
  rw [show q + pat.length - 1 = q + (pat.length - 1) from by omega, h2]
  exact hlast

/-- A balanced fragment is returned unchanged by the repair. -/
theorem repair_of_balanced {s : Str}
    (h : pyCount (str "<chassis-module>") s =
      pyCount (str "</chassis-module>") s) :
    _repair_chassis_module_xml s = s := by
  have hfil : ((chassisTags s).filter (fun t => t.1)).length =
      ((chassisTags s).filter (fun t => !t.1)).length := by
    rw [chassisTags_opens, chassisTags_closes]
    exact h
  unfold _repair_chassis_module_xml
  rw [if_pos hfil]

/-- When opens exceed closes and the stack walk meets no unexpected closing
tag, the repair output has balanced counts. -/
theorem repair_balances {s : Str}
    (himb : pyCount (str "</chassis-module>") s <
      pyCount (str "<chassis-module>") s)
    (hu : (stackWalk (chassisTags s) [] 0).2 = 0) :
    pyCount (str "<chassis-module>") (_repair_chassis_module_xml s) =
      pyCount (str "</chassis-module>") (_repair_chassis_module_xml s) := by
  have hopens := chassisTags_opens s
  have hcloses := chassisTags_closes s
  have hsw := stackWalk_spec (chassisTags s) [] 0
  have hk : (stackWalk (chassisTags s) [] 0).1.length =
      pyCount (str "<chassis-module>") s -
        pyCount (str "</chassis-module>") s := by
    rcases hsw with ⟨h1, h2⟩
    rw [hu, hopens, hcloses] at h2
    simp only [List.length_nil] at h2
    omega
  have hkpos : 0 < (stackWalk (chassisTags s) [] 0).1.length := by omega
  have hne_stack : (stackWalk (chassisTags s) [] 0).1 ≠ [] := by
    intro h0
    rw [h0] at hkpos
    simp at hkpos
  have hfilter_ne : ¬ (((chassisTags s).filter (fun t => t.1)).length =
      ((chassisTags s).filter (fun t => !t.1)).length) := by
    rw [hopens, hcloses]
    omega
  have hfilter_gt : ((chassisTags s).filter (fun t => t.1)).length >
      ((chassisTags s).filter (fun t => !t.1)).length := by
    rw [hopens, hcloses]
    omega
  have hMlast := missingTags_getLast? s hkpos
  have hMhead := missingTags_head? s hkpos
  unfold _repair_chassis_module_xml
  rw [if_neg hfilter_ne, if_pos hfilter_gt, if_pos hne_stack]
  split
  case h_2 hrpc =>
      have hcf_o : CrossFree (str "<chassis-module>") s (missingTags s) :=
        crossFree_of_head s hMhead (by decide)
      have hcf_c : CrossFree (str "</chassis-module>") s (missingTags s) :=
        crossFree_of_head s hMhead (by decide)
      have hcnt_o : pyCount (str "<chassis-module>") (repairedEnd s) =
          pyCount (str "<chassis-module>") s := by
        unfold repairedEnd
        rw [pyCount_append_of_crossFree (by decide) (by decide) _ _ hcf_o,
          pyCount_missingTags_open]
        omega
      have hcnt_c : pyCount (str "</chassis-module>") (repairedEnd s) =
          pyCount (str "</chassis-module>") s +
            (stackWalk (chassisTags s) [] 0).1.length := by
        unfold repairedEnd
        rw [pyCount_append_of_crossFree (by decide) (by decide) _ _ hcf_c,
          pyCount_missingTags_close]
      have hEnd : pyCount (str "<chassis-module>") (repairedEnd s) =
          pyCount (str "</chassis-module>") (repairedEnd s) := by
        rw [hcnt_o, hcnt_c]
        omega
      rw [if_pos hEnd]
      exact hEnd
  case h_1 rpc_end hrpc =>
      have hrpc_occ : occursAt (str "</rpc-reply>") s rpc_end := by
        unfold pyRFind at hrpc
        exact ((pyRFindWithin_eq_some_iff (by decide) _ _).mp hrpc).1
      have hAB : CrossFree (str "<chassis-module>")
          (s.take (repairInsertPos s rpc_end))
          (s.drop (repairInsertPos s rpc_end)) ∧
          CrossFree (str "</chassis-module>")
          (s.take (repairInsertPos s rpc_end))
          (s.drop (repairInsertPos s rpc_end)) := by
        rcases insertCandLoop_spec s rpc_end insertion_candidates with
          hdef | ⟨cand, hcand, q, hq, heq⟩
        · have hB_head : (s.drop (repairInsertPos s rpc_end)).head? =
              some (Char.ofNat 60) := by
            rw [repairInsertPos, hdef]
            exact head?_of_occursAt hrpc_occ (by decide)
          exact ⟨crossFree_of_head _ hB_head (by decide),
            crossFree_of_head _ hB_head (by decide)⟩
        · have hcand_ne : cand ≠ [] :=
            (show ∀ c ∈ insertion_candidates, c ≠ [] from by decide) cand hcand
          have hcand_last : cand.getLast? = some (Char.ofNat 62) :=
            (show ∀ c ∈ insertion_candidates, c.getLast? =
              some (Char.ofNat 62) from by decide) cand hcand
          have hq_occ : occursAt cand s q :=
            ((pyRFindWithin_eq_some_iff hcand_ne _ _).mp hq).1
          have hA_last : (s.take (repairInsertPos s rpc_end)).getLast? =
              some (Char.ofNat 62) := by
            rw [repairInsertPos, heq]
            exact getLast?_take_of_occursAt hcand_ne hq_occ hcand_last
          exact ⟨crossFree_of_getLast _ hA_last (by decide),
            crossFree_of_getLast _ hA_last (by decide)⟩
      have hNLhead : ((str "\n") ++ (missingTags s ++
          s.drop (repairInsertPos s rpc_end))).head? =
          some (Char.ofNat 10) := rfl
      have hNLlast : (str "\n").getLast? = some (Char.ofNat 10) := by decide
      have hcnt_o : pyCount (str "<chassis-module>")
          (repairedMid s rpc_end) = pyCount (str "<chassis-module>") s := by
        unfold repairedMid
        rw [pyCount_four (by decide) (by decide) _ _ _ _ hAB.1
          (crossFree_of_head _ hNLhead (by decide))
          (crossFree_of_getLast _ hNLlast (by decide))
          (crossFree_of_getLast _ hMlast (by decide))]
        rw [List.take_append_drop, pyCount_missingTags_open]
        rw [show pyCount (str "<chassis-module>") (str "\n") = 0 from
          by decide]
        omega
      have hcnt_c : pyCount (str "</chassis-module>")
          (repairedMid s rpc_end) = pyCount (str "</chassis-module>") s +
            (stackWalk (chassisTags s) [] 0).1.length := by
        unfold repairedMid
        rw [pyCount_four (by decide) (by decide) _ _ _ _ hAB.2
          (crossFree_of_head _ hNLhead (by decide))
          (crossFree_of_getLast _ hNLlast (by decide))
          (crossFree_of_getLast _ hMlast (by decide))]
        rw [List.take_append_drop, pyCount_missingTags_close]
        rw [show pyCount (str "</chassis-module>") (str "\n") = 0 from
          by decide]
        omega
      have hMid : pyCount (str "<chassis-module>") (repairedMid s rpc_end) =
          pyCount (str "</chassis-module>") (repairedMid s rpc_end) := by
        rw [hcnt_o, hcnt_c]
        omega
      rw [if_pos hMid]
      exact hMid

/-- C1 counterexample: on a fragment that starts with an unexpected closing
tag, the repair returns the input unchanged, so the claimed balance fails
(the unexpected close makes the synthetic-tag count overshoot, and the
verification step rejects the repair). -/
theorem C1_repair_counterexample :
    pyCount (str "</chassis-module>")
        (str "</chassis-module><chassis-module><chassis-module>") <
      pyCount (str "<chassis-module>")
        (str "</chassis-module><chassis-module><chassis-module>") ∧
    _repair_chassis_module_xml
        (str "</chassis-module><chassis-module><chassis-module>") =
      str "</chassis-module><chassis-module><chassis-module>" ∧
    ¬ pyCount (str "<chassis-module>")
        (_repair_chassis_module_xml
          (str "</chassis-module><chassis-module><chassis-module>")) =
      pyCount (str "</chassis-module>")
        (_repair_chassis_module_xml
          (str "</chassis-module><chassis-module><chassis-module>")) := by
  refine ⟨by decide, by decide, by decide⟩

/-- C1 (amended): whenever the opening-tag count exceeds the closing-tag
count and the stack walk meets no unexpected closing tag, the output of
`_repair_chassis_module_xml` has equal opening and closing counts, and
re-running the repair on that output returns it unchanged. -/
theorem C1_repair (s : Str)
    (himb : pyCount (str "</chassis-module>") s <
      pyCount (str "<chassis-module>") s)
    (hu : (stackWalk (chassisTags s) [] 0).2 = 0) :
    pyCount (str "<chassis-module>") (_repair_chassis_module_xml s) =
      pyCount (str "</chassis-module>") (_repair_chassis_module_xml s) ∧
    _repair_chassis_module_xml (_repair_chassis_module_xml s) =
      _repair_chassis_module_xml s := by
  have hbal := repair_balances himb hu
  exact ⟨hbal, repair_of_balanced hbal⟩

/-- Witness for the amended C1 at a concrete repairable fragment. -/
theorem C1_repair_witness :
    (pyCount (str "</chassis-module>")
        (str "<rpc-reply><chassis-inventory><chassis-module><name>FPC 0</name></chassis-inventory></rpc-reply>") <
      pyCount (str "<chassis-module>")
        (str "<rpc-reply><chassis-inventory><chassis-module><name>FPC 0</name></chassis-inventory></rpc-reply>") ∧
      (stackWalk (chassisTags
        (str "<rpc-reply><chassis-inventory><chassis-module><name>FPC 0</name></chassis-inventory></rpc-reply>")) [] 0).2 = 0) ∧
    (pyCount (str "<chassis-module>") (_repair_chassis_module_xml
        (str "<rpc-reply><chassis-inventory><chassis-module><name>FPC 0</name></chassis-inventory></rpc-reply>")) =
      pyCount (str "</chassis-module>") (_repair_chassis_module_xml
        (str "<rpc-reply><chassis-inventory><chassis-module><name>FPC 0</name></chassis-inventory></rpc-reply>")) ∧
    _repair_chassis_module_xml (_repair_chassis_module_xml
        (str "<rpc-reply><chassis-inventory><chassis-module><name>FPC 0</name></chassis-inventory></rpc-reply>")) =
      _repair_chassis_module_xml
        (str "<rpc-reply><chassis-inventory><chassis-module><name>FPC 0</name></chassis-inventory></rpc-reply>")) :=
  ⟨⟨by decide, by decide⟩,
    C1_repair
      (str "<rpc-reply><chassis-inventory><chassis-module><name>FPC 0</name></chassis-inventory></rpc-reply>")
      (by decide) (by decide)⟩

/- ### C4 toolkit -/

theorem not_prefix_of_head_ne {p z : Str} {a c : Char} (hp : p.head? = some a)
    (hz : z.head? = some c) (hne : a ≠ c) : ¬ p <+: z := by
  intro h
  cases p with
  | nil => simp at hp
  | cons a0 t =>
      cases z with
      | nil => simp at hz
      | cons c0 u =>
          simp only [List.head?_cons, Option.some.injEq] at hp hz
          rcases h with ⟨r, hr⟩
          rw [List.cons_append] at hr
          injection hr with h1 _
          exact hne (by rw [← hp, ← hz, h1])

theorem occursAt_drop (pat s : Str) (q i : Nat) :
    occursAt pat (s.drop q) i ↔ occursAt pat s (q + i) := by
  unfold occursAt
  rw [drop_add, Nat.add_comm i q]

theorem stripAnsiFuel_id :
    ∀ (f : Nat) (s : Str), (∀ c ∈ s, isCtl c = false) → stripAnsiFuel f s = s := by
  intro f
  induction f with
  | zero => intro s _; rfl
  | succ f ih =>
      intro s h
      cases s with
      | nil => rfl
      | cons c t =>
          have hce : ¬ (c = Char.ofNat 27) := by
            intro he
            have h1 := h c (by simp)
            rw [he] at h1
            exact absurd h1 (by decide)
          rw [stripAnsiFuel.eq_def]
          simp only [if_neg hce]
          rw [ih t (fun x hx => h x (by simp [hx]))]

theorem filter_id_of_all {p : Char → Bool} :
    ∀ s : Str, (∀ c ∈ s, p c = true) → s.filter p = s := by
  intro s
  induction s with
  | nil => intro _; rfl
  | cons c t ih =>
      intro h
      rw [List.filter_cons, if_pos (h c (by simp)),
        ih (fun x hx => h x (by simp [hx]))]

theorem stripCtl_id {s : Str} (h : ∀ c ∈ s, isCtl c = false) :
    stripCtl s = s :=
  filter_id_of_all s (fun c hc => by simp [h c hc])

theorem joinNL_nil : joinNL [] = [] := rfl

theorem joinNL_one (x : Str) : joinNL [x] = x := rfl

theorem joinNL_cons2 (x y : Str) (t : List Str) :
    joinNL (x :: y :: t) = x ++ str "\n" ++ joinNL (y :: t) := rfl

theorem mkBlock_length (b : Str) : (mkBlock b).length = 23 + b.length := by
  unfold mkBlock
  rw [List.length_append, List.length_append]
  rw [show (str "<rpc-reply>").length = 11 from by decide,
    show (str "</rpc-reply>").length = 12 from by decide]
  omega

theorem joinNL_mk_length (L : List Str) :
    L.length ≤ (joinNL (L.map mkBlock)).length := by
  induction L with
  | nil => simp [joinNL]
  | cons b rest ih =>
      cases rest with
      | nil =>
          show ([b]).length ≤ (mkBlock b).length
          rw [mkBlock_length]
          simp only [List.length_cons, List.length_nil]
          omega
      | cons y t =>
          show (b :: y :: t).length ≤
            (mkBlock b ++ str "\n" ++ joinNL ((y :: t).map mkBlock)).length
          rw [List.length_append, List.length_append, mkBlock_length,
            show (str "\n").length = 1 from by decide]
          simp only [List.length_cons] at ih ⊢
          omega

theorem mkBlock_ctl_free {b : Str} (h : ∀ c ∈ b, isCtl c = false) :
    ∀ c ∈ mkBlock b, isCtl c = false := by
  intro c hc
  unfold mkBlock at hc
  rcases List.mem_append.mp hc with hc2 | hc2
  · rcases List.mem_append.mp hc2 with hc3 | hc3
    · exact (show ∀ x ∈ str "<rpc-reply>", isCtl x = false from by decide) c hc3
    · exact h c hc3
  · exact (show ∀ x ∈ str "</rpc-reply>", isCtl x = false from by decide) c hc2

theorem joinNL_ctl_free :
    ∀ (L : List Str), (∀ b ∈ L, GoodBody b) →
      ∀ c ∈ joinNL (L.map mkBlock), isCtl c = false := by
  intro L
  induction L with
  | nil =>
      intro _ c hc
      simp [joinNL] at hc
  | cons b rest ih =>
      intro h c hc
      cases rest with
      | nil => exact mkBlock_ctl_free ((h b (by simp)).2.2) c hc
      | cons y t =>
          have hc2 : c ∈ mkBlock b ∨ c ∈ str "\n" ∨
              c ∈ joinNL ((y :: t).map mkBlock) := by
            rw [show ((b :: y :: t).map mkBlock) =
              mkBlock b :: mkBlock y :: t.map mkBlock from rfl,
              joinNL_cons2] at hc
            simpa [List.mem_append, or_assoc] using hc
          rcases hc2 with h1 | h2 | h3
          · exact mkBlock_ctl_free ((h b (by simp)).2.2) c h1
          · exact (show ∀ x ∈ str "\n", isCtl x = false from by decide) c h2
          · exact ih (fun x hx => h x (by simp [hx])) c h3

/-- The rpc-block scan of the extractor, run over a `'\n'`-joined list of
well-formed blocks, returns exactly those blocks. -/
theorem rpcBlocksLoop_family :
    ∀ (L : List Str), (∀ b ∈ L, GoodBody b) →
      ∀ (f : Nat) (s : Str) (pos : Nat) (sep : Bool),
      s.drop pos = (if sep then str "\n" else []) ++ joinNL (L.map mkBlock) →
      (sep = true → L ≠ []) →
      L.length < f →
      rpcBlocksLoop s f pos = L.map mkBlock := by
  intro L
  induction L with
  | nil =>
      intro _ f s pos sep hdrop hsep _
      have hsep0 : sep = false := by
        cases sep with
        | false => rfl
        | true => exact absurd rfl (hsep rfl)
      subst hsep0
      simp only [List.map_nil] at hdrop ⊢
      rw [show joinNL [] = [] from rfl] at hdrop
      simp only [if_neg Bool.false_ne_true, List.nil_append] at hdrop
      cases f with
      | zero => rfl
      | succ f =>
          simp only [rpcBlocksLoop]
          have hfind : pyFind (str "<rpc-reply") s pos = none := by
            rw [pyFind_eq_none_iff (by decide)]
            intro i hi hocc
            have h2 : s.drop (i - pos + pos) = [] := by
              rw [← drop_add, hdrop, List.drop_nil]
            unfold occursAt at hocc
            rw [show i = i - pos + pos from by omega, h2] at hocc
            exact (by decide : (str "<rpc-reply") ≠ [])
              (List.prefix_nil.mp hocc)
          simp only [hfind]
  | cons b rest ih =>
      intro hg f s pos sep hdrop hsep hf
      have hgb : GoodBody b := hg b (by simp)
      have hT : joinNL ((b :: rest).map mkBlock) =
          mkBlock b ++
            (if rest.isEmpty then [] else
              str "\n" ++ joinNL (rest.map mkBlock)) := by
        cases rest with
        | nil => simp [joinNL_one]
        | cons y t =>
            rw [show ((b :: y :: t).map mkBlock) =
              mkBlock b :: mkBlock y :: t.map mkBlock from rfl, joinNL_cons2]
            simp [List.append_assoc]
      rw [hT] at hdrop
      generalize hTg : (if rest.isEmpty then ([] : Str) else
        str "\n" ++ joinNL (rest.map mkBlock)) = T at hdrop
      have hassoc1 : mkBlock b ++ T =
          str "<rpc-reply>" ++ (b ++ (str "</rpc-reply>" ++ T)) := by
        unfold mkBlock
        simp [List.append_assoc]
      have hassoc2 : mkBlock b ++ T =
          (str "<rpc-reply>" ++ b) ++ (str "</rpc-reply>" ++ T) := by
        unfold mkBlock
        simp [List.append_assoc]
      have hlen1 : (str "<rpc-reply>" ++ b).length = 11 + b.length := by
        rw [List.length_append, show (str "<rpc-reply>").length = 11 from
          by decide]
      have hopen_blk : (str "<rpc-reply") <+: (mkBlock b ++ T) := by
        rw [hassoc1]
        exact (show (str "<rpc-reply") <+: (str "<rpc-reply>") from
          by decide).trans (List.prefix_append _ _)
      obtain ⟨dd, hdrop1, hstart⟩ :
          ∃ dd, s.drop (pos + dd) = mkBlock b ++ T ∧
            pyFind (str "<rpc-reply") s pos = some (pos + dd) := by
        cases sep with
        | false =>
            simp only [if_neg Bool.false_ne_true, List.nil_append] at hdrop
            refine ⟨0, by simpa using hdrop, ?_⟩
            rw [pyFind_eq_some_iff (by decide)]
            refine ⟨by omega, ?_, ?_⟩
            · unfold occursAt
              rw [Nat.add_zero, hdrop]
              exact hopen_blk
            · intro i h1 h2
              omega
        | true =>
            simp only [if_pos rfl] at hdrop
            have hdrop1 : s.drop (pos + 1) = mkBlock b ++ T := by
              rw [show pos + 1 = 1 + pos from by omega, ← drop_add, hdrop,
                show (str "\n") = [Char.ofNat 10] from by decide]
              rfl
            refine ⟨1, hdrop1, ?_⟩
            rw [pyFind_eq_some_iff (by decide)]
            refine ⟨by omega, ?_, ?_⟩
            · unfold occursAt
              rw [hdrop1]
              exact hopen_blk
            · intro i h1 h2
              have hi : i = pos := by omega
              subst hi
              unfold occursAt
              rw [hdrop]
              refine not_prefix_of_head_ne (by decide) ?_
                (by decide : (Char.ofNat 60) ≠ (Char.ofNat 10))
              rw [show (str "\n") = [Char.ofNat 10] from by decide]
              rfl
      have hclose : pyFind (str "</rpc-reply>") s (pos + dd) =
          some (pos + dd + (11 + b.length)) := by
        rw [pyFind_eq_some_iff (by decide)]
        refine ⟨by omega, ?_, ?_⟩
        · rw [← occursAt_drop]
          unfold occursAt
          rw [hdrop1, hassoc2, ← hlen1, List.drop_left]
          exact List.prefix_append _ _
        · intro i h1 h2
          intro hocc
          rw [show i = (pos + dd) + (i - (pos + dd)) from by omega,
            ← occursAt_drop, hdrop1] at hocc
          have hik : i - (pos + dd) < 11 + b.length := by omega
          have hin : i - (pos + dd) + (str "</rpc-reply>").length ≤
              (mkBlock b).length := by
            rw [mkBlock_length, show (str "</rpc-reply>").length = 12 from
              by decide]
            omega
          exact hgb.2.1 (i - (pos + dd)) hik
            ((occursAt_append_left hin).mp hocc)
      have hsliceC : pySlice s (pos + dd) (pos + dd + (11 + b.length) + 12) =
          mkBlock b := by
        unfold pySlice
        rw [hdrop1,
          show pos + dd + (11 + b.length) + 12 - (pos + dd) =
            23 + b.length from by omega,
          show 23 + b.length = (mkBlock b).length from (mkBlock_length b).symm,
          List.take_left]
      have hinner : pyFind (str "<rpc-reply") (mkBlock b) 1 = none := by
        rw [pyFind_eq_none_iff (by decide)]
        intro i hi hocc
        by_cases hlt : i < (mkBlock b).length
        · exact hgb.1 i hlt hi hocc
        · have := occursAt_length_le (by decide) hocc
          rw [show (str "<rpc-reply").length = 10 from by decide] at this
          omega
      have hdropT : s.drop (pos + dd + (11 + b.length) + 12) = T := by
        rw [show pos + dd + (11 + b.length) + 12 =
          (23 + b.length) + (pos + dd) from by omega, ← drop_add, hdrop1,
          show 23 + b.length = (mkBlock b).length from (mkBlock_length b).symm,
          List.drop_left]
      cases f with
      | zero =>
          simp only [List.length_cons] at hf
          omega
      | succ f =>
          simp only [rpcBlocksLoop, hstart, hclose, hsliceC, hinner]
          rw [List.map_cons]
          congr 1
          cases rest with
          | nil =>
              refine ih (fun x hx => absurd hx (List.not_mem_nil x)) f s
                (pos + dd + (11 + b.length) + 12) false ?_ ?_ ?_
              · rw [hdropT, ← hTg]
                simp [joinNL_nil]
              · intro h
                exact absurd h (by decide)
              · simp only [List.length_cons, List.length_nil] at hf ⊢
                omega
          | cons y t =>
              refine ih (fun x hx => hg x (by simp [hx])) f s
                (pos + dd + (11 + b.length) + 12) true ?_ ?_ ?_
              · rw [hdropT, ← hTg]
                simp
              · intro _
                simp
              · simp only [List.length_cons] at hf ⊢
                omega

/-- C4: a raw capture consisting of `N` well-formed, non-overlapping
`<rpc-reply>...</rpc-reply>` blocks joined by newlines is returned by
`_extract_xml_fragment` as exactly those `N` blocks: the block scan yields
the block list itself, the output is the same joined text, and re-applying
the extractor to its own output is a no-op. -/
theorem C4_extract_blocks (L : List Str) (hL : L ≠ [])
    (hgood : ∀ b ∈ L, GoodBody b) :
    rpcBlocksLoop (joinNL (L.map mkBlock))
        ((joinNL (L.map mkBlock)).length + 1) 0 = L.map mkBlock ∧
    _extract_xml_fragment (joinNL (L.map mkBlock)) = joinNL (L.map mkBlock) ∧
    _extract_xml_fragment (_extract_xml_fragment (joinNL (L.map mkBlock))) =
      _extract_xml_fragment (joinNL (L.map mkBlock)) := by
  have hctl := joinNL_ctl_free L hgood
  have hloop := rpcBlocksLoop_family L hgood
    ((joinNL (L.map mkBlock)).length + 1) (joinNL (L.map mkBlock)) 0 false
    (by simp) (fun h => absurd h Bool.false_ne_true)
    (by have := joinNL_mk_length L; omega)
  have hraw_ne : joinNL (L.map mkBlock) ≠ [] := by
    intro h0
    have hlen := joinNL_mk_length L
    rw [h0] at hlen
    simp only [List.length_nil, Nat.le_zero] at hlen
    exact hL (List.eq_nil_of_length_eq_zero hlen)
  have hmapne : L.map mkBlock ≠ [] := by
    intro h0
    exact hL (List.map_eq_nil.mp h0)
  have hid : _extract_xml_fragment (joinNL (L.map mkBlock)) =
      joinNL (L.map mkBlock) := by
    unfold _extract_xml_fragment
    rw [if_neg (by rw [isEmpty_false hraw_ne]; exact Bool.false_ne_true)]
    unfold stripAnsi
    rw [stripAnsiFuel_id _ _ hctl, stripCtl_id hctl]
    unfold extractFromClean
    rw [hloop]
    rw [if_neg (by rw [isEmpty_false hmapne]; exact Bool.false_ne_true)]
  exact ⟨hloop, hid, by rw [hid, hid]⟩

/-- Witness for C4 at a concrete two-block capture. -/
theorem C4_extract_blocks_witness :
    (([str "<fpc>1</fpc>", str "<fpc>2</fpc>"] : List Str) ≠ [] ∧
      ∀ b ∈ ([str "<fpc>1</fpc>", str "<fpc>2</fpc>"] : List Str),
        GoodBody b) ∧
    (rpcBlocksLoop
        (joinNL (([str "<fpc>1</fpc>", str "<fpc>2</fpc>"] : List Str).map
          mkBlock))
        ((joinNL (([str "<fpc>1</fpc>", str "<fpc>2</fpc>"] : List Str).map
          mkBlock)).length + 1) 0 =
      ([str "<fpc>1</fpc>", str "<fpc>2</fpc>"] : List Str).map mkBlock ∧
    _extract_xml_fragment
        (joinNL (([str "<fpc>1</fpc>", str "<fpc>2</fpc>"] : List Str).map
          mkBlock)) =
      joinNL (([str "<fpc>1</fpc>", str "<fpc>2</fpc>"] : List Str).map
        mkBlock) ∧
    _extract_xml_fragment (_extract_xml_fragment
        (joinNL (([str "<fpc>1</fpc>", str "<fpc>2</fpc>"] : List Str).map
          mkBlock))) =
      _extract_xml_fragment
        (joinNL (([str "<fpc>1</fpc>", str "<fpc>2</fpc>"] : List Str).map
          mkBlock))) :=
  ⟨⟨by decide, by decide⟩,
    C4_extract_blocks [str "<fpc>1</fpc>", str "<fpc>2</fpc>"]
      (by decide) (by decide)⟩

/- ### Round trip: serializing a clean tree and reparsing returns it -/

theorem append_lt (X : Str) : str "<" ++ X = Char.ofNat 60 :: X := rfl

theorem append_gt (X : Str) : str ">" ++ X = Char.ofNat 62 :: X := rfl

theorem append_ltsl (X : Str) :
    str "</" ++ X = Char.ofNat 60 :: Char.ofNat 47 :: X := rfl

theorem lex_text_run :
    ∀ (d : Str), (∀ c ∈ d, textChar c = true) → ∀ (acc : Str) (ts : List Tok)
      (rest : Str),
      List.foldl lexStep (some (LexMode.intext acc, ts)) (d ++ rest) =
        List.foldl lexStep (some (LexMode.intext (acc ++ d), ts)) rest := by
  intro d
  induction d with
  | nil =>
      intro _ acc ts rest
      simp
  | cons c d ih =>
      intro h acc ts rest
      have hc : ¬ (c = Char.ofNat 60) := by
        have h2 := h c (by simp)
        unfold textChar at h2
        simpa using h2
      rw [List.cons_append, List.foldl_cons]
      rw [show lexStep (some (LexMode.intext acc, ts)) c =
        some (LexMode.intext (acc ++ [c]), ts) from by simp [lexStep, hc]]
      rw [ih (fun x hx => h x (by simp [hx])) (acc ++ [c]) ts rest]
      simp

theorem lex_name_run :
    ∀ (nm : Str), (∀ c ∈ nm, xmlNameChar c = true) → ∀ (cl : Bool) (acc : Str)
      (ts : List Tok) (rest : Str),
      List.foldl lexStep (some (LexMode.tagname cl acc, ts)) (nm ++ rest) =
        List.foldl lexStep (some (LexMode.tagname cl (acc ++ nm), ts))
          rest := by
  intro nm
  induction nm with
  | nil =>
      intro _ cl acc ts rest
      simp
  | cons c nm ih =>
      intro h cl acc ts rest
      rw [List.cons_append, List.foldl_cons]
      rw [show lexStep (some (LexMode.tagname cl acc, ts)) c =
        some (LexMode.tagname cl (acc ++ [c]), ts) from by
          simp [lexStep, h c (by simp)]]
      rw [ih (fun x hx => h x (by simp [hx])) cl (acc ++ [c]) ts rest]
      simp

theorem lex_gt_emit (cl : Bool) (nm : Str) (hnm : nm.isEmpty = false)
    (ts : List Tok) :
    lexStep (some (LexMode.tagname cl nm, ts)) (Char.ofNat 62) =
      some (LexMode.out,
        ts ++ [if cl then Tok.tclose nm else Tok.topen nm]) := by
  cases cl <;>
    simp [lexStep, hnm, show xmlNameChar (Char.ofNat 62) = false from
      by decide]

theorem lex_open_tag (nm : Str) (hnm : validName nm = true) (ts : List Tok)
    (rest : Str) :
    List.foldl lexStep (some (LexMode.out, ts))
        (Char.ofNat 60 :: (nm ++ (Char.ofNat 62 :: rest))) =
      List.foldl lexStep (some (LexMode.out, ts ++ [Tok.topen nm])) rest := by
  unfold validName at hnm
  rw [Bool.and_eq_true] at hnm
  have hne : nm ≠ [] := by simpa [List.isEmpty_iff] using hnm.1
  obtain ⟨c, nm', rfl⟩ := List.exists_cons_of_ne_nil hne
  have hall : ∀ x ∈ c :: nm', xmlNameChar x = true :=
    fun x hx => List.all_eq_true.mp hnm.2 x hx
  have hc : xmlNameChar c = true := hall c (by simp)
  have hcslash : ¬ (c = Char.ofNat 47) := by
    intro he
    rw [he] at hc
    exact absurd hc (by decide)
  rw [List.foldl_cons,
    show lexStep (some (LexMode.out, ts)) (Char.ofNat 60) =
      some (LexMode.tagq, ts) from by simp [lexStep],
    List.cons_append, List.foldl_cons,
    show lexStep (some (LexMode.tagq, ts)) c =
      some (LexMode.tagname false [c], ts) from by
        simp [lexStep, hcslash, hc],
    lex_name_run nm' (fun x hx => hall x (by simp [hx])) false [c] ts _,
    List.foldl_cons,
    lex_gt_emit false ([c] ++ nm') (by simp) ts]
  simp

theorem lex_close_tag (nm : Str) (hnm : validName nm = true) (ts : List Tok)
    (rest : Str) :
    List.foldl lexStep (some (LexMode.out, ts))
        (Char.ofNat 60 :: Char.ofNat 47 :: (nm ++ (Char.ofNat 62 :: rest))) =
      List.foldl lexStep (some (LexMode.out, ts ++ [Tok.tclose nm]))
        rest := by
  unfold validName at hnm
  rw [Bool.and_eq_true] at hnm
  have hne : nm.isEmpty = false := by simpa using hnm.1
  rw [List.foldl_cons,
    show lexStep (some (LexMode.out, ts)) (Char.ofNat 60) =
      some (LexMode.tagq, ts) from by simp [lexStep],
    List.foldl_cons,
    show lexStep (some (LexMode.tagq, ts)) (Char.ofNat 47) =
      some (LexMode.tagname true [], ts) from by simp [lexStep],
    lex_name_run nm (fun x hx => List.all_eq_true.mp hnm.2 x hx) true [] ts _,
    List.foldl_cons]
  rw [show ([] : Str) ++ nm = nm from rfl, lex_gt_emit true nm hne ts]
  simp

theorem lex_flush (d : Str) (ts : List Tok) :
    ∀ z : Str, z.head? = some (Char.ofNat 60) →
      List.foldl lexStep (some (LexMode.intext d, ts)) z =
        List.foldl lexStep (some (LexMode.out, ts ++ [Tok.ttext d])) z := by
  intro z hz
  cases z with
  | nil => simp at hz
  | cons c t =>
      simp only [List.head?_cons, Option.some.injEq] at hz
      subst hz
      rw [List.foldl_cons, List.foldl_cons,
        show lexStep (some (LexMode.intext d, ts)) (Char.ofNat 60) =
          some (LexMode.tagq, ts ++ [Tok.ttext d]) from by simp [lexStep],
        show lexStep (some (LexMode.out, ts ++ [Tok.ttext d]))
            (Char.ofNat 60) = some (LexMode.tagq, ts ++ [Tok.ttext d]) from by
          simp [lexStep]]

theorem head_toxmlList_elem (m : Str) (k t : List Node) (z : Str) :
    (toxmlList (Node.elem m k :: t) ++ z).head? = some (Char.ofNat 60) := by
  simp only [toxmlList, toxml, List.append_assoc, append_lt]
  rfl

mutual
theorem lex_toxml_elem :
    ∀ (T : Node), cleanElem T = true → ∀ (ts : List Tok) (rest : Str),
      List.foldl lexStep (some (LexMode.out, ts)) (toxml T ++ rest) =
        List.foldl lexStep (some (LexMode.out, ts ++ toks T)) rest
  | Node.text d, h, ts, rest => by
      simp [cleanElem] at h
  | Node.elem n ch, h, ts, rest => by
      unfold cleanElem at h
      rw [Bool.and_eq_true, Bool.and_eq_true] at h
      obtain ⟨⟨hvn, hne⟩, hch⟩ := h
      simp only [toxml, List.append_assoc, append_lt, append_gt, append_ltsl,
        List.cons_append]
      rw [lex_open_tag n hvn ts _]
      rw [lex_toxml_list ch true hch (ts ++ [Tok.topen n])
        (Char.ofNat 60 :: Char.ofNat 47 :: (n ++ (Char.ofNat 62 :: rest)))
        rfl]
      rw [lex_close_tag n hvn _ rest]
      simp only [toks, List.append_assoc]
      simp
theorem lex_toxml_list :
    ∀ (ch : List Node) (allowT : Bool), cleanNodes ch allowT = true →
      ∀ (ts : List Tok) (rest : Str), rest.head? = some (Char.ofNat 60) →
        List.foldl lexStep (some (LexMode.out, ts)) (toxmlList ch ++ rest) =
          List.foldl lexStep (some (LexMode.out, ts ++ toksList ch)) rest
  | [], _, _, ts, rest, _ => by
      simp [toxmlList, toksList]
  | Node.text d :: ch', allowT, h, ts, rest, hrest => by
      unfold cleanNodes at h
      rw [Bool.and_eq_true, Bool.and_eq_true, Bool.and_eq_true] at h
      obtain ⟨⟨⟨_, hdne⟩, hdch⟩, hch'⟩ := h
      obtain ⟨c0, d', rfl⟩ := List.exists_cons_of_ne_nil
        (by simpa [List.isEmpty_iff] using hdne)
      have hall : ∀ x ∈ c0 :: d', textChar x = true :=
        fun x hx => List.all_eq_true.mp hdch x hx
      have hc0 : ¬ (c0 = Char.ofNat 60) := by
        have h2 := hall c0 (by simp)
        unfold textChar at h2
        simpa using h2
      have hz : (toxmlList ch' ++ rest).head? = some (Char.ofNat 60) := by
        cases ch' with
        | nil => simpa [toxmlList] using hrest
        | cons e t =>
            cases e with
            | text d2 =>
                rw [show cleanNodes (Node.text d2 :: t) false = false from by
                  unfold cleanNodes
                  simp] at hch'
                exact absurd hch' (by simp)
            | elem m k => exact head_toxmlList_elem m k t rest
      simp only [toxmlList, toxml, List.append_assoc, List.cons_append]
      rw [List.foldl_cons,
        show lexStep (some (LexMode.out, ts)) c0 =
          some (LexMode.intext [c0], ts) from by simp [lexStep, hc0],
        lex_text_run d' (fun x hx => hall x (by simp [hx])) [c0] ts _,
        lex_flush ([c0] ++ d') ts _ hz,
        lex_toxml_list ch' false hch' (ts ++ [Tok.ttext ([c0] ++ d')]) rest
          hrest]
      simp only [toksList, toks, List.append_assoc]
      simp
  | Node.elem n k :: ch', allowT, h, ts, rest, hrest => by
      unfold cleanNodes at h
      rw [Bool.and_eq_true] at h
      obtain ⟨he, hch'⟩ := h
      simp only [toxmlList, List.append_assoc]
      rw [lex_toxml_elem (Node.elem n k) he ts _,
        lex_toxml_list ch' true hch' (ts ++ toks (Node.elem n k)) rest hrest]
      simp only [toksList, List.append_assoc]
end

mutual
theorem build_elem :
    ∀ (T : Node) (stack : List (Str × List Node)) (acc : List Node)
      (more : List Tok),
      List.foldl buildStep (some (stack, acc)) (toks T ++ more) =
        List.foldl buildStep (some (stack, acc ++ [T])) more
  | Node.text d, stack, acc, more => by
      simp only [toks, List.singleton_append, List.foldl_cons]
      rw [show buildStep (some (stack, acc)) (Tok.ttext d) =
        some (stack, acc ++ [Node.text d]) from by simp [buildStep]]
  | Node.elem n ch, stack, acc, more => by
      simp only [toks, List.cons_append, List.foldl_cons, List.append_assoc,
        List.singleton_append, List.nil_append]
      rw [show buildStep (some (stack, acc)) (Tok.topen n) =
        some ((n, acc) :: stack, []) from by simp [buildStep]]
      rw [build_list ch ((n, acc) :: stack) [] (Tok.tclose n :: more)]
      rw [List.foldl_cons]
      rw [show buildStep (some ((n, acc) :: stack, [] ++ ch)) (Tok.tclose n) =
        some (stack, acc ++ [Node.elem n ch]) from by simp [buildStep]]
theorem build_list :
    ∀ (ch : List Node) (stack : List (Str × List Node)) (acc : List Node)
      (more : List Tok),
      List.foldl buildStep (some (stack, acc)) (toksList ch ++ more) =
        List.foldl buildStep (some (stack, acc ++ ch)) more
  | [], stack, acc, more => by
      simp [toksList]
  | c :: t, stack, acc, more => by
      simp only [toksList, List.append_assoc]
      rw [build_elem c stack acc _, build_list t stack (acc ++ [c]) more]
      simp
end

/-- Round trip: parsing the serialization of a clean element returns the
element itself. -/
theorem parse_toxml {T : Node} (h : cleanElem T = true) :
    parseString (toxml T) = some T := by
  have hlex : lexChars (toxml T) = some (toks T) := by
    unfold lexChars
    rw [show toxml T = toxml T ++ [] from (List.append_nil _).symm,
      lex_toxml_elem T h [] []]
    simp [lexFinish]
  have hbuild : buildToks (toks T) = some [T] := by
    unfold buildToks
    rw [show toks T = toks T ++ [] from (List.append_nil _).symm,
      build_elem T [] [] []]
    simp
  unfold parseString
  simp only [hlex, hbuild]
  cases T with
  | text d => simp [cleanElem] at h
  | elem n ch => simp [findRoot, isWsText, List.filter]

theorem tagScan_out_run :
    ∀ (d : Str), (∀ c ∈ d, ¬ (c = Char.ofNat 60)) →
      ∀ (i : Nat) (ts : List (Str × Bool × Nat)) (rest : Str),
        List.foldl tagStep (TagMode.out, i, ts) (d ++ rest) =
          List.foldl tagStep (TagMode.out, i + d.length, ts) rest := by
  intro d
  induction d with
  | nil =>
      intro _ i ts rest
      simp
  | cons c d ih =>
      intro h i ts rest
      rw [List.cons_append, List.foldl_cons,
        show tagStep (TagMode.out, i, ts) c = (TagMode.out, i + 1, ts) from by
          simp [tagStep, h c (by simp)],
        ih (fun x hx => h x (by simp [hx])) (i + 1) ts rest]
      simp only [List.length_cons]
      rw [show i + 1 + d.length = i + (d.length + 1) from by omega]

theorem tagScan_name_run :
    ∀ (nm : Str), (∀ c ∈ nm, tagNameChar c = true) →
      ∀ (cl : Bool) (p i : Nat) (acc : Str) (ts : List (Str × Bool × Nat))
        (rest : Str),
        List.foldl tagStep (TagMode.rname cl p acc, i, ts) (nm ++ rest) =
          List.foldl tagStep (TagMode.rname cl p (acc ++ nm), i + nm.length,
            ts) rest := by
  intro nm
  induction nm with
  | nil =>
      intro _ cl p i acc ts rest
      simp
  | cons c nm ih =>
      intro h cl p i acc ts rest
      rw [List.cons_append, List.foldl_cons,
        show tagStep (TagMode.rname cl p acc, i, ts) c =
          (TagMode.rname cl p (acc ++ [c]), i + 1, ts) from by
            simp [tagStep, h c (by simp)],
        ih (fun x hx => h x (by simp [hx])) cl p (i + 1) (acc ++ [c]) ts rest]
      simp only [List.append_assoc, List.singleton_append, List.length_cons]
      rw [show i + 1 + nm.length = i + (nm.length + 1) from by omega]

theorem xmlNameChar_tagNameChar {c : Char} (h : xmlNameChar c = true) :
    tagNameChar c = true := by
  by_cases h62 : c = Char.ofNat 62
  · subst h62
    exact absurd h (by decide)
  by_cases h47 : c = Char.ofNat 47
  · subst h47
    exact absurd h (by decide)
  by_cases hsp : isPySpace c = true
  · unfold isPySpace at hsp
    simp only [Bool.or_eq_true, decide_eq_true_eq] at hsp
    rcases hsp with ((((hs | hs) | hs) | hs) | hs) | hs <;> subst hs <;>
      exact absurd h (by decide)
  · unfold tagNameChar
    simp [h62, h47, hsp]

theorem tagScan_open_tag (nm : Str) (hnm : validName nm = true) (p : Nat)
    (ts : List (Str × Bool × Nat)) (rest : Str) :
    List.foldl tagStep (TagMode.out, p, ts)
        (Char.ofNat 60 :: (nm ++ (Char.ofNat 62 :: rest))) =
      List.foldl tagStep (TagMode.out, p + nm.length + 2,
        ts ++ [(nm, false, p)]) rest := by
  unfold validName at hnm
  rw [Bool.and_eq_true] at hnm
  have hne : nm ≠ [] := by simpa [List.isEmpty_iff] using hnm.1
  obtain ⟨c, nm', rfl⟩ := List.exists_cons_of_ne_nil hne
  have hall : ∀ x ∈ c :: nm', tagNameChar x = true :=
    fun x hx => xmlNameChar_tagNameChar (List.all_eq_true.mp hnm.2 x hx)
  have hc : tagNameChar c = true := hall c (by simp)
  have hcslash : ¬ (c = Char.ofNat 47) := by
    intro he
    rw [he] at hc
    exact absurd hc (by decide)
  rw [List.foldl_cons,
    show tagStep (TagMode.out, p, ts) (Char.ofNat 60) =
      (TagMode.seenLt p, p + 1, ts) from by simp [tagStep],
    List.cons_append, List.foldl_cons,
    show tagStep (TagMode.seenLt p, p + 1, ts) c =
      (TagMode.rname false p [c], p + 1 + 1, ts) from by
        simp [tagStep, hcslash, hc],
    tagScan_name_run nm' (fun x hx => hall x (by simp [hx])) false p
      (p + 1 + 1) [c] ts _,
    List.foldl_cons,
    show tagStep (TagMode.rname false p ([c] ++ nm'), p + 1 + 1 + nm'.length,
        ts) (Char.ofNat 62) =
      (TagMode.out, p + 1 + 1 + nm'.length + 1, ts ++ [([c] ++ nm', false, p)])
      from by
        simp [tagStep, show tagNameChar (Char.ofNat 62) = false from
          by decide]]
  simp only [List.singleton_append, List.length_cons]
  rw [show p + 1 + 1 + nm'.length + 1 = p + (nm'.length + 1) + 2 from
    by omega]

theorem tagScan_close_tag (nm : Str) (hnm : validName nm = true) (p : Nat)
    (ts : List (Str × Bool × Nat)) (rest : Str) :
    List.foldl tagStep (TagMode.out, p, ts)
        (Char.ofNat 60 :: Char.ofNat 47 :: (nm ++ (Char.ofNat 62 :: rest))) =
      List.foldl tagStep (TagMode.out, p + nm.length + 3,
        ts ++ [(nm, true, p)]) rest := by
  unfold validName at hnm
  rw [Bool.and_eq_true] at hnm
  have hne : nm ≠ [] := by simpa [List.isEmpty_iff] using hnm.1
  obtain ⟨c, nm', rfl⟩ := List.exists_cons_of_ne_nil hne
  have hall : ∀ x ∈ c :: nm', tagNameChar x = true :=
    fun x hx => xmlNameChar_tagNameChar (List.all_eq_true.mp hnm.2 x hx)
  have hc : tagNameChar c = true := hall c (by simp)
  rw [List.foldl_cons,
    show tagStep (TagMode.out, p, ts) (Char.ofNat 60) =
      (TagMode.seenLt p, p + 1, ts) from by simp [tagStep],
    List.foldl_cons,
    show tagStep (TagMode.seenLt p, p + 1, ts) (Char.ofNat 47) =
      (TagMode.seenSlash p, p + 1 + 1, ts) from by simp [tagStep],
    List.cons_append, List.foldl_cons,
    show tagStep (TagMode.seenSlash p, p + 1 + 1, ts) c =
      (TagMode.rname true p [c], p + 1 + 1 + 1, ts) from by
        simp [tagStep, hc],
    tagScan_name_run nm' (fun x hx => hall x (by simp [hx])) true p
      (p + 1 + 1 + 1) [c] ts _,
    List.foldl_cons,
    show tagStep (TagMode.rname true p ([c] ++ nm'), p + 1 + 1 + 1 + nm'.length,
        ts) (Char.ofNat 62) =
      (TagMode.out, p + 1 + 1 + 1 + nm'.length + 1,
        ts ++ [([c] ++ nm', true, p)]) from by
        simp [tagStep, show tagNameChar (Char.ofNat 62) = false from
          by decide]]
  simp only [List.singleton_append, List.length_cons]
  rw [show p + 1 + 1 + 1 + nm'.length + 1 = p + (nm'.length + 1) + 3 from
    by omega]

mutual
theorem tagScan_elem :
    ∀ (T : Node), cleanElem T = true →
      ∀ (i : Nat) (ts : List (Str × Bool × Nat)) (rest : Str),
        ∃ (ts' : List (Str × Bool × Nat)) (j : Nat),
          List.foldl tagStep (TagMode.out, i, ts) (toxml T ++ rest) =
            List.foldl tagStep (TagMode.out, j, ts ++ ts') rest ∧
          ts'.map (fun t => (t.1, t.2.1)) = tagSkel T
  | Node.text d, h, i, ts, rest => by
      simp [cleanElem] at h
  | Node.elem n ch, h, i, ts, rest => by
      unfold cleanElem at h
      rw [Bool.and_eq_true, Bool.and_eq_true] at h
      obtain ⟨⟨hvn, hne⟩, hch⟩ := h
      obtain ⟨tsc, j2, hfold, hproj⟩ := tagScan_list ch true hch
        (i + n.length + 2) (ts ++ [(n, false, i)])
        (Char.ofNat 60 :: Char.ofNat 47 :: (n ++ (Char.ofNat 62 :: rest)))
      refine ⟨[(n, false, i)] ++ tsc ++ [(n, true, j2)], j2 + n.length + 3,
        ?_, ?_⟩
      · simp only [toxml, List.append_assoc, append_lt, append_gt,
          append_ltsl, List.cons_append]
        rw [tagScan_open_tag n hvn i ts _]
        rw [hfold]
        rw [tagScan_close_tag n hvn j2 (ts ++ [(n, false, i)] ++ tsc) rest]
        simp [List.append_assoc]
      · simp only [List.map_append, List.map_cons, List.map_nil, hproj,
          tagSkel]
        simp
theorem tagScan_list :
    ∀ (ch : List Node) (allowT : Bool), cleanNodes ch allowT = true →
      ∀ (i : Nat) (ts : List (Str × Bool × Nat)) (rest : Str),
        ∃ (ts' : List (Str × Bool × Nat)) (j : Nat),
          List.foldl tagStep (TagMode.out, i, ts) (toxmlList ch ++ rest) =
            List.foldl tagStep (TagMode.out, j, ts ++ ts') rest ∧
          ts'.map (fun t => (t.1, t.2.1)) = tagSkelList ch
  | [], _, _, i, ts, rest => by
      refine ⟨[], i, ?_, rfl⟩
      simp [toxmlList, tagSkelList]
  | Node.text d :: ch', allowT, h, i, ts, rest => by
      unfold cleanNodes at h
      rw [Bool.and_eq_true, Bool.and_eq_true, Bool.and_eq_true] at h
      obtain ⟨⟨⟨_, hdne⟩, hdch⟩, hch'⟩ := h
      have hall : ∀ x ∈ d, ¬ (x = Char.ofNat 60) := by
        intro x hx
        have h2 := List.all_eq_true.mp hdch x hx
        unfold textChar at h2
        simpa using h2
      obtain ⟨tsc, j2, hfold, hproj⟩ := tagScan_list ch' false hch'
        (i + d.length) ts rest
      refine ⟨tsc, j2, ?_, ?_⟩
      · simp only [toxmlList, toxml, List.append_assoc]
        rw [tagScan_out_run d hall i ts _]
        exact hfold
      · rw [hproj]
        simp [tagSkelList, tagSkel]
  | Node.elem n k :: ch', allowT, h, i, ts, rest => by
      unfold cleanNodes at h
      rw [Bool.and_eq_true] at h
      obtain ⟨he, hch'⟩ := h
      obtain ⟨ts1, j1, hfold1, hproj1⟩ := tagScan_elem (Node.elem n k) he i ts
        (toxmlList ch' ++ rest)
      obtain ⟨ts2, j2, hfold2, hproj2⟩ := tagScan_list ch' true hch' j1
        (ts ++ ts1) rest
      refine ⟨ts1 ++ ts2, j2, ?_, ?_⟩
      · simp only [toxmlList, List.append_assoc]
        rw [hfold1, hfold2]
        simp [List.append_assoc]
      · simp only [List.map_append, hproj1, hproj2, tagSkelList]
end

theorem map_eq_cons_split {α β : Type} (f : α → β) (l : List α) (b : β)
    (y : List β) (h : l.map f = b :: y) :
    ∃ a l', l = a :: l' ∧ f a = b ∧ l'.map f = y := by
  cases l with
  | nil => simp at h
  | cons a l' =>
      rw [List.map_cons] at h
      injection h with h1 h2
      exact ⟨a, l', rfl, h1, h2⟩

theorem map_eq_append_split {α β : Type} (f : α → β) :
    ∀ (y1 : List β) (l : List α) (y2 : List β), l.map f = y1 ++ y2 →
      ∃ l1 l2, l = l1 ++ l2 ∧ l1.map f = y1 ∧ l2.map f = y2 := by
  intro y1
  induction y1 with
  | nil =>
      intro l y2 h
      exact ⟨[], l, rfl, rfl, by simpa using h⟩
  | cons b y1 ih =>
      intro l y2 h
      rw [List.cons_append] at h
      obtain ⟨a, l', rfl, hfa, hl'⟩ := map_eq_cons_split f l b (y1 ++ y2) h
      obtain ⟨l1, l2, rfl, h1, h2⟩ := ih l' y2 hl'
      exact ⟨a :: l1, l2, rfl, by simp [hfa, h1], h2⟩

mutual
theorem walk_skel_elem :
    ∀ (T : Node) (tags1 : List (Str × Bool × Nat)),
      tags1.map (fun t => (t.1, t.2.1)) = tagSkel T →
      ∀ (more : List (Str × Bool × Nat)) (stack : List Str)
        (repairs : List (Nat × Str)),
        mismatchWalk (tags1 ++ more) stack repairs =
          mismatchWalk more stack repairs
  | Node.text d, tags1, hproj, more, stack, repairs => by
      rw [show tagSkel (Node.text d) = [] from rfl] at hproj
      rw [List.map_eq_nil] at hproj
      subst hproj
      rfl
  | Node.elem n ch, tags1, hproj, more, stack, repairs => by
      rw [show tagSkel (Node.elem n ch) =
        (n, false) :: (tagSkelList ch ++ [(n, true)]) from rfl] at hproj
      obtain ⟨a, l', rfl, hfa, hl'⟩ := map_eq_cons_split _ tags1 _ _ hproj
      obtain ⟨l1, l2, rfl, h1, h2⟩ := map_eq_append_split _ _ l' _ hl'
      obtain ⟨a2, l2', rfl, hfa2, hl2'⟩ := map_eq_cons_split _ l2 _ _ h2
      rw [List.map_eq_nil] at hl2'
      subst hl2'
      have ha : ∃ q, a = (n, false, q) := by
        obtain ⟨nm0, cl0, q⟩ := a
        simp only [Prod.mk.injEq] at hfa
        exact ⟨q, by rw [hfa.1, hfa.2]⟩
      obtain ⟨p0, rfl⟩ := ha
      have ha2 : ∃ q, a2 = (n, true, q) := by
        obtain ⟨nm2, cl2, q⟩ := a2
        simp only [Prod.mk.injEq] at hfa2
        exact ⟨q, by rw [hfa2.1, hfa2.2]⟩
      obtain ⟨p2, rfl⟩ := ha2
      rw [List.cons_append, show mismatchWalk ((n, false, p0) ::
        (l1 ++ [(n, true, p2)] ++ more)) stack repairs =
        mismatchWalk (l1 ++ [(n, true, p2)] ++ more) (n :: stack) repairs
        from rfl]
      rw [List.append_assoc]
      rw [walk_skel_list ch l1 h1 ([(n, true, p2)] ++ more) (n :: stack)
        repairs]
      rw [List.singleton_append,
        show mismatchWalk ((n, true, p2) :: more) (n :: stack) repairs =
          if n = n then mismatchWalk more stack repairs else
            (if n = str "model" ∧ n = str "chassis-re-disk-module" then
              mismatchWalk more
                (popIfTop (str "chassis-re-disk-module") stack)
                (repairs ++ [(p2, closeInsert n)])
            else if n ∈ simpleTags ∧ n ∈ containerTags then
              mismatchWalk more (popIfTop n stack)
                (repairs ++ [(p2, closeInsert n)])
            else if n ∈ genericCloseTags then
              mismatchWalk more stack (repairs ++ [(p2, closeInsert n)])
            else mismatchWalk more (n :: stack) repairs) from rfl]
      rw [if_pos rfl]
theorem walk_skel_list :
    ∀ (ch : List Node) (tags1 : List (Str × Bool × Nat)),
      tags1.map (fun t => (t.1, t.2.1)) = tagSkelList ch →
      ∀ (more : List (Str × Bool × Nat)) (stack : List Str)
        (repairs : List (Nat × Str)),
        mismatchWalk (tags1 ++ more) stack repairs =
          mismatchWalk more stack repairs
  | [], tags1, hproj, more, stack, repairs => by
      rw [show tagSkelList [] = [] from rfl] at hproj
      rw [List.map_eq_nil] at hproj
      subst hproj
      rfl
  | c :: t, tags1, hproj, more, stack, repairs => by
      rw [show tagSkelList (c :: t) = tagSkel c ++ tagSkelList t from
        rfl] at hproj
      obtain ⟨l1, l2, rfl, h1, h2⟩ := map_eq_append_split _ _ tags1 _ hproj
      rw [List.append_assoc, walk_skel_elem c l1 h1 (l2 ++ more) stack
        repairs, walk_skel_list t l2 h2 more stack repairs]
end

/-- The tag-mismatch repairer does not modify the serialization of a clean
tree. -/
theorem repair_mismatch_toxml {T : Node} (h : cleanElem T = true) :
    _repair_xml_tag_mismatches (toxml T) = toxml T := by
  obtain ⟨ts', j, hfold, hproj⟩ := tagScan_elem T h 0 [] []
  have htags : findTags (toxml T) = ts' := by
    unfold findTags
    rw [show toxml T = toxml T ++ [] from (List.append_nil _).symm, hfold]
    simp
  have hwalk : mismatchWalk (findTags (toxml T)) [] [] = [] := by
    rw [htags, show ts' = ts' ++ [] from (List.append_nil _).symm,
      walk_skel_elem T ts' hproj [] [] []]
    rfl
  unfold _repair_xml_tag_mismatches
  rw [hwalk]
  rfl

/-- C9: the module map built from a fragment holding `<fpc><slot>3</slot>`
and a sibling `<chassis-module>` named `FPC 3` with model-number
`MPC7E-MRATE` maps key `"3"` to that non-empty model string, which
contains `"MPC7E"`. -/
theorem C9_module_map :
    lookupD (module_map_of_fragment
        (str "<rpc-reply><fpc><slot>3</slot></fpc><chassis-module><name>FPC 3</name><model-number>MPC7E-MRATE</model-number></chassis-module></rpc-reply>"))
        (str "3") = some (str "MPC7E-MRATE") ∧
    str "MPC7E-MRATE" ≠ [] ∧
    pyIn (str "MPC7E") (str "MPC7E-MRATE") = true := by
  refine ⟨by decide, by decide, by decide⟩

/- ### C2: totality of the parser -/

theorem pyFind_cons_none (c : Char) (t s : Str) (start : Nat)
    (hc : c ∉ s) : pyFind (c :: t) s start = none := by
  rw [pyFind_eq_none_iff (by simp)]
  intro i _ hocc
  have h2 := occursAt_getElem hocc 0 (by simp)
  apply hc
  rw [List.mem_iff_getElem?]
  refine ⟨i, ?_⟩
  simpa using h2

theorem findRoot_elem {ns : List Node} {d : Node} (h : findRoot ns = some d) :
    ∃ nm ch, d = Node.elem nm ch := by
  unfold findRoot at h
  split at h
  · rename_i nm ch heq
    injection h with h2
    exact ⟨nm, ch, h2.symm⟩
  · exact absurd h (by simp)

theorem parseString_elem {s : Str} {d : Node}
    (h : parseString s = some d) : ∃ nm ch, d = Node.elem nm ch := by
  unfold parseString at h
  split at h
  · exact absurd h (by simp)
  · split at h
    · exact absurd h (by simp)
    · exact findRoot_elem h

theorem firstWithChassis_mem : ∀ {docs : List Node} {d : Node},
    firstWithChassis docs = some d → d ∈ docs := by
  intro docs
  induction docs with
  | nil =>
      intro d h
      simp [firstWithChassis] at h
  | cons a t ih =>
      intro d h
      unfold firstWithChassis at h
      split at h
      · injection h with h2
        subst h2
        exact List.mem_cons_self a t
      · exact List.mem_cons_of_mem a (ih h)

theorem processBlock_elem {blk : Str} {d : Node}
    (h : processBlock blk = some d) : ∃ nm ch, d = Node.elem nm ch := by
  unfold processBlock at h
  split at h
  · rename_i doc heq
    injection h with h2
    exact parseString_elem (h2 ▸ heq)
  · unfold salvageChassis at h
    split at h
    · exact absurd h (by simp)
    · exact parseString_elem h

theorem combineDocs_elem {docs : List Node} {d : Node}
    (h : combineDocs docs = some d)
    (hdocs : ∀ x ∈ docs, ∃ nm ch, x = Node.elem nm ch) :
    ∃ nm ch, d = Node.elem nm ch := by
  unfold combineDocs at h
  split at h
  · exact absurd h (by simp)
  · split at h
    · rename_i d2 heq
      injection h with h2
      exact parseString_elem (h2 ▸ heq)
    · exact hdocs d (firstWithChassis_mem h)

theorem finalParse_elem {s : Str} {hint : Option Str} {d : Node}
    (h : finalParse s hint = some d) : ∃ nm ch, d = Node.elem nm ch := by
  unfold finalParse at h
  split at h
  · rename_i d2 heq
    injection h with h2
    exact parseString_elem (h2 ▸ heq)
  · split at h
    · exact absurd h (by simp)
    · split at h
      · rename_i d2 heq
        injection h with h2
        exact parseString_elem (h2 ▸ heq)
      · exact absurd h (by simp)

theorem parse_fragments_elem {s : Str} {hint : Option Str} {d : Node}
    (h : _parse_fragments_to_dom s hint = some d) :
    ∃ nm ch, d = Node.elem nm ch := by
  unfold _parse_fragments_to_dom at h
  split at h
  · exact absurd h (by simp)
  · split at h
    · split at h
      · rename_i d2 heq
        injection h with h2
        refine combineDocs_elem (h2 ▸ heq) ?_
        intro x hx
        obtain ⟨blk, _, hpb⟩ := List.mem_filterMap.mp hx
        exact processBlock_elem hpb
      · exact finalParse_elem h
    · exact finalParse_elem h

theorem findAllLazy_nil_of_no_lt (t ep s : Str)
    (hs : Char.ofNat 60 ∉ pyLower s) :
    ∀ f pos, findAllLazy (str "<" ++ t) ep s f pos = [] := by
  intro f pos
  cases f with
  | zero => rfl
  | succ f =>
      rw [show findAllLazy (str "<" ++ t) ep s (f + 1) pos =
        (match pyFind (str "<" ++ t) (pyLower s) pos with
         | none => []
         | some a =>
             match pyFind ep (pyLower s) (a + (str "<" ++ t).length) with
             | none => []
             | some b =>
                 pySlice s a (b + ep.length) ::
                   findAllLazy (str "<" ++ t) ep s f (b + ep.length)) from
        rfl]
      rw [append_lt, pyFind_cons_none _ _ _ _ hs]

theorem collectValid_nil_of_no_lt (s : Str)
    (hs : Char.ofNat 60 ∉ pyLower s) :
    ∀ tags, collectValid s tags = [] := by
  intro tags
  induction tags with
  | nil => rfl
  | cons tag rest ih =>
      unfold collectValid
      rw [findAllLazy_nil_of_no_lt tag _ s hs, ih]
      rfl

/-- C2: the parser is total: it returns `none` on the empty fragment and on
non-XML text (for every tag hint), every successful result is a parsed
element document (on which tag-name queries operate structurally), and
every input yields either `none` or such a document — never an exception
and never a default document. -/
theorem C2_parser_total (fragment : Str) (hint : Option Str) :
    _parse_fragments_to_dom [] hint = none ∧
    _parse_fragments_to_dom (str "hello") hint = none ∧
    (∀ d, _parse_fragments_to_dom fragment hint = some d →
      ∃ nm ch, d = Node.elem nm ch) ∧
    (_parse_fragments_to_dom fragment hint = none ∨
      ∃ d, _parse_fragments_to_dom fragment hint = some d) := by
  refine ⟨rfl, ?_, fun d h => parse_fragments_elem h, ?_⟩
  · unfold _parse_fragments_to_dom
    rw [if_neg (by decide : ¬ ((str "hello").isEmpty = true))]
    rw [if_neg (by decide :
      ¬ (1 < pyCount (str "<rpc-reply") (str "hello")))]
    rw [show _repair_xml_tag_mismatches (condRepair (str "hello")) =
      str "hello" from by decide]
    unfold finalParse
    rw [show parseString (str "hello") = none from rfl]
    rw [collectValid_nil_of_no_lt _ (by decide) _]
  · cases h : _parse_fragments_to_dom fragment hint with
    | none => exact Or.inl rfl
    | some d => exact Or.inr ⟨d, rfl⟩

theorem bodyStr_nil : bodyStr [] = [] := rfl

theorem bodyStr_cons (n : Nat) (t : List Nat) :
    bodyStr (n :: t) = modStr n ++ bodyStr t := rfl

theorem modStr_eq (n : Nat) :
    modStr n = str "<chassis-module><name>FPC " ++ natStr n ++
      str "</name><model-number>MPC7E-MRATE</model-number></chassis-module>" := by
  show toxml (moduleTree n) = _
  simp only [moduleTree, toxml, toxmlList, List.append_assoc,
    List.append_nil, List.nil_append]
  rfl

theorem mkRpcDoc_eq (slots : List Nat) :
    mkRpcDoc slots =
      str "<rpc-reply>" ++ bodyStr slots ++ str "</rpc-reply>" := by
  show toxml (rpcTree slots) = _
  simp only [rpcTree, toxml, bodyStr, List.append_assoc]
  rfl

theorem combined_eq (T1 T2 : Node) :
    str "<root>\n" ++ concatXmlNL [T1, T2] ++ str "</root>" =
      toxml (rootTree T1 T2) := by
  simp only [concatXmlNL, rootTree, toxml, toxmlList, List.append_assoc,
    List.append_nil, List.nil_append]
  rfl

theorem textChar_of_isDigit {c : Char} (h : c.isDigit = true) :
    textChar c = true := by
  unfold textChar
  simp only [Bool.not_eq_true', decide_eq_false_iff_not]
  intro hc
  rw [hc] at h
  exact absurd h (by decide)

theorem natStr_getLast? (n : Nat) :
    ∃ c, (natStr n).getLast? = some c ∧ c.isDigit = true := by
  refine ⟨(natStr n).getLast (natStr_ne_nil n),
    List.getLast?_eq_getLast _ _, ?_⟩
  exact natStr_all_digit n _ (List.getLast_mem _)

theorem cleanElem_def (n : Str) (ch : List Node) :
    cleanElem (Node.elem n ch) =
      (validName n && !ch.isEmpty && cleanNodes ch true) := rfl

theorem cleanNodes_nil_eq (fl : Bool) : cleanNodes [] fl = true := rfl

theorem cleanNodes_cons_text (d : Str) (rest : List Node) :
    cleanNodes (Node.text d :: rest) true =
      (!d.isEmpty && d.all textChar && cleanNodes rest false) := rfl

theorem cleanNodes_cons_elem (n : Str) (ch : List Node) (rest : List Node)
    (fl : Bool) :
    cleanNodes (Node.elem n ch :: rest) fl =
      (cleanElem (Node.elem n ch) && cleanNodes rest true) := rfl

theorem cleanElem_moduleTree (n : Nat) :
    cleanElem (moduleTree n) = true := by
  have hall : (str "FPC " ++ natStr n).all textChar = true := by
    rw [List.all_append, Bool.and_eq_true]
    exact ⟨by decide, List.all_eq_true.mpr
      (fun c hc => textChar_of_isDigit (natStr_all_digit n c hc))⟩
  have hnemp : (str "FPC " ++ natStr n).isEmpty = false :=
    isEmpty_false (by simp [str])
  unfold moduleTree
  rw [cleanElem_def, cleanNodes_cons_elem, cleanElem_def,
    cleanNodes_cons_text, cleanNodes_cons_elem, hall, hnemp]
  simp only [List.isEmpty_cons]
  decide

theorem cleanNodes_map_moduleTree :
    ∀ (slots : List Nat) (fl : Bool),
      cleanNodes (slots.map moduleTree) fl = true := by
  intro slots
  induction slots with
  | nil => intro fl; rfl
  | cons n t ih =>
      intro fl
      show (cleanElem (moduleTree n) && cleanNodes (t.map moduleTree) true)
        = true
      rw [cleanElem_moduleTree, ih true]
      rfl

theorem cleanElem_rpcTree {slots : List Nat} (h : slots ≠ []) :
    cleanElem (rpcTree slots) = true := by
  unfold rpcTree
  rw [cleanElem_def, cleanNodes_map_moduleTree,
    isEmpty_false (show slots.map moduleTree ≠ [] by simp [h])]
  decide

theorem cleanElem_rootTree {n1 n2 : Str} {c1 c2 : List Node}
    (h1 : cleanElem (Node.elem n1 c1) = true)
    (h2 : cleanElem (Node.elem n2 c2) = true) :
    cleanElem (rootTree (Node.elem n1 c1) (Node.elem n2 c2)) = true := by
  unfold rootTree
  rw [cleanElem_def, cleanNodes_cons_text, cleanNodes_cons_elem,
    cleanNodes_cons_text, cleanNodes_cons_elem, cleanNodes_cons_text,
    cleanNodes_nil_eq, h1, h2]
  simp only [List.isEmpty_cons]
  decide

theorem byTagIncl_moduleTree (n : Nat) :
    byTagIncl (str "chassis-module") (moduleTree n) = [moduleTree n] := rfl

theorem byTagList_map_moduleTree (slots : List Nat) :
    byTagList (str "chassis-module") (slots.map moduleTree) =
      slots.map moduleTree := by
  induction slots with
  | nil => rfl
  | cons n t ih =>
      show byTagIncl (str "chassis-module") (moduleTree n) ++
        byTagList (str "chassis-module") (t.map moduleTree) = _
      rw [byTagIncl_moduleTree, ih]
      rfl

theorem byTag_rootTree (s1 s2 : List Nat) :
    byTagIncl (str "chassis-module") (rootTree (rpcTree s1) (rpcTree s2)) =
      (s1 ++ s2).map moduleTree := by
  show (if str "root" = str "chassis-module"
      then [rootTree (rpcTree s1) (rpcTree s2)] else []) ++
      ([] ++ ((if str "rpc-reply" = str "chassis-module"
          then [rpcTree s1] else []) ++
        byTagList (str "chassis-module") (s1.map moduleTree) ++
        ([] ++ ((if str "rpc-reply" = str "chassis-module"
            then [rpcTree s2] else []) ++
          byTagList (str "chassis-module") (s2.map moduleTree) ++
          ([] ++ []))))) = _
  rw [if_neg (by decide), if_neg (by decide), if_neg (by decide),
    byTagList_map_moduleTree, byTagList_map_moduleTree]
  simp

theorem char_ofNat_digit_toNat : ∀ d < 10, (Char.ofNat (48 + d)).toNat = 48 + d := by
  decide

theorem digitsToNat_append (xs : Str) (c : Char) :
    digitsToNat (xs ++ [c]) = digitsToNat xs * 10 + (c.toNat - 48) := by
  unfold digitsToNat
  rw [List.foldl_append]
  rfl

theorem digitsToNat_natStrAux :
    ∀ f n, n < f → digitsToNat (natStrAux f n) = n := by
  intro f
  induction f with
  | zero => intro n h; omega
  | succ f ih =>
      intro n h
      rw [natStrAux_succ]
      by_cases h10 : n < 10
      · rw [if_pos h10]
        show (0 * 10 + ((Char.ofNat (48 + n)).toNat - 48)) = n
        rw [char_ofNat_digit_toNat n h10]
        omega
      · rw [if_neg h10, digitsToNat_append]
        have hd : n / 10 < n := Nat.div_lt_self (by omega) (by omega)
        rw [ih (n / 10) (by omega)]
        rw [char_ofNat_digit_toNat (n % 10) (Nat.mod_lt _ (by omega))]
        omega

theorem digitsToNat_natStr (n : Nat) : digitsToNat (natStr n) = n :=
  digitsToNat_natStrAux (n + 1) n (by omega)

theorem natStr_injective {a b : Nat} (h : natStr a = natStr b) : a = b := by
  have h2 := congrArg digitsToNat h
  rwa [digitsToNat_natStr, digitsToNat_natStr] at h2

theorem moduleTree_injective {a b : Nat} (h : moduleTree a = moduleTree b) :
    a = b := by
  unfold moduleTree at h
  injection h with h1 h2
  injection h2 with h3 h4
  injection h3 with h5 h6
  injection h6 with h7 h8
  injection h7 with h9
  exact natStr_injective (List.append_cancel_left h9)

theorem positions_nil_of_head_not_mem {c : Char} {t s : Str} (h : c ∉ s) :
    positions (c :: t) s = [] := by
  apply positions_eq_nil_of_no_occ
  intro i hocc
  have h2 := occursAt_getElem hocc 0 (by simp)
  apply h
  rw [List.mem_iff_getElem?]
  exact ⟨i + 0, by simpa using h2⟩

theorem not_mem_of_all_not {c : Char} {l : Str} (p : Char → Bool)
    (hc : p c = true) (hl : l.all (fun x => !p x) = true) : c ∉ l := by
  intro hmem
  have h2 := List.all_eq_true.mp hl c hmem
  rw [hc] at h2
  simp at h2

theorem positions_modStr (pat : Str) (c0 : Char) (t0 : Str)
    (hpat : pat = c0 :: t0) (hc0 : c0.isDigit = false)
    (hnodig : pat.dropLast.all (fun x => !x.isDigit) = true)
    (hnospace : Char.ofNat 32 ∉ pat.dropLast) (n : Nat) :
    positions pat (modStr n) =
      positions pat (str "<chassis-module><name>FPC ") ++
        (positions pat (str
  "</name><model-number>MPC7E-MRATE</model-number></chassis-module>")).map
          (· + ((natStr n).length + 26)) := by
  subst hpat
  obtain ⟨cl, hcl, hcldig⟩ := natStr_getLast? n
  have hcf2 : CrossFree (c0 :: t0) (natStr n)
      (str "</name><model-number>MPC7E-MRATE</model-number></chassis-module>") :=
    crossFree_of_getLast _ hcl
      (not_mem_of_all_not Char.isDigit hcldig hnodig)
  have hcf1 : CrossFree (c0 :: t0) (str "<chassis-module><name>FPC ")
      (natStr n ++
        str "</name><model-number>MPC7E-MRATE</model-number></chassis-module>") :=
    crossFree_of_getLast _ (by decide) hnospace
  have hnom : c0 ∉ natStr n := by
    intro hmem
    rw [natStr_all_digit n c0 hmem] at hc0
    exact absurd hc0 (by decide)
  rw [modStr_eq, List.append_assoc]
  rw [positions_append (by simp) _ _ hcf1, positions_append (by simp) _ _ hcf2]
  rw [positions_nil_of_head_not_mem hnom]
  simp only [List.nil_append, List.map_map]
  have hfun : ((· + (str "<chassis-module><name>FPC ").length) ∘
      (· + (natStr n).length)) = (fun x => x + ((natStr n).length + 26)) := by
    funext x
    simp only [Function.comp_apply]
    rw [show (str "<chassis-module><name>FPC ").length = 26 from rfl]
    omega
  rw [hfun]

theorem positions_modStr_rpcOpen (n : Nat) :
    positions (str "<rpc-reply") (modStr n) = [] := by
  rw [positions_modStr (str "<rpc-reply") (Char.ofNat 60) (str "rpc-reply")
    rfl (by decide) (by decide) (by decide) n]
  rw [show positions (str "<rpc-reply")
      (str "<chassis-module><name>FPC ") = [] from by decide]
  rw [show positions (str "<rpc-reply")
      (str "</name><model-number>MPC7E-MRATE</model-number></chassis-module>")
      = [] from by decide]
  rfl

theorem positions_modStr_rpcClose (n : Nat) :
    positions (str "</rpc-reply>") (modStr n) = [] := by
  rw [positions_modStr (str "</rpc-reply>") (Char.ofNat 60) (str "/rpc-reply>")
    rfl (by decide) (by decide) (by decide) n]
  rw [show positions (str "</rpc-reply>")
      (str "<chassis-module><name>FPC ") = [] from by decide]
  rw [show positions (str "</rpc-reply>")
      (str "</name><model-number>MPC7E-MRATE</model-number></chassis-module>")
      = [] from by decide]
  rfl

theorem positions_modStr_cmOpen (n : Nat) :
    positions (str "<chassis-module>") (modStr n) = [0] := by
  rw [positions_modStr (str "<chassis-module>") (Char.ofNat 60)
    (str "chassis-module>") rfl (by decide) (by decide) (by decide) n]
  rw [show positions (str "<chassis-module>")
      (str "<chassis-module><name>FPC ") = [0] from by decide]
  rw [show positions (str "<chassis-module>")
      (str "</name><model-number>MPC7E-MRATE</model-number></chassis-module>")
      = [] from by decide]
  rfl

theorem positions_modStr_cmClose (n : Nat) :
    positions (str "</chassis-module>") (modStr n) =
      [(natStr n).length + 73] := by
  rw [positions_modStr (str "</chassis-module>") (Char.ofNat 60)
    (str "/chassis-module>") rfl (by decide) (by decide) (by decide) n]
  rw [show positions (str "</chassis-module>")
      (str "<chassis-module><name>FPC ") = [] from by decide]
  rw [show positions (str "</chassis-module>")
      (str "</name><model-number>MPC7E-MRATE</model-number></chassis-module>")
      = [47] from by decide]
  simp only [List.map_cons, List.map_nil, List.nil_append]
  rw [show 47 + ((natStr n).length + 26) = (natStr n).length + 73 from by omega]

theorem modStr_getLast? (n : Nat) :
    (modStr n).getLast? = some (Char.ofNat 62) := by
  rw [modStr_eq, getLast?_append_right_ne _ (by decide)]
  decide

theorem modStr_ne_nil (n : Nat) : modStr n ≠ [] := by
  rw [modStr_eq]
  simp [str]

theorem bodyStr_ne_nil {slots : List Nat} (h : slots ≠ []) :
    bodyStr slots ≠ [] := by
  obtain ⟨n, t, rfl⟩ := List.exists_cons_of_ne_nil h
  rw [bodyStr_cons]
  intro he
  exact modStr_ne_nil n (List.append_eq_nil.mp he).1

theorem bodyStr_getLast? {slots : List Nat} (h : slots ≠ []) :
    (bodyStr slots).getLast? = some (Char.ofNat 62) := by
  induction slots with
  | nil => exact absurd rfl h
  | cons n t ih =>
      rw [bodyStr_cons]
      by_cases ht : t = []
      · subst ht
        rw [bodyStr_nil, List.append_nil]
        exact modStr_getLast? n
      · rw [getLast?_append_right_ne _ (bodyStr_ne_nil ht)]
        exact ih ht

theorem bodyStr_positions_append (pat : Str) (hne : pat ≠ [])
    (hgt : Char.ofNat 62 ∉ pat.dropLast) (n : Nat) (t : List Nat) :
    positions pat (bodyStr (n :: t)) =
      positions pat (modStr n) ++
        (positions pat (bodyStr t)).map (· + (modStr n).length) := by
  rw [bodyStr_cons]
  exact positions_append hne _ _
    (crossFree_of_getLast _ (modStr_getLast? n) hgt)

theorem positions_bodyStr_nil (pat : Str) (hne : pat ≠ [])
    (hgt : Char.ofNat 62 ∉ pat.dropLast)
    (hmod : ∀ n, positions pat (modStr n) = []) :
    ∀ slots, positions pat (bodyStr slots) = [] := by
  intro slots
  induction slots with
  | nil => exact positions_nil hne
  | cons n t ih =>
      rw [bodyStr_positions_append pat hne hgt, hmod, ih]
      rfl

theorem length_positions_bodyStr_one (pat : Str) (hne : pat ≠ [])
    (hgt : Char.ofNat 62 ∉ pat.dropLast)
    (hmod : ∀ n, (positions pat (modStr n)).length = 1) :
    ∀ slots : List Nat,
      (positions pat (bodyStr slots)).length = slots.length := by
  intro slots
  induction slots with
  | nil =>
      rw [bodyStr_nil, positions_nil hne]
  | cons n t ih =>
      rw [bodyStr_positions_append pat hne hgt]
      rw [List.length_append, List.length_map, hmod n, ih]
      simp only [List.length_cons]
      omega

theorem mkRpcDoc_positions (pat : Str) (hne : pat ≠ [])
    (hgt : Char.ofNat 62 ∉ pat.dropLast) {slots : List Nat}
    (h : slots ≠ []) :
    positions pat (mkRpcDoc slots) =
      positions pat (str "<rpc-reply>") ++
        (positions pat (bodyStr slots) ++
          (positions pat (str "</rpc-reply>")).map
            (· + (bodyStr slots).length)).map (· + 11) := by
  rw [mkRpcDoc_eq, List.append_assoc]
  rw [positions_append hne _ _ (crossFree_of_getLast _
    (show (str "<rpc-reply>").getLast? = some (Char.ofNat 62) from by decide)
    hgt)]
  rw [positions_append hne _ _ (crossFree_of_getLast _
    (bodyStr_getLast? h) hgt)]
  rw [show (str "<rpc-reply>").length = 11 from rfl]

theorem positions_rpcOpen_mkRpcDoc {slots : List Nat} (h : slots ≠ []) :
    positions (str "<rpc-reply") (mkRpcDoc slots) = [0] := by
  rw [mkRpcDoc_positions (str "<rpc-reply") (by simp [str]) (by decide) h]
  rw [positions_bodyStr_nil (str "<rpc-reply") (by simp [str]) (by decide)
    positions_modStr_rpcOpen]
  rw [show positions (str "<rpc-reply") (str "<rpc-reply>") = [0] from
    by decide]
  rw [show positions (str "<rpc-reply") (str "</rpc-reply>") = [] from
    by decide]
  rfl

theorem positions_rpcClose_mkRpcDoc {slots : List Nat} (h : slots ≠ []) :
    positions (str "</rpc-reply>") (mkRpcDoc slots) =
      [(bodyStr slots).length + 11] := by
  rw [mkRpcDoc_positions (str "</rpc-reply>") (by simp [str]) (by decide) h]
  rw [positions_bodyStr_nil (str "</rpc-reply>") (by simp [str]) (by decide)
    positions_modStr_rpcClose]
  rw [show positions (str "</rpc-reply>") (str "<rpc-reply>") = [] from
    by decide]
  rw [show positions (str "</rpc-reply>") (str "</rpc-reply>") = [0] from
    by decide]
  simp only [List.map_cons, List.map_nil, List.nil_append]
  rw [show 0 + (bodyStr slots).length + 11 = (bodyStr slots).length + 11 from
    by omega]

theorem count_cmOpen_mkRpcDoc {slots : List Nat} (h : slots ≠ []) :
    pyCount (str "<chassis-module>") (mkRpcDoc slots) = slots.length := by
  rw [pyCount_eq_length_positions (by simp [str]) (by decide)]
  rw [mkRpcDoc_positions (str "<chassis-module>") (by simp [str]) (by decide)
    h]
  rw [show positions (str "<chassis-module>") (str "<rpc-reply>") = [] from
    by decide]
  rw [show positions (str "<chassis-module>") (str "</rpc-reply>") = [] from
    by decide]
  simp only [List.nil_append, List.map_nil, List.append_nil, List.length_map]
  exact length_positions_bodyStr_one (str "<chassis-module>") (by simp [str])
    (by decide) (fun n => by rw [positions_modStr_cmOpen n]; rfl) slots

theorem count_cmClose_mkRpcDoc {slots : List Nat} (h : slots ≠ []) :
    pyCount (str "</chassis-module>") (mkRpcDoc slots) = slots.length := by
  rw [pyCount_eq_length_positions (by simp [str]) (by decide)]
  rw [mkRpcDoc_positions (str "</chassis-module>") (by simp [str]) (by decide)
    h]
  rw [show positions (str "</chassis-module>") (str "<rpc-reply>") = [] from
    by decide]
  rw [show positions (str "</chassis-module>") (str "</rpc-reply>") = [] from
    by decide]
  simp only [List.nil_append, List.map_nil, List.append_nil, List.length_map]
  exact length_positions_bodyStr_one (str "</chassis-module>") (by simp [str])
    (by decide) (fun n => by rw [positions_modStr_cmClose n]; rfl) slots

theorem mkRpcDoc_getLast? (slots : List Nat) :
    (mkRpcDoc slots).getLast? = some (Char.ofNat 62) := by
  rw [mkRpcDoc_eq, getLast?_append_right_ne _ (by decide)]
  decide

theorem mkRpcDoc_length (slots : List Nat) :
    (mkRpcDoc slots).length = (bodyStr slots).length + 23 := by
  rw [mkRpcDoc_eq, List.length_append, List.length_append]
  rw [show (str "<rpc-reply>").length = 11 from rfl]
  rw [show (str "</rpc-reply>").length = 12 from rfl]
  omega

theorem pyFind_of_positions {pat s : Str} (hne : pat ≠ []) {j start : Nat}
    (hstart : start ≤ j) (hmem : j ∈ positions pat s)
    (hmin : ∀ i ∈ positions pat s, start ≤ i → j ≤ i) :
    pyFind pat s start = some j := by
  rw [pyFind_eq_some_iff hne]
  refine ⟨hstart, (mem_positions hne s j).mp hmem, ?_⟩
  intro i hle hlt hocc
  have := hmin i ((mem_positions hne s i).mpr hocc) hle
  omega

theorem pyFind_none_of_positions {pat s : Str} (hne : pat ≠ []) (start : Nat)
    (h : ∀ i ∈ positions pat s, i < start) : pyFind pat s start = none := by
  rw [pyFind_eq_none_iff hne]
  intro i hle hocc
  have := h i ((mem_positions hne s i).mpr hocc)
  omega

theorem positions_rpcOpen_F {s1 s2 : List Nat} (h1 : s1 ≠ []) (h2 : s2 ≠ []) :
    positions (str "<rpc-reply") (mkRpcDoc s1 ++ mkRpcDoc s2) =
      [0, (mkRpcDoc s1).length] := by
  rw [positions_append (by simp [str]) _ _
    (crossFree_of_getLast _ (mkRpcDoc_getLast? s1) (by decide))]
  rw [positions_rpcOpen_mkRpcDoc h1, positions_rpcOpen_mkRpcDoc h2]
  simp

theorem positions_rpcClose_F {s1 s2 : List Nat} (h1 : s1 ≠ [])
    (h2 : s2 ≠ []) :
    positions (str "</rpc-reply>") (mkRpcDoc s1 ++ mkRpcDoc s2) =
      [(bodyStr s1).length + 11,
       (bodyStr s2).length + 11 + (mkRpcDoc s1).length] := by
  rw [positions_append (by simp [str]) _ _
    (crossFree_of_getLast _ (mkRpcDoc_getLast? s1) (by decide))]
  rw [positions_rpcClose_mkRpcDoc h1, positions_rpcClose_mkRpcDoc h2]
  rfl

theorem count_rpcOpen_F {s1 s2 : List Nat} (h1 : s1 ≠ []) (h2 : s2 ≠ []) :
    pyCount (str "<rpc-reply") (mkRpcDoc s1 ++ mkRpcDoc s2) = 2 := by
  rw [pyCount_eq_length_positions (by simp [str]) (by decide)]
  rw [positions_rpcOpen_F h1 h2]
  rfl

theorem find_open_0 {s1 s2 : List Nat} (h1 : s1 ≠ []) (h2 : s2 ≠ []) :
    pyFind (str "<rpc-reply") (mkRpcDoc s1 ++ mkRpcDoc s2) 0 = some 0 := by
  refine pyFind_of_positions (by simp [str]) (le_refl 0) ?_ ?_
  · rw [positions_rpcOpen_F h1 h2]
    simp
  · intro i _ _
    omega

theorem find_close_0 {s1 s2 : List Nat} (h1 : s1 ≠ []) (h2 : s2 ≠ []) :
    pyFind (str "</rpc-reply>") (mkRpcDoc s1 ++ mkRpcDoc s2) 0 =
      some ((bodyStr s1).length + 11) := by
  refine pyFind_of_positions (by simp [str]) (by omega) ?_ ?_
  · rw [positions_rpcClose_F h1 h2]
    simp
  · intro i hi _
    rw [positions_rpcClose_F h1 h2] at hi
    have hlen := mkRpcDoc_length s1
    simp only [List.mem_cons, List.mem_singleton] at hi
    rcases hi with rfl | rfl | h
    · omega
    · omega
    · exact absurd h (List.not_mem_nil i)

theorem find_open_mid {s1 s2 : List Nat} (h1 : s1 ≠ []) (h2 : s2 ≠ []) :
    pyFind (str "<rpc-reply") (mkRpcDoc s1 ++ mkRpcDoc s2)
      ((bodyStr s1).length + 11 + 12) = some ((mkRpcDoc s1).length) := by
  have hlen := mkRpcDoc_length s1
  refine pyFind_of_positions (by simp [str]) (by omega) ?_ ?_
  · rw [positions_rpcOpen_F h1 h2]
    simp
  · intro i hi hstart
    rw [positions_rpcOpen_F h1 h2] at hi
    simp only [List.mem_cons, List.mem_singleton] at hi
    rcases hi with rfl | rfl | h
    · omega
    · omega
    · exact absurd h (List.not_mem_nil i)

theorem find_close_mid {s1 s2 : List Nat} (h1 : s1 ≠ []) (h2 : s2 ≠ []) :
    pyFind (str "</rpc-reply>") (mkRpcDoc s1 ++ mkRpcDoc s2)
      ((mkRpcDoc s1).length) =
      some ((bodyStr s2).length + 11 + (mkRpcDoc s1).length) := by
  have hlen := mkRpcDoc_length s1
  refine pyFind_of_positions (by simp [str]) (by omega) ?_ ?_
  · rw [positions_rpcClose_F h1 h2]
    simp
  · intro i hi hstart
    rw [positions_rpcClose_F h1 h2] at hi
    simp only [List.mem_cons, List.mem_singleton] at hi
    rcases hi with rfl | rfl | h
    · omega
    · omega
    · exact absurd h (List.not_mem_nil i)

theorem find_open_end {s1 s2 : List Nat} (h1 : s1 ≠ []) (h2 : s2 ≠ []) :
    pyFind (str "<rpc-reply") (mkRpcDoc s1 ++ mkRpcDoc s2)
      ((bodyStr s2).length + 11 + (mkRpcDoc s1).length + 12) = none := by
  have hlen1 := mkRpcDoc_length s1
  have hlen2 := mkRpcDoc_length s2
  refine pyFind_none_of_positions (by simp [str]) _ ?_
  intro i hi
  rw [positions_rpcOpen_F h1 h2] at hi
  simp only [List.mem_cons, List.mem_singleton] at hi
  rcases hi with rfl | rfl | h
  · omega
  · omega
  · exact absurd h (List.not_mem_nil i)

theorem slice_first {s1 s2 : List Nat} :
    pySlice (mkRpcDoc s1 ++ mkRpcDoc s2) 0 ((bodyStr s1).length + 11 + 12) =
      mkRpcDoc s1 := by
  unfold pySlice
  rw [List.drop_zero]
  rw [show (bodyStr s1).length + 11 + 12 - 0 = (mkRpcDoc s1).length from by
    rw [mkRpcDoc_length]; omega]
  exact List.take_left _ _

theorem slice_second {s1 s2 : List Nat} :
    pySlice (mkRpcDoc s1 ++ mkRpcDoc s2) ((mkRpcDoc s1).length)
      ((bodyStr s2).length + 11 + (mkRpcDoc s1).length + 12) =
      mkRpcDoc s2 := by
  unfold pySlice
  rw [List.drop_left]
  rw [show (bodyStr s2).length + 11 + (mkRpcDoc s1).length + 12 -
      (mkRpcDoc s1).length = (mkRpcDoc s2).length from by
    rw [mkRpcDoc_length s1, mkRpcDoc_length s2]; omega]
  exact List.take_length _

theorem rpcSplitLoop_succ (fragment : Str) (f pos : Nat) :
    rpcSplitLoop fragment (f + 1) pos =
      match pyFind (str "<rpc-reply") fragment pos with
      | none => []
      | some start_pos =>
          match pyFind (str "</rpc-reply>") fragment start_pos with
          | none => []
          | some e =>
              pySlice fragment start_pos (e + 12) ::
                rpcSplitLoop fragment f (e + 12) := rfl

theorem rpcSplitLoop_cons {F : Str} (f pos sp e : Nat)
    (hf : pyFind (str "<rpc-reply") F pos = some sp)
    (he : pyFind (str "</rpc-reply>") F sp = some e) :
    rpcSplitLoop F (f + 1) pos =
      pySlice F sp (e + 12) :: rpcSplitLoop F f (e + 12) := by
  rw [rpcSplitLoop_succ, hf]
  show (match pyFind (str "</rpc-reply>") F sp with
    | none => []
    | some e2 =>
        pySlice F sp (e2 + 12) :: rpcSplitLoop F f (e2 + 12)) = _
  rw [he]

theorem rpcSplitLoop_none {F : Str} (f pos : Nat)
    (hf : pyFind (str "<rpc-reply") F pos = none) :
    rpcSplitLoop F (f + 1) pos = [] := by
  rw [rpcSplitLoop_succ, hf]

theorem rpcSplit_two {s1 s2 : List Nat} (h1 : s1 ≠ []) (h2 : s2 ≠ []) :
    rpcSplitLoop (mkRpcDoc s1 ++ mkRpcDoc s2)
      (mkRpcDoc s1 ++ mkRpcDoc s2).length 0 = [mkRpcDoc s1, mkRpcDoc s2] := by
  obtain ⟨g, hg⟩ : ∃ g, (mkRpcDoc s1 ++ mkRpcDoc s2).length = g + 3 :=
    ⟨(mkRpcDoc s1 ++ mkRpcDoc s2).length - 3, by
      rw [List.length_append, mkRpcDoc_length, mkRpcDoc_length]; omega⟩
  rw [hg]
  rw [show g + 3 = (g + 2) + 1 from rfl]
  rw [rpcSplitLoop_cons (g + 2) 0 0 ((bodyStr s1).length + 11)
    (find_open_0 h1 h2) (find_close_0 h1 h2)]
  rw [show g + 2 = (g + 1) + 1 from rfl]
  rw [rpcSplitLoop_cons (g + 1) ((bodyStr s1).length + 11 + 12)
    ((mkRpcDoc s1).length) ((bodyStr s2).length + 11 + (mkRpcDoc s1).length)
    (find_open_mid h1 h2) (find_close_mid h1 h2)]
  rw [rpcSplitLoop_none g _ (find_open_end h1 h2)]
  rw [slice_first, slice_second]

theorem mkRpcDoc_ne_nil (slots : List Nat) : mkRpcDoc slots ≠ [] := by
  rw [mkRpcDoc_eq]
  simp [str]

theorem condRepair_mkRpcDoc {slots : List Nat} (h : slots ≠ []) :
    condRepair (mkRpcDoc slots) = mkRpcDoc slots := by
  unfold condRepair
  rw [count_cmOpen_mkRpcDoc h, count_cmClose_mkRpcDoc h]
  simp

theorem repair_mkRpcDoc {slots : List Nat} (h : slots ≠ []) :
    _repair_xml_tag_mismatches (mkRpcDoc slots) = mkRpcDoc slots := by
  show _repair_xml_tag_mismatches (toxml (rpcTree slots)) = _
  rw [repair_mismatch_toxml (cleanElem_rpcTree h)]
  rfl

theorem parse_mkRpcDoc {slots : List Nat} (h : slots ≠ []) :
    parseString (mkRpcDoc slots) = some (rpcTree slots) := by
  show parseString (toxml (rpcTree slots)) = _
  exact parse_toxml (cleanElem_rpcTree h)

theorem processBlock_mkRpcDoc {slots : List Nat} (h : slots ≠ []) :
    processBlock (mkRpcDoc slots) = some (rpcTree slots) := by
  unfold processBlock
  rw [condRepair_mkRpcDoc h, repair_mkRpcDoc h, parse_mkRpcDoc h]

theorem cleanElem_rootTree_rpc {s1 s2 : List Nat} (h1 : s1 ≠ [])
    (h2 : s2 ≠ []) :
    cleanElem (rootTree (rpcTree s1) (rpcTree s2)) = true :=
  cleanElem_rootTree (cleanElem_rpcTree h1) (cleanElem_rpcTree h2)

theorem combineDocs_two {s1 s2 : List Nat} (h1 : s1 ≠ []) (h2 : s2 ≠ []) :
    combineDocs [rpcTree s1, rpcTree s2] =
      some (rootTree (rpcTree s1) (rpcTree s2)) := by
  unfold combineDocs
  show (match parseString (str "<root>\n" ++
      concatXmlNL [rpcTree s1, rpcTree s2] ++ str "</root>") with
    | some d => some d
    | none => firstWithChassis [rpcTree s1, rpcTree s2]) = _
  rw [combined_eq, parse_toxml (cleanElem_rootTree_rpc h1 h2)]

theorem parse_two_docs {s1 s2 : List Nat} (h1 : s1 ≠ []) (h2 : s2 ≠ [])
    (hint : Option Str) :
    _parse_fragments_to_dom (mkRpcDoc s1 ++ mkRpcDoc s2) hint =
      some (rootTree (rpcTree s1) (rpcTree s2)) := by
  unfold _parse_fragments_to_dom
  rw [if_neg (show ¬ ((mkRpcDoc s1 ++ mkRpcDoc s2).isEmpty = true) from by
    rw [isEmpty_false (show mkRpcDoc s1 ++ mkRpcDoc s2 ≠ [] from fun he =>
      mkRpcDoc_ne_nil s1 (List.append_eq_nil.mp he).1)]
    simp)]
  rw [if_pos (show 1 < pyCount (str "<rpc-reply")
      (mkRpcDoc s1 ++ mkRpcDoc s2) from by
    rw [count_rpcOpen_F h1 h2]
    omega)]
  rw [rpcSplit_two h1 h2]
  rw [show List.filterMap processBlock [mkRpcDoc s1, mkRpcDoc s2] =
      [rpcTree s1, rpcTree s2] from by
    simp [List.filterMap_cons, processBlock_mkRpcDoc h1,
      processBlock_mkRpcDoc h2]]
  rw [combineDocs_two h1 h2]

theorem byTag_rpcTree (s : List Nat) :
    byTagIncl (str "chassis-module") (rpcTree s) = s.map moduleTree := by
  show (if str "rpc-reply" = str "chassis-module" then [rpcTree s] else []) ++
    byTagList (str "chassis-module") (s.map moduleTree) = _
  rw [if_neg (by decide), byTagList_map_moduleTree]
  rfl

/-- C3: for every fragment formed of two concatenated well-formed
`rpc-reply` documents holding chassis-modules over disjoint slot sets,
the parser returns a merged document whose `chassis-module` elements are
exactly the concatenation of the two documents' chassis-module elements
(the union: nothing lost), and that element list has no duplicates. -/
theorem C3_merge_union (s1 s2 : List Nat) (hint : Option Str)
    (h1 : s1 ≠ []) (h2 : s2 ≠ []) (hn1 : s1.Nodup) (hn2 : s2.Nodup)
    (hdisj : ∀ a ∈ s1, a ∉ s2) :
    ∃ D, _parse_fragments_to_dom (mkRpcDoc s1 ++ mkRpcDoc s2) hint =
        some D ∧
      byTagIncl (str "chassis-module") D =
        byTagIncl (str "chassis-module") (rpcTree s1) ++
          byTagIncl (str "chassis-module") (rpcTree s2) ∧
      byTagIncl (str "chassis-module") D = (s1 ++ s2).map moduleTree ∧
      (byTagIncl (str "chassis-module") D).Nodup := by
  refine ⟨rootTree (rpcTree s1) (rpcTree s2), parse_two_docs h1 h2 hint,
    ?_, byTag_rootTree s1 s2, ?_⟩
  · rw [byTag_rootTree s1 s2, byTag_rpcTree, byTag_rpcTree, List.map_append]
  · rw [byTag_rootTree s1 s2]
    refine List.Nodup.map (fun a b h => moduleTree_injective h) ?_
    rw [List.nodup_append]
    exact ⟨hn1, hn2, fun a ha hb => hdisj a ha hb⟩

theorem C3_merge_union_witness :
    ∃ D, _parse_fragments_to_dom (mkRpcDoc [0] ++ mkRpcDoc [1]) none =
        some D ∧
      byTagIncl (str "chassis-module") D =
        byTagIncl (str "chassis-module") (rpcTree [0]) ++
          byTagIncl (str "chassis-module") (rpcTree [1]) ∧
      byTagIncl (str "chassis-module") D =
        ([0, 1] : List Nat).map moduleTree ∧
      (byTagIncl (str "chassis-module") D).Nodup :=
  C3_merge_union [0] [1] none (by decide) (by decide) (by decide)
    (by decide) (by decide)

end FpcUtil
